import Mathlib

/-! # tui_cxx: layout engine and differential renderer

A shallow embedding of `src/tui.h` (the C widget tree, `tui_init`,
`widget_compute_layout`, `widget_render_to_buffer`, `tui_render`, `run`) and of
`src/tui.cpp` and `src/tui.hpp` (`App::set_cell`, `App::draw`,
`App::render_cell`, the widget classes, `Layout`).  Every `uint32_t` is a
natural number below `2 ^ 32`; the operations that can wrap reduce modulo
`2 ^ 32` explicitly.  The `std::string` symbol of a cell of `tui.hpp` is the
list of its bytes, and a text is painted byte by byte.
-/

namespace TuiCxx

/-! ## 32-bit unsigned arithmetic -/

/-- The modulus of `uint32_t`. -/
def U32 : Nat := 4294967296

/-- Unsigned 32-bit addition `a + b`. -/
def add32 (a b : Nat) : Nat := (a + b) % U32

/-- Unsigned 32-bit subtraction `a - b` (wraps below zero). -/
def sub32 (a b : Nat) : Nat := (a + (U32 - b % U32)) % U32

/-- Unsigned 32-bit multiplication `a * b`. -/
def mul32 (a b : Nat) : Nat := (a * b) % U32

/-! ## Data model of `tui.h` -/

/-- The enum `Color`: a single value. -/
inductive Color where
  | DEFAULT
  deriving DecidableEq, Repr

/-- The enum `Style`. -/
inductive Style where
  | REGULAR
  | BOLD
  | UNDERLINE
  deriving DecidableEq, Repr

/-- The struct `Cell`; the `wchar_t` symbol is its code point. -/
structure Cell where
  symbol : Nat
  foreground_color : Color
  background_color : Color
  style : Style
  deriving DecidableEq, Repr

/-- The struct `BorderSet`. -/
structure BorderSet where
  top_left : Nat
  top_right : Nat
  bottom_left : Nat
  bottom_right : Nat
  horizontal : Nat
  vertical : Nat
  deriving DecidableEq, Repr

/-- The constant `DOUBLE_LINE`. -/
def DOUBLE_LINE : BorderSet := ⟨0x2554, 0x2557, 0x255A, 0x255D, 0x2550, 0x2551⟩

/-- The enum `SizeType`. -/
inductive SizeType where
  | SIZE_FIXED
  | SIZE_FLEX
  | SIZE_ABSOLUTE
  deriving DecidableEq, Repr

/-- The struct `Constraint`. -/
structure Constraint where
  type : SizeType
  value : Nat
  deriving DecidableEq, Repr

/-- The macro `FIXED(val)`. -/
def FIXED (val : Nat) : Constraint := ⟨SizeType.SIZE_FIXED, val⟩

/-- The macro `FLEX(val)`. -/
def FLEX (val : Nat) : Constraint := ⟨SizeType.SIZE_FLEX, val⟩

/-- The macro `ABSOLUTE(val)`. -/
def ABSOLUTE (val : Nat) : Constraint := ⟨SizeType.SIZE_ABSOLUTE, val⟩

/-- The enum `WidgetType`. -/
inductive WidgetType where
  | WIDGET_VRECT
  | WIDGET_HRECT
  | WIDGET_STACK
  | WIDGET_BOX
  deriving DecidableEq, Repr

/-- The struct `Widget`: `children` is the array `children[0 .. child_count)`. -/
inductive Widget where
  | mk (type : WidgetType) (width_constraint height_constraint : Constraint)
      (borders : BorderSet) (x y w h : Nat) (children : List Widget)

namespace Widget

/-- Field `type`. -/
def type : Widget → WidgetType
  | mk t _ _ _ _ _ _ _ _ => t

/-- Field `width_constraint`. -/
def width_constraint : Widget → Constraint
  | mk _ wc _ _ _ _ _ _ _ => wc

/-- Field `height_constraint`. -/
def height_constraint : Widget → Constraint
  | mk _ _ hc _ _ _ _ _ _ => hc

/-- Field `borders`. -/
def borders : Widget → BorderSet
  | mk _ _ _ b _ _ _ _ _ => b

/-- Field `x`. -/
def x : Widget → Nat
  | mk _ _ _ _ x _ _ _ _ => x

/-- Field `y`. -/
def y : Widget → Nat
  | mk _ _ _ _ _ y _ _ _ => y

/-- Field `w`. -/
def w : Widget → Nat
  | mk _ _ _ _ _ _ w _ _ => w

/-- Field `h`. -/
def h : Widget → Nat
  | mk _ _ _ _ _ _ _ h _ => h

/-- Field `children`. -/
def children : Widget → List Widget
  | mk _ _ _ _ _ _ _ _ cs => cs

/-- Field `child_count`. -/
def child_count (wd : Widget) : Nat := wd.children.length

end Widget

/-- The function `create_widget`: a zeroed node with the given kind and
constraints and the default border. -/
def create_widget (type : WidgetType) (width_constraint height_constraint : Constraint) :
    Widget :=
  Widget.mk type width_constraint height_constraint DOUBLE_LINE 0 0 0 0 []

/-- The function `widget_add_child`: append `child` to `parent`. -/
def widget_add_child : Widget → Widget → Widget
  | Widget.mk t wc hc b x y w h cs, child => Widget.mk t wc hc b x y w h (cs ++ [child])

/-! ## `widget_compute_layout` -/

/-- First loop of the `WIDGET_VRECT` branch: deduct every `SIZE_FIXED` height
from `remaining_h`. -/
def deduct_fixed_heights : List Widget → Nat → Nat
  | [], remaining_h => remaining_h
  | child :: rest, remaining_h =>
    if child.height_constraint.type = SizeType.SIZE_FIXED then
      deduct_fixed_heights rest (sub32 remaining_h child.height_constraint.value)
    else deduct_fixed_heights rest remaining_h

/-- First loop of the `WIDGET_HRECT` branch: deduct every `SIZE_FIXED` width
from `remaining_w`. -/
def deduct_fixed_widths : List Widget → Nat → Nat
  | [], remaining_w => remaining_w
  | child :: rest, remaining_w =>
    if child.width_constraint.type = SizeType.SIZE_FIXED then
      deduct_fixed_widths rest (sub32 remaining_w child.width_constraint.value)
    else deduct_fixed_widths rest remaining_w

/-- The value of `child_h` (resp. `child_w`) computed in the body of the second
loop, for the child at index `i` of `child_count` with primary constraint `c`. -/
def child_extent (c : Constraint) (i child_count remaining : Nat) : Nat :=
  if c.type = SizeType.SIZE_FIXED then c.value
  else if c.type = SizeType.SIZE_FLEX then
    if i = child_count - 1 then remaining
    else mul32 remaining c.value / 100
  else 0

/-- The value of `remaining_h` (resp. `remaining_w`) after the body of the
second loop: only a `SIZE_FLEX` child that is not the last one deducts. -/
def next_remaining (c : Constraint) (i child_count remaining : Nat) : Nat :=
  if c.type = SizeType.SIZE_FIXED then remaining
  else if c.type = SizeType.SIZE_FLEX then
    if i = child_count - 1 then remaining
    else sub32 remaining (mul32 remaining c.value / 100)
  else remaining

mutual

/-- The function `widget_compute_layout`: store the rectangle in the node and
lay the children out according to the node's kind. -/
def widget_compute_layout : Widget → Nat → Nat → Nat → Nat → Widget
  | Widget.mk type wc hc b _ _ _ _ children, x, y, width, height =>
    if children.length = 0 then Widget.mk type wc hc b x y width height children
    else
      match type with
      | WidgetType.WIDGET_VRECT =>
        Widget.mk type wc hc b x y width height
          (vrect_loop children children.length 0 x width
            (deduct_fixed_heights children height) y)
      | WidgetType.WIDGET_HRECT =>
        Widget.mk type wc hc b x y width height
          (hrect_loop children children.length 0 y height
            (deduct_fixed_widths children width) x)
      | WidgetType.WIDGET_STACK =>
        Widget.mk type wc hc b x y width height (stack_loop children x y width height)
      | WidgetType.WIDGET_BOX => Widget.mk type wc hc b x y width height children

/-- Second loop of the `WIDGET_VRECT` branch, from index `i` on, over the
children not yet visited. -/
def vrect_loop : List Widget → Nat → Nat → Nat → Nat → Nat → Nat → List Widget
  | [], _, _, _, _, _, _ => []
  | child :: rest, child_count, i, x, width, remaining_h, current_y =>
    widget_compute_layout child x current_y width
        (child_extent child.height_constraint i child_count remaining_h) ::
      vrect_loop rest child_count (i + 1) x width
        (next_remaining child.height_constraint i child_count remaining_h)
        (add32 current_y (child_extent child.height_constraint i child_count remaining_h))

/-- Second loop of the `WIDGET_HRECT` branch, from index `i` on, over the
children not yet visited. -/
def hrect_loop : List Widget → Nat → Nat → Nat → Nat → Nat → Nat → List Widget
  | [], _, _, _, _, _, _ => []
  | child :: rest, child_count, i, y, height, remaining_w, current_x =>
    widget_compute_layout child current_x y
        (child_extent child.width_constraint i child_count remaining_w) height ::
      hrect_loop rest child_count (i + 1) y height
        (next_remaining child.width_constraint i child_count remaining_w)
        (add32 current_x (child_extent child.width_constraint i child_count remaining_w))

/-- The loop of the `WIDGET_STACK` branch over the children not yet visited. -/
def stack_loop : List Widget → Nat → Nat → Nat → Nat → List Widget
  | [], _, _, _, _ => []
  | child :: rest, x, y, width, height =>
    (if child.width_constraint.type = SizeType.SIZE_ABSOLUTE ∧
        child.height_constraint.type = SizeType.SIZE_ABSOLUTE then
      widget_compute_layout child
        (add32 x (sub32 width child.width_constraint.value / 2))
        (add32 y (sub32 height child.height_constraint.value / 2))
        child.width_constraint.value child.height_constraint.value
    else widget_compute_layout child x y width height) ::
      stack_loop rest x y width height

end

/-- The resolved rectangle `(x, y, w, h)` of a node. -/
def Widget.rect (wd : Widget) : Nat × Nat × Nat × Nat := (wd.x, wd.y, wd.w, wd.h)

/-! ## The differential renderer of `tui.h` -/

/-- One terminal write: a cursor-position escape `ESC [ row ; col H`, a style
escape `ESC [ code m`, or a glyph. -/
inductive Write (σ : Type) where
  | cursor (row col : Nat)
  | sgr (code : Nat)
  | glyph (symbol : σ)
  deriving DecidableEq, Repr

/-- The number of cursor-position escapes in an output. -/
def count_cursor {σ : Type} : List (Write σ) → Nat
  | [] => 0
  | Write.cursor _ _ :: rest => count_cursor rest + 1
  | _ :: rest => count_cursor rest

/-- The number of glyph writes in an output. -/
def count_glyph {σ : Type} : List (Write σ) → Nat
  | [] => 0
  | Write.glyph _ :: rest => count_glyph rest + 1
  | _ :: rest => count_glyph rest

/-- A cell read outside an array (undefined in C) reads as this blank cell. -/
def blank_cell : Cell := ⟨32, Color.DEFAULT, Color.DEFAULT, Style.REGULAR⟩

/-- The struct `Tui` without its `termios` field: `terminal` is the back
buffer being painted, `front_buffer` what the terminal shows. -/
structure Tui where
  width : Nat
  height : Nat
  terminal : List Cell
  front_buffer : List Cell
  terminal_len : Nat
  is_dirty : Nat
  root : Option Widget

/-- The conversion `(int)v` of a `uint32_t`. -/
def to_int (v : Nat) : Int :=
  if v % U32 < 2147483648 then ((v % U32 : Nat) : Int) else ((v % U32 : Nat) : Int) - 4294967296

/-- The escape `tui_render` prints for a style: `ESC[0m`, `ESC[1m`, `ESC[4m`. -/
def style_code : Style → Nat
  | Style.REGULAR => 0
  | Style.BOLD => 1
  | Style.UNDERLINE => 4

/-- The local state of `tui_render`: the front buffer, `current_style`,
`cursor_y`, `cursor_x`, and what has been written so far. -/
structure RenderState where
  front : List Cell
  current_style : Style
  cursor_y : Int
  cursor_x : Int
  out : List (Write Nat)

/-- The body of the inner loop of `tui_render` at column `x` of row `y`. -/
def render_step (width : Nat) (back : List Cell) (st : RenderState) (y x : Nat) :
    RenderState :=
  let idx := add32 (mul32 y width) x
  let b := back.getD idx blank_cell
  let f := st.front.getD idx blank_cell
  if b.symbol ≠ f.symbol ∨ b.style ≠ f.style then
    let out1 :=
      if st.cursor_y ≠ to_int y ∨ st.cursor_x ≠ to_int x then
        st.out ++ [Write.cursor (add32 y 1) (add32 x 1)]
      else st.out
    let out2 :=
      if b.style ≠ st.current_style then out1 ++ [Write.sgr (style_code b.style)] else out1
    { front := st.front.set idx b
      current_style := b.style
      cursor_y := to_int y
      cursor_x := to_int (add32 x 1)
      out := out2 ++ [Write.glyph b.symbol] }
  else st

/-- The inner loop of `tui_render`: the columns `0 .. width` of row `y`. -/
def render_row (width : Nat) (back : List Cell) (st : RenderState) (y : Nat) : RenderState :=
  (List.range width).foldl (fun s x => render_step width back s y x) st

/-- The state `tui_render` starts from: `current_style = DEFAULT` (the value 0,
which is `REGULAR`), `cursor_y = cursor_x = -1`, nothing written. -/
def render_init (front : List Cell) : RenderState :=
  ⟨front, Style.REGULAR, -1, -1, []⟩

/-- The two nested loops of `tui_render`. -/
def render_loop (tui : Tui) : RenderState :=
  (List.range tui.height).foldl (fun s y => render_row tui.width tui.terminal s y)
    (render_init tui.front_buffer)

/-- The function `tui_render`: the `Tui` with its front buffer synced, and the
writes sent to the terminal. -/
def tui_render (tui : Tui) : Tui × List (Write Nat) :=
  ({ tui with front_buffer := (render_loop tui).front }, (render_loop tui).out)

/-! ## The diff loop of `tui.cpp` -/

namespace Cxx

/-- The UTF-8 encoding of a character, as the values of its bytes. -/
def utf8_char (c : Char) : List Nat :=
  if c.toNat < 128 then [c.toNat]
  else if c.toNat < 2048 then [192 + c.toNat / 64, 128 + c.toNat % 64]
  else if c.toNat < 65536 then
    [224 + c.toNat / 4096, 128 + c.toNat / 64 % 64, 128 + c.toNat % 64]
  else
    [240 + c.toNat / 262144, 128 + c.toNat / 4096 % 64, 128 + c.toNat / 64 % 64,
      128 + c.toNat % 64]

/-- The bytes of the `std::string` that holds the text `s`: the UTF-8 encoding
of `s`, as the values of the bytes.  `length()` is the length of this list and
`s[i]` its entry at index `i`. -/
def utf8 (s : String) : List Nat := s.data.flatMap utf8_char

/-- The struct `Cell` of `tui.hpp`; its `operator==` compares all fields.  The
`std::string` symbol is the list of its bytes. -/
structure Cell where
  symbol : List Nat
  foreground_color : Color
  background_color : Color
  style : Style
  deriving DecidableEq, Repr

/-- The struct `Rect` of `tui.hpp`. -/
structure Rect where
  x : Nat
  y : Nat
  width : Nat
  height : Nat
  deriving DecidableEq, Repr

/-- The cell `App::draw` and `App::init` fill the buffers with. -/
def blank_cell : Cell := ⟨utf8 " ", Color.DEFAULT, Color.DEFAULT, Style.REGULAR⟩

/-- The buffers and the geometry of the class `App`. -/
structure App where
  cols : Nat
  lines : Nat
  prev_term : List Cell
  term : List Cell
  clip_rect : Rect

/-- The function `App::render_cell`: cursor move, style, symbol, reset. -/
def render_cell (app : App) (x y : Nat) : List (Write (List Nat)) :=
  let cell := app.term.getD (add32 (mul32 y app.cols) x) blank_cell
  [Write.cursor (add32 y 1) (add32 x 1)] ++
    (if cell.style = Style.BOLD then [Write.sgr 1] else []) ++
    (if cell.style = Style.UNDERLINE then [Write.sgr 4] else []) ++
    [Write.glyph cell.symbol] ++ [Write.sgr 0]

/-- The body of the diff loop of `App::draw` at index `i`, on the pair of what
has been written so far and the flag `changed`. -/
def draw_step (app : App) (st : List (Write (List Nat)) × Bool) (i : Nat) :
    List (Write (List Nat)) × Bool :=
  if app.term.getD i blank_cell ≠ app.prev_term.getD i blank_cell then
    (st.1 ++ render_cell app (i % app.cols % U32) (i / app.cols % U32), true)
  else st

/-- The diff loop of `App::draw` (lines 95 to 104), run on a painted `term`. -/
def draw_loop (app : App) : List (Write (List Nat)) × Bool :=
  (List.range app.term.length).foldl (draw_step app) ([], false)

/-- The second half of `App::draw` (lines 95 to 109): the diff loop on the
painted `term`, then `prev_term = term` only if something changed. -/
def draw_diff (app : App) : App × List (Write (List Nat)) :=
  (if (draw_loop app).2 then { app with prev_term := app.term } else app, (draw_loop app).1)

end Cxx

/-! ## Cell writes: `map_cell_at` of `tui.h` and `App::set_cell` of `tui.cpp` -/

/-- The function `map_cell_at`: store `cell` at `(x, y)` of the back buffer and
raise `is_dirty`, or do nothing outside the buffer. -/
def map_cell_at (tui : Tui) (cell : Cell) (x y : Nat) : Tui :=
  if x ≥ tui.width ∨ y ≥ tui.height then tui
  else
    { tui with
      terminal := tui.terminal.set (add32 (mul32 y tui.width) x) cell
      is_dirty := 1 }

namespace Cxx

/-- The function `App::set_clip`. -/
def set_clip (app : App) (rect : Rect) : App := { app with clip_rect := rect }

/-- The function `App::set_cell`: store `symbol` and `style` at `(x, y)` of
`term`, or do nothing outside the buffer or outside the clip rectangle. -/
def set_cell (app : App) (x y : Nat) (symbol : List Nat) (style : Style) : App :=
  if x ≥ app.cols ∨ y ≥ app.lines then app
  else if x < app.clip_rect.x ∨ x ≥ add32 app.clip_rect.x app.clip_rect.width ∨
      y < app.clip_rect.y ∨ y ≥ add32 app.clip_rect.y app.clip_rect.height then app
  else
    { app with
      term := app.term.set (add32 (mul32 y app.cols) x)
        { app.term.getD (add32 (mul32 y app.cols) x) blank_cell with
          symbol := symbol
          style := style } }

end Cxx

/-! ## Painting the widget tree (`tui.h`) -/

/-- The cell `draw_widget_border` stores for a border glyph:
`{ .style = DEFAULT }` with the symbol set. -/
def border_cell (symbol : Nat) : Cell :=
  ⟨symbol, Color.DEFAULT, Color.DEFAULT, Style.REGULAR⟩

/-- The function `draw_widget_border`: the four corners, then the vertical
sides, then the horizontal sides; nothing for a widget narrower or lower than
two cells. -/
def draw_widget_border (tui : Tui) (widget : Widget) : Tui :=
  if widget.w < 2 ∨ widget.h < 2 then tui
  else
    let x2 := sub32 (add32 widget.x widget.w) 1
    let y2 := sub32 (add32 widget.y widget.h) 1
    let t1 := map_cell_at tui (border_cell widget.borders.top_left) widget.x widget.y
    let t2 := map_cell_at t1 (border_cell widget.borders.top_right) x2 widget.y
    let t3 := map_cell_at t2 (border_cell widget.borders.bottom_left) widget.x y2
    let t4 := map_cell_at t3 (border_cell widget.borders.bottom_right) x2 y2
    let t5 := (List.range' 1 (sub32 widget.h 1 - 1)).foldl
      (fun t i =>
        map_cell_at
          (map_cell_at t (border_cell widget.borders.vertical) widget.x (add32 widget.y i))
          (border_cell widget.borders.vertical) x2 (add32 widget.y i)) t4
    (List.range' 1 (sub32 widget.w 1 - 1)).foldl
      (fun t i =>
        map_cell_at
          (map_cell_at t (border_cell widget.borders.horizontal) (add32 widget.x i) widget.y)
          (border_cell widget.borders.horizontal) (add32 widget.x i) y2) t5

/-- The blank fill at the head of `widget_render_to_buffer`: a blank cell at
every `(x, y)` with `widget.y <= y < widget.y + widget.h` and
`widget.x <= x < widget.x + widget.w`, the two bounds computed in 32 bits. -/
def blank_fill (tui : Tui) (widget : Widget) : Tui :=
  (List.range' widget.y (add32 widget.y widget.h - widget.y)).foldl
    (fun t y =>
      (List.range' widget.x (add32 widget.x widget.w - widget.x)).foldl
        (fun t x => map_cell_at t blank_cell x y) t) tui

mutual

/-- The function `widget_render_to_buffer`: the blank fill for a widget whose
width constraint is Absolute, the border for a `WIDGET_BOX`, then the children
in order. -/
def widget_render_to_buffer : Widget → Tui → Tui
  | Widget.mk type wc hc b x y w h children, tui =>
    render_children children
      (if type = WidgetType.WIDGET_BOX then
        draw_widget_border
          (if wc.type = SizeType.SIZE_ABSOLUTE then
            blank_fill tui (Widget.mk type wc hc b x y w h children) else tui)
          (Widget.mk type wc hc b x y w h children)
      else
        (if wc.type = SizeType.SIZE_ABSOLUTE then
          blank_fill tui (Widget.mk type wc hc b x y w h children) else tui))

/-- The loop of `widget_render_to_buffer` over the children not yet painted. -/
def render_children : List Widget → Tui → Tui
  | [], tui => tui
  | child :: rest, tui => render_children rest (widget_render_to_buffer child tui)

end

/-- The loop "Clear previous frame" of `run`: a blank in each of the first
`terminal_len` cells of the back buffer. -/
def clear_frame (tui : Tui) : Tui :=
  { tui with
    terminal := (List.range tui.terminal_len).foldl (fun l i => l.set i blank_cell)
      tui.terminal }

/-- The first half of the body of the loop of `run`, after
`handle_key_input`: clear the back buffer, then lay out and paint the root if
there is one. -/
def paint_frame (tui : Tui) : Tui :=
  match (clear_frame tui).root with
  | none => clear_frame tui
  | some root =>
    widget_render_to_buffer
      (widget_compute_layout root 0 0 (clear_frame tui).width (clear_frame tui).height)
      { clear_frame tui with
        root := some (widget_compute_layout root 0 0 (clear_frame tui).width
          (clear_frame tui).height) }

/-- One tick of `run`: the painting, then `tui_render` and `is_dirty = 0` if
`is_dirty` is set; the `Tui` afterwards and what was written to the
terminal. -/
def tick (tui : Tui) : Tui × List (Write Nat) :=
  if (paint_frame tui).is_dirty ≠ 0 then
    ({ (tui_render (paint_frame tui)).1 with is_dirty := 0 }, (tui_render (paint_frame tui)).2)
  else (paint_frame tui, [])

/-! ## Painting the widgets (`tui.hpp`, `tui.cpp`) -/

namespace Cxx

/-- The function `App::render_text`: one `set_cell` per byte of `text`, with
the one-byte string `std::string(1, text[i])` as symbol, at `x + i` (a 64-bit
sum cut to 32 bits by the call) of row `y`. -/
def render_text (app : App) (x y : Nat) (text : String) (style : Style) : App :=
  (List.range (utf8 text).length).foldl
    (fun a i => set_cell a ((x + i) % U32) y [(utf8 text).getD i 0] style)
    app

/-- The frame that `Box::render` and `LoginWidget::render` draw around
`bounds`: the clip, the horizontal borders, the vertical borders, the four
corners. -/
def render_frame (app : App) (bounds : Rect) : App :=
  let a0 := set_clip app bounds
  let a1 := (List.range bounds.width).foldl
    (fun a i =>
      set_cell (set_cell a (add32 bounds.x i) bounds.y (utf8 "═") Style.REGULAR)
        (add32 bounds.x i) (sub32 (add32 bounds.y bounds.height) 1) (utf8 "═") Style.REGULAR) a0
  let a2 := (List.range bounds.height).foldl
    (fun a i =>
      set_cell (set_cell a bounds.x (add32 bounds.y i) (utf8 "║") Style.REGULAR)
        (sub32 (add32 bounds.x bounds.width) 1) (add32 bounds.y i) (utf8 "║") Style.REGULAR) a1
  let a3 := set_cell a2 bounds.x bounds.y (utf8 "╔") Style.REGULAR
  let a4 := set_cell a3 (sub32 (add32 bounds.x bounds.width) 1) bounds.y (utf8 "╗") Style.REGULAR
  let a5 := set_cell a4 bounds.x (sub32 (add32 bounds.y bounds.height) 1) (utf8 "╚") Style.REGULAR
  set_cell a5 (sub32 (add32 bounds.x bounds.width) 1)
    (sub32 (add32 bounds.y bounds.height) 1) (utf8 "╝") Style.REGULAR

/-- The widget classes of `tui.hpp`, each with its `bounds` and its own
fields. -/
inductive Widget where
  | Label (bounds : Rect) (text : String)
  | Box (bounds : Rect) (title : String)
  | LoginWidget (bounds : Rect) (username password : String) (typing_password : Bool)
  deriving DecidableEq, Repr

/-- The constructor `Label(x, y, t)`: bounds `{x, y, t.length(), 1}`, with
`t.length()`, the number of bytes of `t`, cast to `uint32_t`. -/
def mk_label (x y : Nat) (t : String) : Widget :=
  Widget.Label ⟨x, y, (utf8 t).length % U32, 1⟩ t

/-- Field `bounds` of `Widget`. -/
def Widget.bounds : Widget → Rect
  | Widget.Label b _ => b
  | Widget.Box b _ => b
  | Widget.LoginWidget b _ _ _ => b

/-- The virtual function `render` of the three widget classes. -/
def Widget.render : Widget → App → App
  | Widget.Label b text, app => render_text app b.x b.y text Style.REGULAR
  | Widget.Box b title, app =>
    render_text (render_frame app b) (add32 b.x 2) (add32 b.y 1) title Style.BOLD
  | Widget.LoginWidget b username password typing_password, app =>
    let a1 := render_frame app b
    let a2 := render_text a1 (sub32 (add32 b.x (b.width / 2)) 3) (add32 b.y 1) " LOGIN "
      Style.BOLD
    let a3 := render_text a2 (add32 b.x 4) (add32 b.y 4) "Username:" Style.REGULAR
    let a4 := render_text a3 (add32 b.x 4) (add32 b.y 5) username
      (if typing_password then Style.REGULAR else Style.UNDERLINE)
    let a5 := render_text a4 (add32 b.x 4) (add32 b.y 7) "Password:" Style.REGULAR
    let a6 := render_text a5 (add32 b.x 4) (add32 b.y 8)
      (String.mk (List.replicate (utf8 password).length '*'))
      (if typing_password then Style.UNDERLINE else Style.REGULAR)
    render_text a6 (sub32 (add32 b.x (b.width / 2)) 8) (add32 b.y 10) "[ Enter to Login ]"
      Style.REGULAR

/-- The first half of `App::draw` (lines 87 to 94): fill `term` with blanks,
then for each widget in order set the clip to its bounds and render it. -/
def paint (app : App) (widgets : List Widget) : App :=
  widgets.foldl (fun a w => w.render (set_clip a w.bounds))
    { app with term := List.replicate app.term.length blank_cell }

/-- The function `App::draw` on the widgets of the `App`: paint, then diff. -/
def draw (app : App) (widgets : List Widget) : App × List (Write (List Nat)) :=
  draw_diff (paint app widgets)

end Cxx

/-! ## `tui_init` -/

/-- The cell `calloc` leaves and the loop of `tui_init` stores in the front
buffer: symbol `'\0'`, every other field zero. -/
def nul_cell : Cell := ⟨0, Color.DEFAULT, Color.DEFAULT, Style.REGULAR⟩

/-- The function `tui_init`, on the `ws_col` and `ws_row` that
`get_terminal_size` reads from the `winsize` of the terminal: both buffers are
`calloc`ed with `terminal_len = width * height` (a 32-bit product) cells, then
the loop stores a blank in each cell of the back buffer and a `'\0'` cell in
each cell of the front buffer.  No root yet, `is_dirty` clear. -/
def tui_init (ws_col ws_row : Nat) : Tui :=
  { width := ws_col
    height := ws_row
    terminal := (List.range (mul32 ws_col ws_row)).foldl (fun l i => l.set i blank_cell)
      (List.replicate (mul32 ws_col ws_row) nul_cell)
    front_buffer := (List.range (mul32 ws_col ws_row)).foldl (fun l i => l.set i nul_cell)
      (List.replicate (mul32 ws_col ws_row) nul_cell)
    terminal_len := mul32 ws_col ws_row
    is_dirty := 0
    root := none }

/-! ## `Layout::vertical` and `Layout::horizontal` (`tui.hpp`) -/

namespace Cxx

/-- The conversion of an `int` to `uint32_t`. -/
def to_u32 (h : Int) : Nat := (h % (U32 : Int)).toNat

/-- The loop of `Layout::vertical` over the entries not yet visited, with
`current_y` as it stands. -/
def Layout.vertical_loop (area : Rect) : List Int → Nat → List Rect
  | [], _ => []
  | h :: rest, current_y =>
    ⟨area.x, current_y, area.width,
        if h = 0 then sub32 area.height (sub32 current_y area.y) else to_u32 h⟩ ::
      Layout.vertical_loop area rest
        (add32 current_y
          (if h = 0 then sub32 area.height (sub32 current_y area.y) else to_u32 h))

/-- The function `Layout::vertical`. -/
def Layout.vertical (area : Rect) (heights : List Int) : List Rect :=
  Layout.vertical_loop area heights area.y

/-- The loop of `Layout::horizontal` over the entries not yet visited, with
`current_x` as it stands. -/
def Layout.horizontal_loop (area : Rect) : List Int → Nat → List Rect
  | [], _ => []
  | w :: rest, current_x =>
    ⟨current_x, area.y,
        (if w = 0 then sub32 area.width (sub32 current_x area.x) else to_u32 w),
        area.height⟩ ::
      Layout.horizontal_loop area rest
        (add32 current_x
          (if w = 0 then sub32 area.width (sub32 current_x area.x) else to_u32 w))

/-- The function `Layout::horizontal`. -/
def Layout.horizontal (area : Rect) (widths : List Int) : List Rect :=
  Layout.horizontal_loop area widths area.x

/-- The pairs (start, size) the loop of `Layout::vertical` (resp.
`Layout::horizontal`) hands out along the primary axis, for an area of the
given `extent` starting at `origin`, from `current` on. -/
def fill_sizes (extent origin : Nat) : List Int → Nat → List (Nat × Nat)
  | [], _ => []
  | h :: rest, current =>
    (current, if h = 0 then sub32 extent (sub32 current origin) else to_u32 h) ::
      fill_sizes extent origin rest
        (add32 current (if h = 0 then sub32 extent (sub32 current origin) else to_u32 h))

/-- The sizes handed to the entries before index `k`, summed. -/
def consumed_before (k : Nat) (ps : List (Nat × Nat)) : Nat :=
  ((ps.take k).map Prod.snd).sum

/-- The rule of `Layout::vertical` and `Layout::horizontal` along the primary
axis, for the size list `sizes` and the pairs (start, size) `ps` handed out on
an area of the given `extent` starting at `origin`:
one pair per entry; the first starts at the origin; each next one starts at
the previous start plus the previous size in 32-bit arithmetic, the plain sum
when that is below `2 ^ 32`; a nonzero entry gets its value converted to
`uint32_t`, its own value when positive; an entry of 0 gets the extent minus
the sizes handed out before it in 32-bit arithmetic, the plain difference when
these sizes sum to at most the extent; and when 0 is the last entry and the
sizes handed out before it sum to at most the extent, which is the case as
soon as the earlier entries are all positive and sum to at most the extent,
the sizes sum to the extent. -/
def sequential_fill (extent origin : Nat) (sizes : List Int) (ps : List (Nat × Nat)) : Prop :=
  ps.length = sizes.length ∧
  (∀ p, ps[0]? = some p → p.1 = origin) ∧
  (∀ k p q, ps[k]? = some p → ps[k + 1]? = some q →
    q.1 = (p.1 + p.2) % U32 ∧ (p.1 + p.2 < U32 → q.1 = p.1 + p.2)) ∧
  (∀ (k : Nat) (h : Int) (p : Nat × Nat), sizes[k]? = some h → ps[k]? = some p → h ≠ 0 →
    p.2 = to_u32 h ∧ (0 < h → h < (U32 : Int) → (p.2 : Int) = h)) ∧
  (∀ k p, sizes[k]? = some 0 → ps[k]? = some p →
    p.2 = sub32 extent (consumed_before k ps) ∧
    (consumed_before k ps ≤ extent → p.2 = extent - consumed_before k ps)) ∧
  (sizes.getLast? = some 0 → consumed_before (ps.length - 1) ps ≤ extent →
    (ps.map Prod.snd).sum = extent) ∧
  (sizes.getLast? = some 0 → (∀ h ∈ sizes.dropLast, 0 < h) →
    (sizes.dropLast.sum ≤ (extent : Int)) → (ps.map Prod.snd).sum = extent)

end Cxx

/-! ## `LoginWidget::handle_key` (`tui.hpp`) -/

namespace Cxx

/-- The constructor `LoginWidget(r)`: empty username and password, typing the
username. -/
def mk_login (r : Rect) : Widget := Widget.LoginWidget r "" "" false

/-- The member function `pop_back` of `std::string` on a nonempty string. -/
def pop_back (s : String) : String := ⟨s.data.dropLast⟩

/-- What `LoginWidget::handle_key` does to `target`, the field being typed,
for a byte `c` other than CR and LF: byte 127 removes the last character if
there is one; a byte from 32 to 126 is appended if `target` is shorter than
24; any other byte leaves it alone. -/
def edit_target (target : String) (c : Nat) : String :=
  if c = 127 then
    if target.length ≠ 0 then pop_back target else target
  else if target.length < 24 ∧ c ≥ 32 ∧ c ≤ 126 then target.push (Char.ofNat c)
  else target

/-- The virtual function `handle_key`: empty in `Widget`, and so in `Label`
and `Box`; in `LoginWidget` CR (13) and LF (10) toggle `typing_password`, and
any other byte edits `target`, which is `password` when `typing_password` and
`username` otherwise. -/
def Widget.handle_key : Widget → Nat → Widget
  | Widget.Label b text, _ => Widget.Label b text
  | Widget.Box b title, _ => Widget.Box b title
  | Widget.LoginWidget b username password typing_password, c =>
    if c = 13 ∨ c = 10 then Widget.LoginWidget b username password (!typing_password)
    else if typing_password then
      Widget.LoginWidget b username (edit_target password c) typing_password
    else Widget.LoginWidget b (edit_target username c) password typing_password

/-- Field `username` of a `LoginWidget`. -/
def Widget.username : Widget → String
  | Widget.LoginWidget _ username _ _ => username
  | _ => ""

/-- Field `password` of a `LoginWidget`. -/
def Widget.password : Widget → String
  | Widget.LoginWidget _ _ password _ => password
  | _ => ""

/-- Field `typing_password` of a `LoginWidget`. -/
def Widget.typing_password : Widget → Bool
  | Widget.LoginWidget _ _ _ typing_password => typing_password
  | _ => false

/-- The bytes of `keys` passed to `handle_key` one after the other. -/
def handle_keys (w : Widget) (keys : List Nat) : Widget :=
  keys.foldl Widget.handle_key w

/-- A text field of the login form is well formed: at most 24 characters, each
a printable byte from 32 to 126. -/
def field_ok (s : String) : Prop :=
  s.length ≤ 24 ∧ ∀ ch ∈ s.data, 32 ≤ ch.toNat ∧ ch.toNat ≤ 126

end Cxx

/-! ## The extents and origins the two directional loops hand out -/

/-- The successive values of `child_h` (resp. `child_w`) of the second loop,
run from index `i` with `remaining` over the primary constraints `cons`. -/
def extents : List Constraint → Nat → Nat → Nat → List Nat
  | [], _, _, _ => []
  | c :: rest, child_count, i, remaining =>
    child_extent c i child_count remaining ::
      extents rest child_count (i + 1) (next_remaining c i child_count remaining)

/-- The successive values of `current_y` (resp. `current_x`) of the second
loop, started at `current` and advanced by the extents `es`. -/
def origins : List Nat → Nat → List Nat
  | [], _ => []
  | e :: es, current => current :: origins es (add32 current e)

/-- The sum of the `SIZE_FIXED` values among the constraints `cons`. -/
def fixed_total : List Constraint → Nat
  | [] => 0
  | c :: rest =>
    if c.type = SizeType.SIZE_FIXED then c.value + fixed_total rest else fixed_total rest

/-- The sum of the extents `es` that belong to a `SIZE_FLEX` constraint of
`cons` (the two lists are read side by side). -/
def flex_total : List Constraint → List Nat → Nat
  | c :: rest, e :: es =>
    if c.type = SizeType.SIZE_FLEX then e + flex_total rest es else flex_total rest es
  | _, _ => 0

/-! ## Vocabulary of the layout claims and example trees -/

/-- The sum of the `SIZE_FLEX` values (percent weights) among `cons`. -/
def weight_total : List Constraint → Nat
  | [] => 0
  | c :: rest =>
    if c.type = SizeType.SIZE_FLEX then c.value + weight_total rest else weight_total rest

/-- A childless `WIDGET_BOX` node, as `create_widget` returns it. -/
def leaf (width_constraint height_constraint : Constraint) : Widget :=
  create_widget WidgetType.WIDGET_BOX width_constraint height_constraint

/-- A node built by `create_widget` and one `widget_add_child` per child. -/
def node (type : WidgetType) (width_constraint height_constraint : Constraint)
    (children : List Widget) : Widget :=
  children.foldl widget_add_child (create_widget type width_constraint height_constraint)

/-- A vertical stack of leaves with the given height constraints. -/
def vstack (heights : List Constraint) : Widget :=
  node WidgetType.WIDGET_VRECT (FLEX 100) (FLEX 100) (heights.map (leaf (FLEX 100)))

/-- A horizontal stack of leaves with the given width constraints. -/
def hstack (widths : List Constraint) : Widget :=
  node WidgetType.WIDGET_HRECT (FLEX 100) (FLEX 100) (widths.map (fun c => leaf c (FLEX 100)))

/-- The quantity `remaining` of the distribution rule: the parent's extent
minus the Fixed sizes minus the extents already given to earlier Flex children,
as a 32-bit unsigned value (the difference reduced modulo `2 ^ 32`). -/
def remaining32 (extent fixed flex_before : Nat) : Nat :=
  (((extent : Int) - (fixed : Int) - (flex_before : Int)) % (U32 : Int)).toNat

/-- The heights held by the children before index `k` whose height constraint
is `SIZE_FLEX`, summed. -/
def flex_heights_before (k : Nat) (cs : List Widget) : Nat :=
  (((cs.take k).filter
    (fun c => decide (c.height_constraint.type = SizeType.SIZE_FLEX))).map Widget.h).sum

/-- The widths held by the children before index `k` whose width constraint
is `SIZE_FLEX`, summed. -/
def flex_widths_before (k : Nat) (cs : List Widget) : Nat :=
  (((cs.take k).filter
    (fun c => decide (c.width_constraint.type = SizeType.SIZE_FLEX))).map Widget.w).sum

/-- The children of `wd` after `widget_compute_layout(wd, x, y, width, height)`. -/
def laid_out (wd : Widget) (x y width height : Nat) : List Widget :=
  (widget_compute_layout wd x y width height).children

/-- An overlay stack holding the given children. -/
def overlay (children : List Widget) : Widget :=
  node WidgetType.WIDGET_STACK (FLEX 100) (FLEX 100) children

/-- The widget tree built by `main` of `src/main.c`: a stack holding the base
layout (header over a body of sidebar and content) and the 40 x 15 modal. -/
def main_tree : Widget :=
  node WidgetType.WIDGET_STACK (FLEX 100) (FLEX 100)
    [node WidgetType.WIDGET_VRECT (FLEX 100) (FLEX 100)
      [leaf (FLEX 100) (FIXED 3),
        node WidgetType.WIDGET_HRECT (FLEX 100) (FLEX 100)
          [leaf (FLEX 20) (FLEX 100), leaf (FLEX 80) (FLEX 100)]],
      leaf (ABSOLUTE 40) (ABSOLUTE 15)]

namespace Cxx

/-- The padding `main` of `src/main.cpp` computes to centre the login box:
`(screen > login) ? (screen - login) / 2 : 0`. -/
def center_pad (screen login : Nat) : Nat :=
  if screen > login then sub32 screen login / 2 else 0

end Cxx

/-- A vertical stack whose children carry a Fixed, a Flex and an Absolute
width constraint. -/
def mixed_vstack : Widget :=
  node WidgetType.WIDGET_VRECT (FLEX 100) (FLEX 100)
    [leaf (FIXED 7) (FIXED 3), leaf (FLEX 50) (FLEX 40), leaf (ABSOLUTE 9) (FLEX 100)]

/-- A horizontal stack whose children carry a Fixed, a Flex and an Absolute
height constraint. -/
def mixed_hstack : Widget :=
  node WidgetType.WIDGET_HRECT (FLEX 100) (FLEX 100)
    [leaf (FIXED 7) (FIXED 3), leaf (FLEX 50) (FLEX 40), leaf (FLEX 100) (ABSOLUTE 9)]

mutual

/-- The tree with every stored rectangle zeroed: what is left is the kinds,
the constraints, the borders and the child order. -/
def clear_rects : Widget → Widget
  | Widget.mk t wc hc b _ _ _ _ cs => Widget.mk t wc hc b 0 0 0 0 (clear_rects_list cs)

/-- The function `clear_rects` along a list of children. -/
def clear_rects_list : List Widget → List Widget
  | [] => []
  | c :: rest => clear_rects c :: clear_rects_list rest

end

mutual

/-- The tree with the stored rectangle zeroed in every node that
`widget_compute_layout` visits: the node itself and, unless it is a
`WIDGET_BOX`, its children in turn.  The subtrees below a `WIDGET_BOX` are kept
as they are. -/
def skeleton : Widget → Widget
  | Widget.mk t wc hc b _ _ _ _ cs =>
    Widget.mk t wc hc b 0 0 0 0 (if t = WidgetType.WIDGET_BOX then cs else skeleton_list cs)

/-- The function `skeleton` along a list of children. -/
def skeleton_list : List Widget → List Widget
  | [] => []
  | c :: rest => skeleton c :: skeleton_list rest

end

mutual

/-- Every `WIDGET_BOX` node of the tree is childless. -/
def boxes_childless : Widget → Bool
  | Widget.mk t _ _ _ _ _ _ _ cs =>
    (decide (t ≠ WidgetType.WIDGET_BOX) || decide (cs.length = 0)) && boxes_childless_list cs

/-- The predicate `boxes_childless` along a list of children. -/
def boxes_childless_list : List Widget → Bool
  | [] => true
  | c :: rest => boxes_childless c && boxes_childless_list rest

end

/-- A `WIDGET_BOX` node to which one child has been added. -/
def box_with_child (child : Widget) : Widget :=
  widget_add_child (create_widget WidgetType.WIDGET_BOX (FLEX 100) (FLEX 100)) child

/-! ## Vocabulary of the renderer claims and example buffers -/

/-- The back and the front buffer agree at index `i`, in the sense of the
test of `tui_render`: same symbol and same style. -/
def synced_at (back front : List Cell) (i : Nat) : Prop :=
  (back.getD i blank_cell).symbol = (front.getD i blank_cell).symbol ∧
    (back.getD i blank_cell).style = (front.getD i blank_cell).style

/-- The cells `tui_render` visits, in the order it visits them, as pairs
`(y, x)`. -/
def grid (height width : Nat) : List (Nat × Nat) :=
  (List.range height).flatMap (fun y => (List.range width).map (fun x => (y, x)))

/-- A 2 x 1 `Tui` as `tui_init` leaves it (blank back buffer, `'\0'` front
buffer) after the letter `A` has been painted in bold at (0, 0). -/
def tui_fresh_bold : Tui :=
  { width := 2
    height := 1
    terminal := [⟨65, Color.DEFAULT, Color.DEFAULT, Style.BOLD⟩, blank_cell]
    front_buffer := [⟨0, Color.DEFAULT, Color.DEFAULT, Style.REGULAR⟩,
      ⟨0, Color.DEFAULT, Color.DEFAULT, Style.REGULAR⟩]
    terminal_len := 2
    is_dirty := 1
    root := none }

namespace Cxx

/-- A 2 x 2 `App` whose buffers differ only at index 3, where `term` holds a
bold `B`. -/
def app_one_change : App :=
  { cols := 2
    lines := 2
    prev_term := [blank_cell, blank_cell, blank_cell, blank_cell]
    term := [blank_cell, blank_cell, blank_cell,
      ⟨utf8 "B", Color.DEFAULT, Color.DEFAULT, Style.BOLD⟩]
    clip_rect := ⟨0, 0, 2, 2⟩ }

end Cxx

/-- A vertical stack holding a leaf of height `FIXED(4294967295)` above an
overlay stack with one `ABSOLUTE(0)` x `ABSOLUTE(0)` child. -/
def tall_then_overlay : Widget :=
  node WidgetType.WIDGET_VRECT (FLEX 100) (FLEX 100)
    [leaf (FLEX 100) (FIXED 4294967295), overlay [leaf (ABSOLUTE 0) (ABSOLUTE 0)]]

namespace Cxx

/-- A 4 x 1 `App` with blank buffers whose clip rectangle starts at column 1
and is 4294967295 wide, so that `clip.x + clip.width` wraps to 0. -/
def app_wrapped_clip : App :=
  { cols := 4
    lines := 1
    prev_term := [blank_cell, blank_cell, blank_cell, blank_cell]
    term := [blank_cell, blank_cell, blank_cell, blank_cell]
    clip_rect := ⟨1, 0, 4294967295, 1⟩ }

/-- A 4 x 2 `App` with blank buffers whose clip rectangle is the 2 x 2 block
of columns 1 and 2. -/
def app_small_clip : App :=
  { cols := 4
    lines := 2
    prev_term := List.replicate 8 blank_cell
    term := List.replicate 8 blank_cell
    clip_rect := ⟨1, 0, 2, 2⟩ }

end Cxx

/-- A 3 x 2 `Tui` with blank buffers and nothing painted. -/
def tui_blank : Tui :=
  { width := 3
    height := 2
    terminal := List.replicate 6 blank_cell
    front_buffer := List.replicate 6 blank_cell
    terminal_len := 6
    is_dirty := 0
    root := none }

/-- No `remaining -= value` of the first loop wraps: each `SIZE_FIXED` value is
at most the `remaining` it is deducted from. -/
def deduct_no_wrap : List Constraint → Nat → Prop
  | [], _ => True
  | c :: rest, remaining =>
    if c.type = SizeType.SIZE_FIXED then
      c.value ≤ remaining ∧ deduct_no_wrap rest (sub32 remaining c.value)
    else deduct_no_wrap rest remaining

/-- No `remaining -= child_h` of the second loop wraps: the extent given to
each `SIZE_FLEX` child that is not the last one is at most the `remaining` it
is deducted from. -/
def distribute_no_wrap : List Constraint → Nat → Nat → Nat → Prop
  | [], _, _, _ => True
  | c :: rest, child_count, i, remaining =>
    (c.type = SizeType.SIZE_FLEX → i ≠ child_count - 1 →
        mul32 remaining c.value / 100 ≤ remaining) ∧
      distribute_no_wrap rest child_count (i + 1) (next_remaining c i child_count remaining)

/-! ## Vocabulary of the claims on the render output -/

/-- The glyphs written, in order. -/
def glyphs {σ : Type} : List (Write σ) → List σ
  | [] => []
  | Write.glyph s :: rest => s :: glyphs rest
  | _ :: rest => glyphs rest

/-- The `(row, col)` pairs of the cursor-position escapes written, in order. -/
def cursor_moves {σ : Type} : List (Write σ) → List (Nat × Nat)
  | [] => []
  | Write.cursor r c :: rest => (r, c) :: cursor_moves rest
  | _ :: rest => cursor_moves rest

/-- The current cell differs from the previous cell at index `i` in symbol or
in style. -/
def cell_changed (back front : List Cell) (i : Nat) : Bool :=
  decide ((back.getD i blank_cell).symbol ≠ (front.getD i blank_cell).symbol ∨
    (back.getD i blank_cell).style ≠ (front.getD i blank_cell).style)

/-- The indices of the changed cells of a `Tui`, in increasing (row-major)
order. -/
def changed_cells (tui : Tui) : List Nat :=
  (List.range (tui.width * tui.height)).filter (cell_changed tui.terminal tui.front_buffer)

/-- The cell at index `i` is the right neighbour, in the same row, of the
previously written cell `prev`: with `i = y * width + x`, `prev` is the index of
`(x - 1, y)`. -/
def follows_prev (width : Nat) (prev : Option Nat) (i : Nat) : Bool :=
  match prev with
  | none => false
  | some j => decide (j / width = i / width ∧ j % width + 1 = i % width)

/-- The cursor rule as the claim words it, along the changed cells `cells`
with `prev` the cell written before them: a changed cell gets the escape
`ESC [ i / width + 1 ; i % width + 1 H` unless it follows the previously
written cell in its row. -/
def cursor_rule (width : Nat) : Option Nat → List Nat → List (Nat × Nat)
  | _, [] => []
  | prev, i :: rest =>
    (if follows_prev width prev i then [] else [(i / width + 1, i % width + 1)]) ++
      cursor_rule width (some i) rest

/-- The writes of a diff render as the spec words them, along the changed
cells: per cell the cursor escape unless elided, the style escape unless
elided, and the glyph. -/
def diff_writes (width : Nat) (back : List Cell) :
    Option Nat → Style → List Nat → List (Write Nat)
  | _, _, [] => []
  | prev, last, i :: rest =>
    (if follows_prev width prev i then []
      else [Write.cursor (i / width + 1) (i % width + 1)]) ++
    (if (back.getD i blank_cell).style ≠ last then
        [Write.sgr (style_code (back.getD i blank_cell).style)] else []) ++
    [Write.glyph (back.getD i blank_cell).symbol] ++
    diff_writes width back (some i) (back.getD i blank_cell).style rest

/-- The changed cells of a `Tui` that start a run: those in column 0 and those
whose left neighbour is unchanged. -/
def run_starts (tui : Tui) : List Nat :=
  (changed_cells tui).filter (fun i =>
    decide (i % tui.width = 0) || !cell_changed tui.terminal tui.front_buffer (i - 1))

/-- The cursor variables of `tui_render` hold what the loop leaves after
writing the cell `prev`: `-1, -1` before the first write, else the row of
`prev` and the column right of it. -/
def cursor_tracks (width height : Nat) (st : RenderState) (prev : Option Nat) : Prop :=
  match prev with
  | none => st.cursor_y = -1 ∧ st.cursor_x = -1
  | some j => j < width * height ∧ st.cursor_y = to_int (j / width) ∧
      st.cursor_x = to_int (j % width + 1)

namespace Cxx

/-- The cell of `term` differs from the cell of `prev_term` at index `i` in
symbol or in style. -/
def cell_changed (app : App) (i : Nat) : Bool :=
  decide ((app.term.getD i blank_cell).symbol ≠ (app.prev_term.getD i blank_cell).symbol ∨
    (app.term.getD i blank_cell).style ≠ (app.prev_term.getD i blank_cell).style)

/-- The indices of the changed cells of an `App`, in increasing order. -/
def changed_cells (app : App) : List Nat :=
  (List.range app.term.length).filter (cell_changed app)

end Cxx

/-- A 3 x 2 `Tui` with a blank front buffer whose back buffer holds bold
`A`, `B`, `C` in row 0, a regular `D` at (0, 1) and an underlined `E` at (2, 1):
the changed cells are 0, 1, 2, 3, 5. -/
def tui_runs : Tui :=
  { width := 3
    height := 2
    terminal := [⟨65, Color.DEFAULT, Color.DEFAULT, Style.BOLD⟩,
      ⟨66, Color.DEFAULT, Color.DEFAULT, Style.BOLD⟩,
      ⟨67, Color.DEFAULT, Color.DEFAULT, Style.BOLD⟩,
      ⟨68, Color.DEFAULT, Color.DEFAULT, Style.REGULAR⟩,
      blank_cell,
      ⟨69, Color.DEFAULT, Color.DEFAULT, Style.UNDERLINE⟩]
    front_buffer := List.replicate 6 blank_cell
    terminal_len := 6
    is_dirty := 1
    root := none }

namespace Cxx

/-- A 3 x 1 `App` with a blank `prev_term` whose `term` holds a bold `A` and a
bold `B` in columns 0 and 1. -/
def app_two_bold : App :=
  { cols := 3
    lines := 1
    prev_term := [blank_cell, blank_cell, blank_cell]
    term := [⟨utf8 "A", Color.DEFAULT, Color.DEFAULT, Style.BOLD⟩,
      ⟨utf8 "B", Color.DEFAULT, Color.DEFAULT, Style.BOLD⟩, blank_cell]
    clip_rect := ⟨0, 0, 3, 1⟩ }

end Cxx

/-! ## Vocabulary of the painting claims -/

/-- One call `map_cell_at(tui, &cell, x, y)`. -/
structure CellWrite where
  x : Nat
  y : Nat
  cell : Cell
  deriving DecidableEq, Repr

/-- A sequence of `map_cell_at` calls, applied in order. -/
def apply_writes (tui : Tui) (ws : List CellWrite) : Tui :=
  ws.foldl (fun t w => map_cell_at t w.cell w.x w.y) tui

/-- The `map_cell_at` calls of `draw_widget_border`, in order. -/
def border_writes (widget : Widget) : List CellWrite :=
  if widget.w < 2 ∨ widget.h < 2 then []
  else
    [⟨widget.x, widget.y, border_cell widget.borders.top_left⟩,
      ⟨sub32 (add32 widget.x widget.w) 1, widget.y, border_cell widget.borders.top_right⟩,
      ⟨widget.x, sub32 (add32 widget.y widget.h) 1,
        border_cell widget.borders.bottom_left⟩,
      ⟨sub32 (add32 widget.x widget.w) 1, sub32 (add32 widget.y widget.h) 1,
        border_cell widget.borders.bottom_right⟩] ++
    (List.range' 1 (sub32 widget.h 1 - 1)).flatMap (fun i =>
      [⟨widget.x, add32 widget.y i, border_cell widget.borders.vertical⟩,
        ⟨sub32 (add32 widget.x widget.w) 1, add32 widget.y i,
          border_cell widget.borders.vertical⟩]) ++
    (List.range' 1 (sub32 widget.w 1 - 1)).flatMap (fun i =>
      [⟨add32 widget.x i, widget.y, border_cell widget.borders.horizontal⟩,
        ⟨add32 widget.x i, sub32 (add32 widget.y widget.h) 1,
          border_cell widget.borders.horizontal⟩])

/-- The `map_cell_at` calls of the blank fill, in order. -/
def fill_writes (widget : Widget) : List CellWrite :=
  (List.range' widget.y (add32 widget.y widget.h - widget.y)).flatMap (fun y =>
    (List.range' widget.x (add32 widget.x widget.w - widget.x)).map (fun x =>
      ⟨x, y, blank_cell⟩))

mutual

/-- The `map_cell_at` calls of `widget_render_to_buffer` on a widget, in
order: its own, then those of its children. -/
def widget_writes : Widget → List CellWrite
  | Widget.mk type wc hc b x y w h children =>
    (if wc.type = SizeType.SIZE_ABSOLUTE then
        fill_writes (Widget.mk type wc hc b x y w h children) else []) ++
      (if type = WidgetType.WIDGET_BOX then
        border_writes (Widget.mk type wc hc b x y w h children) else []) ++
      children_writes children

/-- The `map_cell_at` calls for a list of children, in order. -/
def children_writes : List Widget → List CellWrite
  | [] => []
  | child :: rest => widget_writes child ++ children_writes rest

end

/-- Some write of `ws` is at `(x, y)`. -/
def paints (ws : List CellWrite) (x y : Nat) : Bool :=
  ws.any (fun w => decide (w.x = x ∧ w.y = y))

/-- The cell of the last write of `ws` at `(x, y)`, if there is one. -/
def last_write (ws : List CellWrite) (x y : Nat) : Option Cell :=
  ((ws.filter (fun w => decide (w.x = x ∧ w.y = y))).getLast?).map CellWrite.cell

/-- A 4 x 4 `Tui` with blank buffers. -/
def tui_4x4 : Tui :=
  { width := 4
    height := 4
    terminal := List.replicate 16 blank_cell
    front_buffer := List.replicate 16 blank_cell
    terminal_len := 16
    is_dirty := 0
    root := none }

/-- An overlay stack of three boxes: two that fill the parent and a third,
`ABSOLUTE(4)` x `ABSOLUTE(2)`, centred in it. -/
def three_layers : Widget :=
  overlay [leaf (FLEX 100) (FLEX 100), leaf (FLEX 100) (FLEX 100),
    leaf (ABSOLUTE 4) (ABSOLUTE 2)]

/-- An overlay stack of two boxes: one that fills the parent and one,
`ABSOLUTE(4)` x `ABSOLUTE(2)`, centred in it. -/
def two_layers : Widget :=
  overlay [leaf (FLEX 100) (FLEX 100), leaf (ABSOLUTE 4) (ABSOLUTE 2)]

/-- A 2 x 1 `Tui` as `tui_init` leaves it (blank back buffer, `'\0'` front
buffer, `is_dirty` clear) whose root is a childless overlay stack, which
paints nothing. -/
def tui_fresh_empty_stack : Tui :=
  { width := 2
    height := 1
    terminal := [blank_cell, blank_cell]
    front_buffer := [⟨0, Color.DEFAULT, Color.DEFAULT, Style.REGULAR⟩,
      ⟨0, Color.DEFAULT, Color.DEFAULT, Style.REGULAR⟩]
    terminal_len := 2
    is_dirty := 0
    root := some (overlay []) }

/-- A 4 x 4 `Tui` as `tui_init` leaves it whose root is one box. -/
def tui_fresh_box : Tui :=
  { width := 4
    height := 4
    terminal := List.replicate 16 blank_cell
    front_buffer := List.replicate 16 ⟨0, Color.DEFAULT, Color.DEFAULT, Style.REGULAR⟩
    terminal_len := 16
    is_dirty := 0
    root := some (leaf (FLEX 100) (FLEX 100)) }

namespace Cxx

/-- An `App` may be handed from one step of the painting to the next: the
length of `term`, `prev_term` and the geometry are kept. -/
def keeps_frame (a b : App) : Prop :=
  b.term.length = a.term.length ∧ b.prev_term = a.prev_term ∧ b.cols = a.cols ∧
    b.lines = a.lines

/-- A 12 x 4 `App` with blank `term` and a `prev_term` of empty cells. -/
def app_12x4 : App :=
  { cols := 12
    lines := 4
    prev_term := List.replicate 48 ⟨utf8 "", Color.DEFAULT, Color.DEFAULT, Style.REGULAR⟩
    term := List.replicate 48 blank_cell
    clip_rect := ⟨0, 0, 12, 4⟩ }

end Cxx

/-- The `map_cell_at` calls of one tick of `run`: those of
`widget_render_to_buffer` on the root laid out over the whole terminal, none
if there is no root. -/
def frame_writes (tui : Tui) : List CellWrite :=
  match tui.root with
  | none => []
  | some root => widget_writes (widget_compute_layout root 0 0 tui.width tui.height)

/-- Some write of `ws` passes the bounds test of `map_cell_at`. -/
def paints_inside (tui : Tui) (ws : List CellWrite) : Bool :=
  ws.any (fun w => decide (w.x < tui.width ∧ w.y < tui.height))

namespace Cxx

/-- One call `set_cell(x, y, symbol, style)`. -/
structure SetCall where
  x : Nat
  y : Nat
  symbol : List Nat
  style : Style
  deriving DecidableEq, Repr

/-- A sequence of `set_cell` calls, applied in order. -/
def apply_calls (app : App) (cs : List SetCall) : App :=
  cs.foldl (fun a c => set_cell a c.x c.y c.symbol c.style) app

/-- The `set_cell` calls of `App::render_text`, in order. -/
def text_calls (x y : Nat) (text : String) (style : Style) : List SetCall :=
  (List.range (utf8 text).length).map
    (fun i => ⟨(x + i) % U32, y, [(utf8 text).getD i 0], style⟩)

/-- The `set_cell` calls of the frame of `Box::render` and
`LoginWidget::render`, in order. -/
def frame_calls (bounds : Rect) : List SetCall :=
  (List.range bounds.width).flatMap (fun i =>
    [⟨add32 bounds.x i, bounds.y, (utf8 "═"), Style.REGULAR⟩,
      ⟨add32 bounds.x i, sub32 (add32 bounds.y bounds.height) 1, (utf8 "═"), Style.REGULAR⟩]) ++
  (List.range bounds.height).flatMap (fun i =>
    [⟨bounds.x, add32 bounds.y i, (utf8 "║"), Style.REGULAR⟩,
      ⟨sub32 (add32 bounds.x bounds.width) 1, add32 bounds.y i, (utf8 "║"), Style.REGULAR⟩]) ++
  [⟨bounds.x, bounds.y, (utf8 "╔"), Style.REGULAR⟩,
    ⟨sub32 (add32 bounds.x bounds.width) 1, bounds.y, (utf8 "╗"), Style.REGULAR⟩,
    ⟨bounds.x, sub32 (add32 bounds.y bounds.height) 1, (utf8 "╚"), Style.REGULAR⟩,
    ⟨sub32 (add32 bounds.x bounds.width) 1, sub32 (add32 bounds.y bounds.height) 1, (utf8 "╝"),
      Style.REGULAR⟩]

/-- The `set_cell` calls of `render` of the three widget classes, in order. -/
def Widget.calls : Widget → List SetCall
  | Widget.Label b text => text_calls b.x b.y text Style.REGULAR
  | Widget.Box b title =>
    frame_calls b ++ text_calls (add32 b.x 2) (add32 b.y 1) title Style.BOLD
  | Widget.LoginWidget b username password typing_password =>
    frame_calls b ++
    text_calls (sub32 (add32 b.x (b.width / 2)) 3) (add32 b.y 1) " LOGIN " Style.BOLD ++
    text_calls (add32 b.x 4) (add32 b.y 4) "Username:" Style.REGULAR ++
    text_calls (add32 b.x 4) (add32 b.y 5) username
      (if typing_password then Style.REGULAR else Style.UNDERLINE) ++
    text_calls (add32 b.x 4) (add32 b.y 7) "Password:" Style.REGULAR ++
    text_calls (add32 b.x 4) (add32 b.y 8) (String.mk (List.replicate (utf8 password).length '*'))
      (if typing_password then Style.UNDERLINE else Style.REGULAR) ++
    text_calls (sub32 (add32 b.x (b.width / 2)) 8) (add32 b.y 10) "[ Enter to Login ]"
      Style.REGULAR

/-- The two tests of `App::set_cell` let a call at `(x, y)` through, on a
buffer of `cols` x `lines` cells clipped to `clip`. -/
def accepts (cols lines : Nat) (clip : Rect) (x y : Nat) : Bool :=
  decide (¬ (x ≥ cols ∨ y ≥ lines) ∧
    ¬ (x < clip.x ∨ x ≥ add32 clip.x clip.width ∨ y < clip.y ∨
      y ≥ add32 clip.y clip.height))

/-- The symbol and style of the last call of `cs` at `(x, y)` that
`App::set_cell` lets through, if there is one. -/
def last_call (cols lines : Nat) (clip : Rect) (cs : List SetCall) (x y : Nat) :
    Option (List Nat × Style) :=
  ((cs.filter (fun c => accepts cols lines clip c.x c.y && decide (c.x = x ∧ c.y = y))).getLast?).map
    (fun c => (c.symbol, c.style))

/-- The widget `w`, rendered by `App::draw` on a buffer of `cols` x `lines`
cells, stores a symbol at `(x, y)`. -/
def paints_at (cols lines : Nat) (w : Widget) (x y : Nat) : Bool :=
  w.calls.any (fun c => accepts cols lines w.bounds c.x c.y && decide (c.x = x ∧ c.y = y))

/-- The symbol and style of a cell. -/
def Cell.glyph (c : Cell) : List Nat × Style := (c.symbol, c.style)

/-- A 12 x 4 `App` with blank buffers. -/
def app_blank_12x4 : App :=
  { cols := 12
    lines := 4
    prev_term := List.replicate 48 blank_cell
    term := List.replicate 48 blank_cell
    clip_rect := ⟨0, 0, 12, 4⟩ }

end Cxx

/-- The rectangle stored in `c` lies inside the rectangle `(x, y, width,
height)`: `c.x >= x`, `c.x + c.w <= x + width`, `c.y >= y` and
`c.y + c.h <= y + height`, as natural numbers. -/
def Widget.inside (c : Widget) (x y width height : Nat) : Prop :=
  x ≤ c.x ∧ c.x + c.w ≤ x + width ∧ y ≤ c.y ∧ c.y + c.h ≤ y + height

theorem layout_rect (wd : Widget) (x y width height : Nat) :
    (widget_compute_layout wd x y width height).rect = (x, y, width, height) := by
  cases wd with
  | mk t wc hc b x0 y0 w0 h0 cs =>
    unfold widget_compute_layout
    split
    · rfl
    · cases t <;> rfl

@[simp] theorem layout_x (wd : Widget) (x y width height : Nat) :
    (widget_compute_layout wd x y width height).x = x :=
  congrArg (fun r => r.1) (layout_rect wd x y width height)

@[simp] theorem layout_y (wd : Widget) (x y width height : Nat) :
    (widget_compute_layout wd x y width height).y = y :=
  congrArg (fun r => r.2.1) (layout_rect wd x y width height)

@[simp] theorem layout_w (wd : Widget) (x y width height : Nat) :
    (widget_compute_layout wd x y width height).w = width :=
  congrArg (fun r => r.2.2.1) (layout_rect wd x y width height)

@[simp] theorem layout_h (wd : Widget) (x y width height : Nat) :
    (widget_compute_layout wd x y width height).h = height :=
  congrArg (fun r => r.2.2.2) (layout_rect wd x y width height)

@[simp] theorem layout_type (wd : Widget) (x y width height : Nat) :
    (widget_compute_layout wd x y width height).type = wd.type := by
  cases wd with
  | mk t wc hc b x0 y0 w0 h0 cs =>
    unfold widget_compute_layout
    split
    · rfl
    · cases t <;> rfl

@[simp] theorem layout_width_constraint (wd : Widget) (x y width height : Nat) :
    (widget_compute_layout wd x y width height).width_constraint = wd.width_constraint := by
  cases wd with
  | mk t wc hc b x0 y0 w0 h0 cs =>
    unfold widget_compute_layout
    split
    · rfl
    · cases t <;> rfl

@[simp] theorem layout_height_constraint (wd : Widget) (x y width height : Nat) :
    (widget_compute_layout wd x y width height).height_constraint = wd.height_constraint := by
  cases wd with
  | mk t wc hc b x0 y0 w0 h0 cs =>
    unfold widget_compute_layout
    split
    · rfl
    · cases t <;> rfl

@[simp] theorem layout_borders (wd : Widget) (x y width height : Nat) :
    (widget_compute_layout wd x y width height).borders = wd.borders := by
  cases wd with
  | mk t wc hc b x0 y0 w0 h0 cs =>
    unfold widget_compute_layout
    split
    · rfl
    · cases t <;> rfl

theorem layout_children_vrect (wd : Widget) (x y width height : Nat)
    (ht : wd.type = WidgetType.WIDGET_VRECT) :
    (widget_compute_layout wd x y width height).children =
      vrect_loop wd.children wd.children.length 0 x width
        (deduct_fixed_heights wd.children height) y := by
  cases wd with
  | mk t wc hc b x0 y0 w0 h0 cs =>
    simp only [Widget.type] at ht
    subst ht
    unfold widget_compute_layout
    split
    · rename_i hlen
      have hnil : cs = [] := List.length_eq_zero.mp hlen
      subst hnil
      simp [Widget.children, vrect_loop]
    · rfl

theorem layout_children_hrect (wd : Widget) (x y width height : Nat)
    (ht : wd.type = WidgetType.WIDGET_HRECT) :
    (widget_compute_layout wd x y width height).children =
      hrect_loop wd.children wd.children.length 0 y height
        (deduct_fixed_widths wd.children width) x := by
  cases wd with
  | mk t wc hc b x0 y0 w0 h0 cs =>
    simp only [Widget.type] at ht
    subst ht
    unfold widget_compute_layout
    split
    · rename_i hlen
      have hnil : cs = [] := List.length_eq_zero.mp hlen
      subst hnil
      simp [Widget.children, hrect_loop]
    · rfl

theorem layout_children_stack (wd : Widget) (x y width height : Nat)
    (ht : wd.type = WidgetType.WIDGET_STACK) :
    (widget_compute_layout wd x y width height).children =
      stack_loop wd.children x y width height := by
  cases wd with
  | mk t wc hc b x0 y0 w0 h0 cs =>
    simp only [Widget.type] at ht
    subst ht
    unfold widget_compute_layout
    split
    · rename_i hlen
      have hnil : cs = [] := List.length_eq_zero.mp hlen
      subst hnil
      simp [Widget.children, stack_loop]
    · rfl

theorem layout_children_box (wd : Widget) (x y width height : Nat)
    (ht : wd.type = WidgetType.WIDGET_BOX) :
    (widget_compute_layout wd x y width height).children = wd.children := by
  cases wd with
  | mk t wc hc b x0 y0 w0 h0 cs =>
    simp only [Widget.type] at ht
    subst ht
    unfold widget_compute_layout
    split <;> rfl

/-! ## What the loops store in the children -/

theorem vrect_loop_length (cs : List Widget) :
    ∀ (n i x width rem y : Nat), (vrect_loop cs n i x width rem y).length = cs.length := by
  induction cs with
  | nil => intros; simp [vrect_loop]
  | cons c rest ih => intros; simp [vrect_loop, ih]

theorem vrect_loop_h (cs : List Widget) :
    ∀ (n i x width rem y : Nat),
      (vrect_loop cs n i x width rem y).map Widget.h =
        extents (cs.map Widget.height_constraint) n i rem := by
  induction cs with
  | nil => intros; simp [vrect_loop, extents]
  | cons c rest ih => intros; simp [vrect_loop, extents, ih]

theorem vrect_loop_y (cs : List Widget) :
    ∀ (n i x width rem y : Nat),
      (vrect_loop cs n i x width rem y).map Widget.y =
        origins (extents (cs.map Widget.height_constraint) n i rem) y := by
  induction cs with
  | nil => intros; simp [vrect_loop, extents, origins]
  | cons c rest ih => intros; simp [vrect_loop, extents, origins, ih]

theorem vrect_loop_cross (cs : List Widget) :
    ∀ (n i x width rem y : Nat),
      ∀ c ∈ vrect_loop cs n i x width rem y, c.x = x ∧ c.w = width := by
  induction cs with
  | nil => intros; simp_all [vrect_loop]
  | cons c rest ih =>
    intro n i x width rem y c' hc'
    simp only [vrect_loop, List.mem_cons] at hc'
    rcases hc' with h | h
    · subst h; simp
    · exact ih _ _ _ _ _ _ c' h

theorem vrect_loop_constraints (cs : List Widget) :
    ∀ (n i x width rem y : Nat),
      (vrect_loop cs n i x width rem y).map Widget.height_constraint =
        cs.map Widget.height_constraint := by
  induction cs with
  | nil => intros; simp [vrect_loop]
  | cons c rest ih => intros; simp [vrect_loop, ih]

theorem hrect_loop_length (cs : List Widget) :
    ∀ (n i y height rem x : Nat), (hrect_loop cs n i y height rem x).length = cs.length := by
  induction cs with
  | nil => intros; simp [hrect_loop]
  | cons c rest ih => intros; simp [hrect_loop, ih]

theorem hrect_loop_w (cs : List Widget) :
    ∀ (n i y height rem x : Nat),
      (hrect_loop cs n i y height rem x).map Widget.w =
        extents (cs.map Widget.width_constraint) n i rem := by
  induction cs with
  | nil => intros; simp [hrect_loop, extents]
  | cons c rest ih => intros; simp [hrect_loop, extents, ih]

theorem hrect_loop_x (cs : List Widget) :
    ∀ (n i y height rem x : Nat),
      (hrect_loop cs n i y height rem x).map Widget.x =
        origins (extents (cs.map Widget.width_constraint) n i rem) x := by
  induction cs with
  | nil => intros; simp [hrect_loop, extents, origins]
  | cons c rest ih => intros; simp [hrect_loop, extents, origins, ih]

theorem hrect_loop_cross (cs : List Widget) :
    ∀ (n i y height rem x : Nat),
      ∀ c ∈ hrect_loop cs n i y height rem x, c.y = y ∧ c.h = height := by
  induction cs with
  | nil => intros; simp_all [hrect_loop]
  | cons c rest ih =>
    intro n i y height rem x c' hc'
    simp only [hrect_loop, List.mem_cons] at hc'
    rcases hc' with h | h
    · subst h; simp
    · exact ih _ _ _ _ _ _ c' h

theorem hrect_loop_constraints (cs : List Widget) :
    ∀ (n i y height rem x : Nat),
      (hrect_loop cs n i y height rem x).map Widget.width_constraint =
        cs.map Widget.width_constraint := by
  induction cs with
  | nil => intros; simp [hrect_loop]
  | cons c rest ih => intros; simp [hrect_loop, ih]

theorem deduct_fixed_heights_eq (cs : List Widget) :
    ∀ rem : Nat, rem < U32 → fixed_total (cs.map Widget.height_constraint) ≤ rem →
      deduct_fixed_heights cs rem = rem - fixed_total (cs.map Widget.height_constraint) := by
  induction cs with
  | nil => intros; simp [deduct_fixed_heights, fixed_total]
  | cons c rest ih =>
    intro rem hrem hle
    simp only [List.map_cons, fixed_total] at hle
    simp only [deduct_fixed_heights, List.map_cons, fixed_total]
    split
    · rename_i hfix
      rw [if_pos hfix] at hle
      have hs : sub32 rem c.height_constraint.value = rem - c.height_constraint.value := by
        unfold sub32 U32 at *; omega
      rw [hs, ih _ (by omega) (by omega)]
      omega
    · rename_i hfix
      rw [if_neg hfix] at hle
      exact ih _ hrem hle

theorem deduct_fixed_widths_eq (cs : List Widget) :
    ∀ rem : Nat, rem < U32 → fixed_total (cs.map Widget.width_constraint) ≤ rem →
      deduct_fixed_widths cs rem = rem - fixed_total (cs.map Widget.width_constraint) := by
  induction cs with
  | nil => intros; simp [deduct_fixed_widths, fixed_total]
  | cons c rest ih =>
    intro rem hrem hle
    simp only [List.map_cons, fixed_total] at hle
    simp only [deduct_fixed_widths, List.map_cons, fixed_total]
    split
    · rename_i hfix
      rw [if_pos hfix] at hle
      have hs : sub32 rem c.width_constraint.value = rem - c.width_constraint.value := by
        unfold sub32 U32 at *; omega
      rw [hs, ih _ (by omega) (by omega)]
      omega
    · rename_i hfix
      rw [if_neg hfix] at hle
      exact ih _ hrem hle

/-! ## Arithmetic of the flex distribution -/

theorem flex_share_le (rem v : Nat) (hv : v ≤ 100) : mul32 rem v / 100 ≤ rem := by
  have h1 : rem * v ≤ rem * 100 := Nat.mul_le_mul_left rem hv
  have h2 : (rem * v) % U32 ≤ rem * v := Nat.mod_le _ _
  unfold mul32
  omega

theorem extents_sum (cons : List Constraint) :
    ∀ (n i rem : Nat), i + cons.length = n → rem < U32 →
      cons.getLast?.map Constraint.type = some SizeType.SIZE_FLEX →
      (∀ c ∈ cons, c.type = SizeType.SIZE_FLEX → c.value ≤ 100) →
      (extents cons n i rem).sum = fixed_total cons + rem := by
  induction cons with
  | nil => intro n i rem _ _ hlast; simp at hlast
  | cons c rest ih =>
    intro n i rem hlen hrem hlast hw
    cases rest with
    | nil =>
      simp at hlast
      simp at hlen
      have hi : i = n - 1 := by omega
      simp [extents, fixed_total, child_extent, hlast, hi]
    | cons c2 rest2 =>
      have hi : i ≠ n - 1 := by simp at hlen; omega
      have hlast2 : (c2 :: rest2).getLast?.map Constraint.type = some SizeType.SIZE_FLEX := by
        simpa [List.getLast?_cons_cons] using hlast
      have hw2 : ∀ c ∈ (c2 :: rest2), c.type = SizeType.SIZE_FLEX → c.value ≤ 100 :=
        fun c hc => hw c (List.mem_cons_of_mem _ hc)
      have hlen2 : (i + 1) + (c2 :: rest2).length = n := by simp at hlen ⊢; omega
      rw [extents, List.sum_cons, fixed_total]
      rcases hct : c.type with _ | _ | _
      · have hnr : next_remaining c i n rem = rem := by simp [next_remaining, hct]
        have hce : child_extent c i n rem = c.value := by simp [child_extent, hct]
        rw [hnr, hce, ih n (i + 1) rem hlen2 hrem hlast2 hw2]
        simp
        omega
      · have hle := flex_share_le rem c.value (hw c (List.mem_cons_self _ _) hct)
        have hnr : next_remaining c i n rem = rem - mul32 rem c.value / 100 := by
          simp only [next_remaining, hct, hi]
          simp
          unfold sub32 U32 at *
          omega
        have hce : child_extent c i n rem = mul32 rem c.value / 100 := by
          simp [child_extent, hct, hi]
        rw [hnr, hce, ih n (i + 1) _ hlen2 (by omega) hlast2 hw2]
        simp
        omega
      · have hnr : next_remaining c i n rem = rem := by simp [next_remaining, hct]
        have hce : child_extent c i n rem = 0 := by simp [child_extent, hct]
        rw [hnr, hce, ih n (i + 1) rem hlen2 hrem hlast2 hw2]
        simp

theorem vrect_heights_sum (cs : List Widget) (x y width height : Nat) (hh : height < U32)
    (hlast : cs.getLast?.map (fun c => c.height_constraint.type) = some SizeType.SIZE_FLEX)
    (hfix : fixed_total (cs.map Widget.height_constraint) ≤ height)
    (hflex : ∀ c ∈ cs, c.height_constraint.type = SizeType.SIZE_FLEX →
      c.height_constraint.value ≤ 100) :
    ((vrect_loop cs cs.length 0 x width (deduct_fixed_heights cs height) y).map Widget.h).sum
      = height := by
  rw [vrect_loop_h, deduct_fixed_heights_eq cs height hh hfix,
    extents_sum _ cs.length 0 _ (by simp) (by omega)]
  · omega
  · rw [List.getLast?_map, Option.map_map]; exact hlast
  · intro c hc
    obtain ⟨wd, hwd, rfl⟩ := List.mem_map.mp hc
    exact hflex wd hwd

theorem hrect_widths_sum (cs : List Widget) (x y width height : Nat) (hw : width < U32)
    (hlast : cs.getLast?.map (fun c => c.width_constraint.type) = some SizeType.SIZE_FLEX)
    (hfix : fixed_total (cs.map Widget.width_constraint) ≤ width)
    (hflex : ∀ c ∈ cs, c.width_constraint.type = SizeType.SIZE_FLEX →
      c.width_constraint.value ≤ 100) :
    ((hrect_loop cs cs.length 0 y height (deduct_fixed_widths cs width) x).map Widget.w).sum
      = width := by
  rw [hrect_loop_w, deduct_fixed_widths_eq cs width hw hfix,
    extents_sum _ cs.length 0 _ (by simp) (by omega)]
  · omega
  · rw [List.getLast?_map, Option.map_map]; exact hlast
  · intro c hc
    obtain ⟨wd, hwd, rfl⟩ := List.mem_map.mp hc
    exact hflex wd hwd

theorem next_remaining_lt (c : Constraint) (i n rem : Nat) (hrem : rem < U32) :
    next_remaining c i n rem < U32 := by
  unfold next_remaining
  split
  · exact hrem
  · split
    · split
      · exact hrem
      · exact Nat.mod_lt _ (by decide)
    · exact hrem

theorem extents_flex_at (pre : List Constraint) (c : Constraint) (post : List Constraint)
    (hpost : post ≠ []) (hc : c.type = SizeType.SIZE_FLEX) :
    ∀ (n i rem : Nat), i + (pre ++ c :: post).length = n → rem < U32 →
      ∃ R, R < U32 ∧
        (R + flex_total pre (extents (pre ++ c :: post) n i rem)) % U32 = rem ∧
        (extents (pre ++ c :: post) n i rem)[pre.length]? = some (mul32 R c.value / 100) := by
  have hpl : 0 < post.length := List.length_pos.mpr hpost
  induction pre with
  | nil =>
    intro n i rem hlen hrem
    have hi : i ≠ n - 1 := by simp at hlen; omega
    refine ⟨rem, hrem, ?_, ?_⟩
    · simp [flex_total, Nat.mod_eq_of_lt hrem]
    · simp [extents, child_extent, hc, hi]
  | cons p pre ih =>
    intro n i rem hlen hrem
    have hi : i ≠ n - 1 := by simp at hlen; omega
    have hlen2 : (i + 1) + (pre ++ c :: post).length = n := by simp at hlen ⊢; omega
    obtain ⟨R, hR, hsum, hget⟩ :=
      ih n (i + 1) (next_remaining p i n rem) hlen2 (next_remaining_lt p i n rem hrem)
    have hext : extents (p :: pre ++ c :: post) n i rem =
        child_extent p i n rem ::
          extents (pre ++ c :: post) n (i + 1) (next_remaining p i n rem) := rfl
    refine ⟨R, hR, ?_, ?_⟩
    · rw [hext]
      generalize extents (pre ++ c :: post) n (i + 1) (next_remaining p i n rem) = es at hsum
      by_cases hp : p.type = SizeType.SIZE_FLEX
      · have hnr : next_remaining p i n rem = sub32 rem (mul32 rem p.value / 100) := by
          simp [next_remaining, hp, hi]
        have hce : child_extent p i n rem = mul32 rem p.value / 100 := by
          simp [child_extent, hp, hi]
        have hft : flex_total (p :: pre) (mul32 rem p.value / 100 :: es) =
            mul32 rem p.value / 100 + flex_total pre es := by
          simp [flex_total, hp]
        rw [hnr] at hsum
        rw [hce, hft]
        generalize flex_total pre es = ft at hsum ⊢
        generalize mul32 rem p.value / 100 = e at hsum ⊢
        unfold sub32 U32 at *
        omega
      · have hnr : next_remaining p i n rem = rem := by
          unfold next_remaining
          split
          · rfl
          · simp [hp]
        have hft : flex_total (p :: pre) (child_extent p i n rem :: es) = flex_total pre es := by
          simp [flex_total, hp]
        rw [hnr] at hsum
        rw [hft]
        exact hsum
    · rw [hext]
      simpa using hget

theorem deduct_fixed_heights_mod (cs : List Widget) :
    ∀ rem : Nat, rem < U32 →
      deduct_fixed_heights cs rem < U32 ∧
      (deduct_fixed_heights cs rem + fixed_total (cs.map Widget.height_constraint)) % U32
        = rem := by
  induction cs with
  | nil => intro rem hrem; simp [deduct_fixed_heights, fixed_total, Nat.mod_eq_of_lt hrem, hrem]
  | cons c rest ih =>
    intro rem hrem
    simp only [deduct_fixed_heights, List.map_cons, fixed_total]
    split
    · obtain ⟨h1, h2⟩ := ih (sub32 rem c.height_constraint.value) (Nat.mod_lt _ (by decide))
      refine ⟨h1, ?_⟩
      generalize deduct_fixed_heights rest _ = d at h1 h2 ⊢
      generalize fixed_total _ = ft at h2 ⊢
      unfold sub32 U32 at *
      omega
    · exact ih rem hrem

theorem deduct_fixed_widths_mod (cs : List Widget) :
    ∀ rem : Nat, rem < U32 →
      deduct_fixed_widths cs rem < U32 ∧
      (deduct_fixed_widths cs rem + fixed_total (cs.map Widget.width_constraint)) % U32
        = rem := by
  induction cs with
  | nil => intro rem hrem; simp [deduct_fixed_widths, fixed_total, Nat.mod_eq_of_lt hrem, hrem]
  | cons c rest ih =>
    intro rem hrem
    simp only [deduct_fixed_widths, List.map_cons, fixed_total]
    split
    · obtain ⟨h1, h2⟩ := ih (sub32 rem c.width_constraint.value) (Nat.mod_lt _ (by decide))
      refine ⟨h1, ?_⟩
      generalize deduct_fixed_widths rest _ = d at h1 h2 ⊢
      generalize fixed_total _ = ft at h2 ⊢
      unfold sub32 U32 at *
      omega
    · exact ih rem hrem

theorem remaining32_eq (extent fixed flex R rem0 : Nat) (hR : R < U32)
    (h1 : (R + flex) % U32 = rem0) (h2 : (rem0 + fixed) % U32 = extent) :
    remaining32 extent fixed flex = R := by
  unfold remaining32 U32 at *
  omega

theorem remaining32_exact (extent fixed flex : Nat) (he : extent < U32)
    (hle : fixed + flex ≤ extent) :
    remaining32 extent fixed flex = extent - fixed - flex := by
  unfold remaining32 U32 at *
  omega

theorem flex_total_take (f : Widget → Constraint) (g : Widget → Nat) (res : List Widget) :
    ∀ k : Nat, flex_total ((res.map f).take k) (res.map g) =
      (((res.take k).filter (fun c => decide ((f c).type = SizeType.SIZE_FLEX))).map g).sum := by
  induction res with
  | nil => intro k; simp [flex_total]
  | cons r rest ih =>
    intro k
    cases k with
    | zero => simp [flex_total]
    | succ k =>
      simp only [List.take_succ_cons, List.map_cons, flex_total, List.filter_cons]
      by_cases hr : (f r).type = SizeType.SIZE_FLEX
      · simp [hr, ih k]
      · simp [hr, ih k]

theorem split_at_index {α : Type} (l : List α) (k : Nat) (a : α) (hk : l[k]? = some a) :
    l = l.take k ++ a :: l.drop (k + 1) ∧ (l.take k).length = k := by
  obtain ⟨hlt, hget⟩ := List.getElem?_eq_some.mp hk
  constructor
  · rw [← hget, List.getElem_cons_drop l k hlt, List.take_append_drop]
  · simp; omega

theorem vrect_flex_rule (cs : List Widget) (x y width height k : Nat) (c : Widget)
    (hh : height < U32) (hk : cs[k]? = some c) (hnl : k + 1 < cs.length)
    (hc : c.height_constraint.type = SizeType.SIZE_FLEX) :
    ((vrect_loop cs cs.length 0 x width (deduct_fixed_heights cs height) y)[k]?).map Widget.h =
      some (mul32 (remaining32 height (fixed_total (cs.map Widget.height_constraint))
        (flex_heights_before k
          (vrect_loop cs cs.length 0 x width (deduct_fixed_heights cs height) y)))
        c.height_constraint.value / 100) := by
  have hkc : (cs.map Widget.height_constraint)[k]? = some c.height_constraint := by
    rw [List.getElem?_map, hk]; rfl
  obtain ⟨hsplit, hprelen⟩ := split_at_index _ k _ hkc
  obtain ⟨hd1, hd2⟩ := deduct_fixed_heights_mod cs height hh
  have hpost : (cs.map Widget.height_constraint).drop (k + 1) ≠ [] := by
    intro h
    have := congrArg List.length h
    simp at this
    omega
  obtain ⟨R, hR, hsum, hget⟩ := extents_flex_at ((cs.map Widget.height_constraint).take k)
    c.height_constraint _ hpost hc cs.length 0 (deduct_fixed_heights cs height)
    (by rw [← hsplit]; simp) hd1
  rw [← hsplit, hprelen, ← vrect_loop_h cs cs.length 0 x width _ y] at hget
  rw [← hsplit, ← vrect_loop_h cs cs.length 0 x width _ y,
    ← vrect_loop_constraints cs cs.length 0 x width (deduct_fixed_heights cs height) y,
    flex_total_take Widget.height_constraint Widget.h] at hsum
  rw [← List.getElem?_map, hget]
  have hrem := remaining32_eq height (fixed_total (cs.map Widget.height_constraint)) _ R _
    hR hsum hd2
  unfold flex_heights_before
  rw [hrem]

theorem hrect_flex_rule (cs : List Widget) (x y width height k : Nat) (c : Widget)
    (hw : width < U32) (hk : cs[k]? = some c) (hnl : k + 1 < cs.length)
    (hc : c.width_constraint.type = SizeType.SIZE_FLEX) :
    ((hrect_loop cs cs.length 0 y height (deduct_fixed_widths cs width) x)[k]?).map Widget.w =
      some (mul32 (remaining32 width (fixed_total (cs.map Widget.width_constraint))
        (flex_widths_before k
          (hrect_loop cs cs.length 0 y height (deduct_fixed_widths cs width) x)))
        c.width_constraint.value / 100) := by
  have hkc : (cs.map Widget.width_constraint)[k]? = some c.width_constraint := by
    rw [List.getElem?_map, hk]; rfl
  obtain ⟨hsplit, hprelen⟩ := split_at_index _ k _ hkc
  obtain ⟨hd1, hd2⟩ := deduct_fixed_widths_mod cs width hw
  have hpost : (cs.map Widget.width_constraint).drop (k + 1) ≠ [] := by
    intro h
    have := congrArg List.length h
    simp at this
    omega
  obtain ⟨R, hR, hsum, hget⟩ := extents_flex_at ((cs.map Widget.width_constraint).take k)
    c.width_constraint _ hpost hc cs.length 0 (deduct_fixed_widths cs width)
    (by rw [← hsplit]; simp) hd1
  rw [← hsplit, hprelen, ← hrect_loop_w cs cs.length 0 y height _ x] at hget
  rw [← hsplit, ← hrect_loop_w cs cs.length 0 y height _ x,
    ← hrect_loop_constraints cs cs.length 0 y height (deduct_fixed_widths cs width) x,
    flex_total_take Widget.width_constraint Widget.w] at hsum
  rw [← List.getElem?_map, hget]
  have hrem := remaining32_eq width (fixed_total (cs.map Widget.width_constraint)) _ R _
    hR hsum hd2
  unfold flex_widths_before
  rw [hrem]

/-! ## Origins, and the overlay loop -/

theorem origins_succ (es : List Nat) :
    ∀ (cur k a e b : Nat), (origins es cur)[k]? = some a → es[k]? = some e →
      (origins es cur)[k + 1]? = some b → b = add32 a e := by
  induction es with
  | nil => intro cur k a e b _ he; simp at he
  | cons e0 rest ih =>
    intro cur k a e b ha he hb
    cases k with
    | zero =>
      simp [origins] at ha he hb
      subst ha he
      cases rest with
      | nil => simp [origins] at hb
      | cons e1 rest1 =>
        simp [origins] at hb
        exact hb.symm
    | succ k =>
      simp only [origins, List.getElem?_cons_succ] at ha he hb
      exact ih _ k a e b ha he hb

theorem origins_head (es : List Nat) (cur a : Nat) (h : (origins es cur)[0]? = some a) :
    a = cur := by
  cases es with
  | nil => simp [origins] at h
  | cons e rest => simp [origins] at h; exact h.symm

/-- What the body of the `WIDGET_STACK` loop does with one child. -/
theorem stack_loop_getElem? (cs : List Widget) (x y width height : Nat) :
    ∀ (k : Nat) (c : Widget), cs[k]? = some c →
      (stack_loop cs x y width height)[k]? =
        some (if c.width_constraint.type = SizeType.SIZE_ABSOLUTE ∧
            c.height_constraint.type = SizeType.SIZE_ABSOLUTE then
          widget_compute_layout c
            (add32 x (sub32 width c.width_constraint.value / 2))
            (add32 y (sub32 height c.height_constraint.value / 2))
            c.width_constraint.value c.height_constraint.value
        else widget_compute_layout c x y width height) := by
  induction cs with
  | nil => intro k c h; simp at h
  | cons c0 rest ih =>
    intro k c h
    cases k with
    | zero =>
      simp at h
      subst h
      simp [stack_loop]
    | succ k =>
      simp only [List.getElem?_cons_succ] at h
      simp only [stack_loop, List.getElem?_cons_succ]
      exact ih k c h

theorem stack_loop_length (cs : List Widget) (x y width height : Nat) :
    (stack_loop cs x y width height).length = cs.length := by
  induction cs with
  | nil => simp [stack_loop]
  | cons c rest ih => simp [stack_loop, ih]

/-! ## Layout and the stored rectangles -/

@[simp] theorem skeleton_list_length (cs : List Widget) :
    (skeleton_list cs).length = cs.length := by
  induction cs with
  | nil => simp [skeleton_list]
  | cons c rest ih => simp [skeleton_list, ih]

@[simp] theorem skeleton_width_constraint (wd : Widget) :
    (skeleton wd).width_constraint = wd.width_constraint := by
  cases wd; rfl

@[simp] theorem skeleton_height_constraint (wd : Widget) :
    (skeleton wd).height_constraint = wd.height_constraint := by
  cases wd; rfl

theorem deduct_fixed_heights_congr (cs ds : List Widget)
    (h : cs.map Widget.height_constraint = ds.map Widget.height_constraint) :
    ∀ rem, deduct_fixed_heights cs rem = deduct_fixed_heights ds rem := by
  induction cs generalizing ds with
  | nil =>
    cases ds with
    | nil => intro rem; rfl
    | cons d ds => simp at h
  | cons c rest ih =>
    cases ds with
    | nil => simp at h
    | cons d ds =>
      simp only [List.map_cons, List.cons.injEq] at h
      intro rem
      simp only [deduct_fixed_heights, h.1]
      split
      · exact ih ds h.2 _
      · exact ih ds h.2 _

theorem deduct_fixed_widths_congr (cs ds : List Widget)
    (h : cs.map Widget.width_constraint = ds.map Widget.width_constraint) :
    ∀ rem, deduct_fixed_widths cs rem = deduct_fixed_widths ds rem := by
  induction cs generalizing ds with
  | nil =>
    cases ds with
    | nil => intro rem; rfl
    | cons d ds => simp at h
  | cons c rest ih =>
    cases ds with
    | nil => simp at h
    | cons d ds =>
      simp only [List.map_cons, List.cons.injEq] at h
      intro rem
      simp only [deduct_fixed_widths, h.1]
      split
      · exact ih ds h.2 _
      · exact ih ds h.2 _

theorem skeleton_list_heights (cs : List Widget) :
    (skeleton_list cs).map Widget.height_constraint = cs.map Widget.height_constraint := by
  induction cs with
  | nil => simp [skeleton_list]
  | cons c rest ih => simp [skeleton_list, ih]

theorem skeleton_list_widths (cs : List Widget) :
    (skeleton_list cs).map Widget.width_constraint = cs.map Widget.width_constraint := by
  induction cs with
  | nil => simp [skeleton_list]
  | cons c rest ih => simp [skeleton_list, ih]

theorem stack_loop_constraints (cs : List Widget) (x y width height : Nat) :
    (stack_loop cs x y width height).map Widget.height_constraint =
        cs.map Widget.height_constraint ∧
      (stack_loop cs x y width height).map Widget.width_constraint =
        cs.map Widget.width_constraint := by
  induction cs with
  | nil => simp [stack_loop]
  | cons c rest ih =>
    simp only [stack_loop, List.map_cons, ih.1, ih.2]
    split <;> simp

mutual

theorem layout_skeleton : ∀ (wd : Widget) (x y width height : Nat),
    widget_compute_layout (skeleton wd) x y width height =
      widget_compute_layout wd x y width height
  | Widget.mk t wc hc b x0 y0 w0 h0 cs, x, y, width, height => by
    cases t with
    | WIDGET_VRECT =>
      simp only [skeleton]
      unfold widget_compute_layout
      simp only [skeleton_list_length, reduceCtorEq, if_false]
      rw [deduct_fixed_heights_congr _ _ (skeleton_list_heights cs),
        vrect_loop_skeleton cs]
      split
      · rename_i hlen
        have hnil : cs = [] := List.length_eq_zero.mp hlen
        subst hnil
        rfl
      · rfl
    | WIDGET_HRECT =>
      simp only [skeleton]
      unfold widget_compute_layout
      simp only [skeleton_list_length, reduceCtorEq, if_false]
      rw [deduct_fixed_widths_congr _ _ (skeleton_list_widths cs),
        hrect_loop_skeleton cs]
      split
      · rename_i hlen
        have hnil : cs = [] := List.length_eq_zero.mp hlen
        subst hnil
        rfl
      · rfl
    | WIDGET_STACK =>
      simp only [skeleton]
      unfold widget_compute_layout
      simp only [skeleton_list_length, reduceCtorEq, if_false]
      rw [stack_loop_skeleton cs]
      split
      · rename_i hlen
        have hnil : cs = [] := List.length_eq_zero.mp hlen
        subst hnil
        rfl
      · rfl
    | WIDGET_BOX =>
      simp only [skeleton]
      unfold widget_compute_layout
      simp

theorem vrect_loop_skeleton : ∀ (cs : List Widget) (n i x width rem y : Nat),
    vrect_loop (skeleton_list cs) n i x width rem y = vrect_loop cs n i x width rem y
  | [], _, _, _, _, _, _ => rfl
  | c :: rest, n, i, x, width, rem, y => by
    simp only [skeleton_list, vrect_loop, skeleton_height_constraint]
    rw [layout_skeleton c, vrect_loop_skeleton rest]

theorem hrect_loop_skeleton : ∀ (cs : List Widget) (n i y height rem x : Nat),
    hrect_loop (skeleton_list cs) n i y height rem x = hrect_loop cs n i y height rem x
  | [], _, _, _, _, _, _ => rfl
  | c :: rest, n, i, y, height, rem, x => by
    simp only [skeleton_list, hrect_loop, skeleton_width_constraint]
    rw [layout_skeleton c, hrect_loop_skeleton rest]

theorem stack_loop_skeleton : ∀ (cs : List Widget) (x y width height : Nat),
    stack_loop (skeleton_list cs) x y width height = stack_loop cs x y width height
  | [], _, _, _, _ => rfl
  | c :: rest, x, y, width, height => by
    simp only [skeleton_list, stack_loop, skeleton_height_constraint,
      skeleton_width_constraint]
    rw [layout_skeleton c, layout_skeleton c, stack_loop_skeleton rest]

end

mutual

theorem skeleton_layout : ∀ (wd : Widget) (x y width height : Nat),
    skeleton (widget_compute_layout wd x y width height) = skeleton wd
  | Widget.mk t wc hc b x0 y0 w0 h0 cs, x, y, width, height => by
    unfold widget_compute_layout
    split
    · simp [skeleton]
    · cases t with
      | WIDGET_VRECT => simp [skeleton, skeleton_vrect_loop cs]
      | WIDGET_HRECT => simp [skeleton, skeleton_hrect_loop cs]
      | WIDGET_STACK => simp [skeleton, skeleton_stack_loop cs]
      | WIDGET_BOX => simp [skeleton]

theorem skeleton_vrect_loop : ∀ (cs : List Widget) (n i x width rem y : Nat),
    skeleton_list (vrect_loop cs n i x width rem y) = skeleton_list cs
  | [], _, _, _, _, _, _ => rfl
  | c :: rest, n, i, x, width, rem, y => by
    simp only [vrect_loop, skeleton_list]
    rw [skeleton_layout c, skeleton_vrect_loop rest]

theorem skeleton_hrect_loop : ∀ (cs : List Widget) (n i y height rem x : Nat),
    skeleton_list (hrect_loop cs n i y height rem x) = skeleton_list cs
  | [], _, _, _, _, _, _ => rfl
  | c :: rest, n, i, y, height, rem, x => by
    simp only [hrect_loop, skeleton_list]
    rw [skeleton_layout c, skeleton_hrect_loop rest]

theorem skeleton_stack_loop : ∀ (cs : List Widget) (x y width height : Nat),
    skeleton_list (stack_loop cs x y width height) = skeleton_list cs
  | [], _, _, _, _ => rfl
  | c :: rest, x, y, width, height => by
    simp only [stack_loop, skeleton_list]
    rw [skeleton_stack_loop rest]
    split
    · rw [skeleton_layout c]
    · rw [skeleton_layout c]

end

theorem layout_idempotent (wd : Widget) (x y width height : Nat) :
    widget_compute_layout (widget_compute_layout wd x y width height) x y width height =
      widget_compute_layout wd x y width height := by
  rw [← layout_skeleton (widget_compute_layout wd x y width height), skeleton_layout,
    layout_skeleton]

theorem layout_of_skeleton_eq (t1 t2 : Widget) (x y width height : Nat)
    (h : skeleton t1 = skeleton t2) :
    widget_compute_layout t1 x y width height = widget_compute_layout t2 x y width height := by
  rw [← layout_skeleton t1, h, layout_skeleton]

@[simp] theorem clear_rects_list_length (cs : List Widget) :
    (clear_rects_list cs).length = cs.length := by
  induction cs with
  | nil => simp [clear_rects_list]
  | cons c rest ih => simp [clear_rects_list, ih]

mutual

theorem skeleton_eq_clear_rects : ∀ (wd : Widget), boxes_childless wd = true →
    skeleton wd = clear_rects wd
  | Widget.mk t wc hc b x0 y0 w0 h0 cs, h => by
    simp only [boxes_childless, Bool.and_eq_true, Bool.or_eq_true, decide_eq_true_eq] at h
    simp only [skeleton, clear_rects]
    rw [← skeleton_list_eq_clear_rects cs h.2]
    split
    · rename_i ht
      rcases h.1 with h1 | h1
      · exact absurd ht h1
      · have hnil : cs = [] := List.length_eq_zero.mp h1
        subst hnil
        rfl
    · rfl

theorem skeleton_list_eq_clear_rects : ∀ (cs : List Widget), boxes_childless_list cs = true →
    skeleton_list cs = clear_rects_list cs
  | [], _ => rfl
  | c :: rest, h => by
    simp only [boxes_childless_list, Bool.and_eq_true] at h
    simp only [skeleton_list, clear_rects_list]
    rw [skeleton_eq_clear_rects c h.1, skeleton_list_eq_clear_rects rest h.2]

end

mutual

theorem boxes_childless_clear_rects : ∀ (wd : Widget),
    boxes_childless (clear_rects wd) = boxes_childless wd
  | Widget.mk t wc hc b x0 y0 w0 h0 cs => by
    simp only [clear_rects, boxes_childless, clear_rects_list_length]
    rw [boxes_childless_list_clear_rects cs]

theorem boxes_childless_list_clear_rects : ∀ (cs : List Widget),
    boxes_childless_list (clear_rects_list cs) = boxes_childless_list cs
  | [] => rfl
  | c :: rest => by
    simp only [clear_rects_list, boxes_childless_list]
    rw [boxes_childless_clear_rects c, boxes_childless_list_clear_rects rest]

end

theorem layout_of_clear_rects_eq (t1 t2 : Widget) (x y width height : Nat)
    (hb : boxes_childless t1 = true) (h : clear_rects t1 = clear_rects t2) :
    widget_compute_layout t1 x y width height = widget_compute_layout t2 x y width height := by
  have hb2 : boxes_childless t2 = true := by
    rw [← boxes_childless_clear_rects, ← h, boxes_childless_clear_rects, hb]
  exact layout_of_skeleton_eq t1 t2 x y width height
    (by rw [skeleton_eq_clear_rects t1 hb, skeleton_eq_clear_rects t2 hb2, h])

/-! ## The renderer of `tui.h` -/

theorem foldl_nested_eq_grid {σ : Type} (f : σ → Nat → Nat → σ) (xs : List Nat) :
    ∀ (ys : List Nat) (s : σ),
      ys.foldl (fun s y => xs.foldl (fun s x => f s y x) s) s =
        (ys.flatMap (fun y => xs.map (fun x => (y, x)))).foldl (fun s p => f s p.1 p.2) s := by
  intro ys
  induction ys with
  | nil => intro s; rfl
  | cons y rest ih =>
    intro s
    simp only [List.foldl_cons, List.flatMap_cons, List.foldl_append, List.foldl_map]
    exact ih _

theorem render_loop_eq_grid (tui : Tui) :
    render_loop tui =
      (grid tui.height tui.width).foldl
        (fun s p => render_step tui.width tui.terminal s p.1 p.2)
        (render_init tui.front_buffer) := by
  unfold render_loop render_row grid
  exact foldl_nested_eq_grid _ _ _ _

theorem mem_grid (height width : Nat) (p : Nat × Nat) :
    p ∈ grid height width ↔ p.1 < height ∧ p.2 < width := by
  unfold grid
  simp only [List.mem_flatMap, List.mem_map, List.mem_range]
  constructor
  · rintro ⟨y, hy, x, hx, rfl⟩
    exact ⟨hy, hx⟩
  · rintro ⟨hy, hx⟩
    exact ⟨p.1, hy, p.2, hx, rfl⟩

theorem getD_set (l : List Cell) (i j : Nat) (a d : Cell) :
    (l.set i a).getD j d = if i = j ∧ i < l.length then a else l.getD j d := by
  simp only [List.getD_eq_getElem?_getD, List.getElem?_set]
  by_cases hij : i = j
  · subst hij
    by_cases hlt : i < l.length
    · simp [hlt]
    · have hnone : l[i]? = none := by
        rw [List.getElem?_eq_none_iff]; omega
      simp [hlt, hnone]
  · simp [hij]

theorem render_step_noop (width : Nat) (back : List Cell) (st : RenderState) (y x : Nat)
    (h : synced_at back st.front (add32 (mul32 y width) x)) :
    render_step width back st y x = st := by
  unfold render_step
  simp only []
  rw [if_neg]
  rintro (h1 | h1)
  · exact h1 h.1
  · exact h1 h.2

theorem render_step_front_length (width : Nat) (back : List Cell) (st : RenderState)
    (y x : Nat) : (render_step width back st y x).front.length = st.front.length := by
  unfold render_step
  simp only []
  split <;> simp

theorem render_step_keeps_synced (width : Nat) (back : List Cell) (st : RenderState)
    (y x i : Nat) (h : synced_at back st.front i) :
    synced_at back (render_step width back st y x).front i := by
  unfold render_step
  simp only []
  split
  · unfold synced_at at h ⊢
    simp only [getD_set]
    split
    · rename_i hi
      rw [hi.1]
      exact ⟨rfl, rfl⟩
    · exact h
  · exact h

theorem render_step_syncs (width : Nat) (back : List Cell) (st : RenderState) (y x : Nat)
    (hlen : st.front.length = back.length) :
    synced_at back (render_step width back st y x).front (add32 (mul32 y width) x) := by
  by_cases h : synced_at back st.front (add32 (mul32 y width) x)
  · rw [render_step_noop width back st y x h]; exact h
  · unfold render_step
    simp only []
    split
    · unfold synced_at
      simp only [getD_set]
      by_cases hlt : add32 (mul32 y width) x < st.front.length
      · simp [hlt]
      · exfalso
        apply h
        unfold synced_at
        have h1 : st.front.getD (add32 (mul32 y width) x) blank_cell = blank_cell := by
          rw [List.getD_eq_default]; omega
        have h2 : back.getD (add32 (mul32 y width) x) blank_cell = blank_cell := by
          rw [List.getD_eq_default]; omega
        rw [h1, h2]
        exact ⟨rfl, rfl⟩
    · rename_i hc
      exfalso
      apply h
      unfold synced_at
      simp only [not_or, not_not] at hc
      exact hc

theorem render_fold_front_length (width : Nat) (back : List Cell) (ps : List (Nat × Nat)) :
    ∀ st : RenderState,
      (ps.foldl (fun s p => render_step width back s p.1 p.2) st).front.length
        = st.front.length := by
  induction ps with
  | nil => intro st; rfl
  | cons p rest ih =>
    intro st
    rw [List.foldl_cons, ih, render_step_front_length]

theorem render_fold_keeps_synced (width : Nat) (back : List Cell) (ps : List (Nat × Nat))
    (i : Nat) :
    ∀ st : RenderState, synced_at back st.front i →
      synced_at back (ps.foldl (fun s p => render_step width back s p.1 p.2) st).front i := by
  induction ps with
  | nil => intro st h; exact h
  | cons p rest ih =>
    intro st h
    rw [List.foldl_cons]
    exact ih _ (render_step_keeps_synced width back st p.1 p.2 i h)

theorem render_fold_syncs (width : Nat) (back : List Cell) (ps : List (Nat × Nat)) :
    ∀ st : RenderState, st.front.length = back.length →
      ∀ p ∈ ps, synced_at back
        (ps.foldl (fun s p => render_step width back s p.1 p.2) st).front
        (add32 (mul32 p.1 width) p.2) := by
  induction ps with
  | nil => intro st _ p hp; simp at hp
  | cons q rest ih =>
    intro st hlen p hp
    rw [List.foldl_cons]
    rcases List.mem_cons.mp hp with h | h
    · subst h
      exact render_fold_keeps_synced width back rest _ _
        (render_step_syncs width back st p.1 p.2 hlen)
    · exact ih _ (by rw [render_step_front_length]; exact hlen) p h

theorem render_fold_noop (width : Nat) (back : List Cell) (ps : List (Nat × Nat)) :
    ∀ st : RenderState,
      (∀ p ∈ ps, synced_at back st.front (add32 (mul32 p.1 width) p.2)) →
      ps.foldl (fun s p => render_step width back s p.1 p.2) st = st := by
  induction ps with
  | nil => intro st _; rfl
  | cons q rest ih =>
    intro st h
    rw [List.foldl_cons, render_step_noop width back st q.1 q.2 (h q (List.mem_cons_self _ _))]
    exact ih st (fun p hp => h p (List.mem_cons_of_mem _ hp))

theorem tui_render_twice_silent (tui : Tui)
    (hlen : tui.front_buffer.length = tui.terminal.length) :
    (tui_render (tui_render tui).1).2 = [] := by
  unfold tui_render
  simp only []
  rw [render_loop_eq_grid { tui with front_buffer := (render_loop tui).front }]
  simp only []
  rw [render_fold_noop]
  · rfl
  · intro p hp
    simp only [render_init]
    rw [render_loop_eq_grid tui]
    exact render_fold_syncs tui.width tui.terminal _ _ hlen p hp

theorem grid_index_exact (height width : Nat) (hsz : width * height < U32) (p : Nat × Nat)
    (hp : p ∈ grid height width) :
    add32 (mul32 p.1 width) p.2 = p.1 * width + p.2 ∧ p.1 * width + p.2 < width * height := by
  obtain ⟨hy, hx⟩ := (mem_grid height width p).mp hp
  have h1 : (p.1 + 1) * width ≤ height * width := Nat.mul_le_mul_right width hy
  have h2 : (p.1 + 1) * width = p.1 * width + width := Nat.succ_mul _ _
  have h3 : height * width = width * height := Nat.mul_comm _ _
  have hlt : p.1 * width + p.2 < width * height := by omega
  have hm : mul32 p.1 width = p.1 * width := Nat.mod_eq_of_lt (by omega)
  refine ⟨?_, hlt⟩
  rw [add32, hm]
  exact Nat.mod_eq_of_lt (by omega)

theorem grid_index_inj (width : Nat) (y x y0 x0 : Nat) (hx : x < width) (hx0 : x0 < width)
    (h : y * width + x = y0 * width + x0) : (y, x) = (y0, x0) := by
  have hw : 0 < width := by omega
  have e1 : (y * width + x) / width = y := by
    rw [Nat.add_comm, Nat.add_mul_div_right _ _ hw, Nat.div_eq_of_lt hx, Nat.zero_add]
  have e2 : (y0 * width + x0) / width = y0 := by
    rw [Nat.add_comm, Nat.add_mul_div_right _ _ hw, Nat.div_eq_of_lt hx0, Nat.zero_add]
  have hy : y = y0 := by rw [← e1, ← e2, h]
  subst hy
  have hxx : x = x0 := by omega
  rw [hxx]

theorem color_eq (c d : Color) : c = d := by
  cases c; cases d; rfl

theorem synced_at_of_eq (back front : List Cell) (i : Nat) (h : back[i]? = front[i]?) :
    synced_at back front i := by
  simp [synced_at, List.getD_eq_getElem?_getD, h]

theorem to_int_ne_neg_one (v : Nat) (hv : v + 1 < U32) : (-1 : Int) ≠ to_int v := by
  unfold to_int U32 at *
  split <;> omega

namespace Cxx

theorem draw_step_noop (app : App) (st : List (Write (List Nat)) × Bool) (i : Nat)
    (h : app.term.getD i blank_cell = app.prev_term.getD i blank_cell) :
    draw_step app st i = st := by
  unfold draw_step
  rw [if_neg (fun hne => hne h)]

theorem draw_fold_noop (app : App) (l : List Nat) :
    ∀ st : List (Write (List Nat)) × Bool,
      (∀ i ∈ l, app.term.getD i blank_cell = app.prev_term.getD i blank_cell) →
      l.foldl (draw_step app) st = st := by
  induction l with
  | nil => intro st _; rfl
  | cons j rest ih =>
    intro st h
    rw [List.foldl_cons, draw_step_noop app st j (h j (List.mem_cons_self _ _))]
    exact ih st (fun i hi => h i (List.mem_cons_of_mem _ hi))

theorem draw_fold_changed (app : App) (l : List Nat) :
    ∀ st : List (Write (List Nat)) × Bool, st.2 = true →
      (l.foldl (draw_step app) st).2 = true := by
  induction l with
  | nil => intro st h; exact h
  | cons j rest ih =>
    intro st h
    rw [List.foldl_cons]
    apply ih
    unfold draw_step
    split
    · rfl
    · exact h

theorem draw_fold_unchanged (app : App) (l : List Nat) :
    ∀ st : List (Write (List Nat)) × Bool, (l.foldl (draw_step app) st).2 = false →
      ∀ i ∈ l, app.term.getD i blank_cell = app.prev_term.getD i blank_cell := by
  induction l with
  | nil => intro st _ i hi; simp at hi
  | cons j rest ih =>
    intro st h i hi
    rw [List.foldl_cons] at h
    rcases List.mem_cons.mp hi with hij | hij
    · subst hij
      by_contra hne
      have hstep : (draw_step app st i).2 = true := by
        unfold draw_step
        rw [if_pos hne]
      rw [draw_fold_changed app rest _ hstep] at h
      exact Bool.noConfusion h
    · exact ih _ h i hij

theorem draw_diff_twice_silent (app : App) : (draw_diff (draw_diff app).1).2 = [] := by
  unfold draw_diff
  simp only []
  cases hch : (draw_loop app).2
  · simp only [Bool.false_eq_true, if_false]
    have hall := draw_fold_unchanged app _ _ hch
    unfold draw_loop
    rw [draw_fold_noop app _ _ hall]
  · simp only [if_true]
    unfold draw_loop
    rw [draw_fold_noop]
    intro i _
    rfl

end Cxx

/-! ## The commit of the diff -/

theorem cell_eq_of_synced (back front : List Cell) (i : Nat) (hb : i < back.length)
    (hf : i < front.length) (h : synced_at back front i) : front[i]? = back[i]? := by
  unfold synced_at at h
  simp only [List.getD_eq_getElem?_getD, List.getElem?_eq_getElem hb,
    List.getElem?_eq_getElem hf, Option.getD_some] at h
  rw [List.getElem?_eq_getElem hb, List.getElem?_eq_getElem hf]
  congr 1
  rcases hbc : back[i] with ⟨s1, f1, g1, t1⟩
  rcases hfc : front[i] with ⟨s2, f2, g2, t2⟩
  rw [hbc, hfc] at h
  simp only at h
  rw [h.1, h.2, color_eq f1 f2, color_eq g1 g2]

theorem index_in_grid (width height i : Nat) (hsz : width * height < U32)
    (hi : i < width * height) :
    (i / width, i % width) ∈ grid height width ∧
      add32 (mul32 (i / width) width) (i % width) = i := by
  have hw : 0 < width :=
    Nat.pos_of_ne_zero (fun h => by rw [h, Nat.zero_mul] at hi; exact Nat.not_lt_zero _ hi)
  have hp : (i / width, i % width) ∈ grid height width :=
    (mem_grid _ _ _).mpr ⟨Nat.div_lt_of_lt_mul hi, Nat.mod_lt _ hw⟩
  refine ⟨hp, ?_⟩
  rw [(grid_index_exact height width hsz _ hp).1]
  exact Nat.div_add_mod' i width

theorem tui_render_commits (tui : Tui)
    (hlenT : tui.terminal.length = tui.width * tui.height)
    (hlenF : tui.front_buffer.length = tui.width * tui.height)
    (hsz : tui.width * tui.height < U32) :
    (tui_render tui).1.front_buffer = tui.terminal := by
  unfold tui_render
  simp only []
  rw [render_loop_eq_grid]
  have hlen : ((grid tui.height tui.width).foldl
      (fun s p => render_step tui.width tui.terminal s p.1 p.2)
      (render_init tui.front_buffer)).front.length = tui.width * tui.height := by
    rw [render_fold_front_length]; exact hlenF
  apply List.ext_getElem?
  intro i
  by_cases hi : i < tui.width * tui.height
  · obtain ⟨hp, hidx⟩ := index_in_grid tui.width tui.height i hsz hi
    have hs := render_fold_syncs tui.width tui.terminal (grid tui.height tui.width)
      (render_init tui.front_buffer) (hlenF.trans hlenT.symm) _ hp
    rw [hidx] at hs
    exact cell_eq_of_synced _ _ i (by omega) (by omega) hs
  · rw [List.getElem?_eq_none_iff.mpr (by omega), List.getElem?_eq_none_iff.mpr (by omega)]

theorem tui_render_unchanged (tui : Tui) (h : tui.terminal = tui.front_buffer) :
    (tui_render tui).2 = [] ∧ (tui_render tui).1 = tui := by
  have hloop : render_loop tui = render_init tui.front_buffer := by
    rw [render_loop_eq_grid]
    apply render_fold_noop
    intro p _
    exact synced_at_of_eq _ _ _ (by rw [h]; rfl)
  unfold tui_render
  rw [hloop]
  exact ⟨rfl, rfl⟩

namespace Cxx

theorem draw_diff_commits (app : App) (hlen : app.prev_term.length = app.term.length) :
    (draw_diff app).1.prev_term = app.term := by
  unfold draw_diff
  simp only []
  cases hch : (draw_loop app).2
  · simp only [Bool.false_eq_true, if_false]
    have hall := draw_fold_unchanged app _ _ hch
    apply List.ext_getElem?
    intro i
    by_cases hi : i < app.term.length
    · have := hall i (List.mem_range.mpr hi)
      simp only [List.getD_eq_getElem?_getD, List.getElem?_eq_getElem hi,
        List.getElem?_eq_getElem (hlen ▸ hi : i < app.prev_term.length),
        Option.getD_some] at this
      rw [List.getElem?_eq_getElem hi,
        List.getElem?_eq_getElem (hlen ▸ hi : i < app.prev_term.length), this]
    · rw [List.getElem?_eq_none_iff.mpr (by omega), List.getElem?_eq_none_iff.mpr (by omega)]
  · simp only [if_true]

theorem draw_diff_unchanged (app : App) (h : app.term = app.prev_term) :
    (draw_diff app).2 = [] ∧ (draw_diff app).1 = app := by
  have hloop : draw_loop app = ([], false) := by
    unfold draw_loop
    apply draw_fold_noop
    intro i _
    rw [h]
  unfold draw_diff
  rw [hloop]
  exact ⟨rfl, rfl⟩

end Cxx

/-! ## Cell writes -/

theorem map_cell_at_outside (tui : Tui) (cell : Cell) (x y : Nat)
    (h : x ≥ tui.width ∨ y ≥ tui.height) : map_cell_at tui cell x y = tui := by
  unfold map_cell_at
  rw [if_pos h]

theorem map_cell_at_inside (tui : Tui) (cell : Cell) (x y : Nat)
    (hlen : tui.terminal.length = tui.width * tui.height)
    (hsz : tui.width * tui.height < U32) (hx : x < tui.width) (hy : y < tui.height) :
    (map_cell_at tui cell x y).terminal = tui.terminal.set (y * tui.width + x) cell ∧
      y * tui.width + x < tui.terminal.length ∧ (map_cell_at tui cell x y).is_dirty = 1 ∧
      (map_cell_at tui cell x y).front_buffer = tui.front_buffer ∧
      (map_cell_at tui cell x y).width = tui.width ∧
      (map_cell_at tui cell x y).height = tui.height := by
  have hp : (y, x) ∈ grid tui.height tui.width := (mem_grid _ _ _).mpr ⟨hy, hx⟩
  obtain ⟨hidx, hlt⟩ := grid_index_exact tui.height tui.width hsz (y, x) hp
  simp only at hidx hlt
  unfold map_cell_at
  rw [if_neg (by omega)]
  exact ⟨by rw [hidx], by omega, rfl, rfl, rfl, rfl⟩

namespace Cxx

theorem set_cell_outside (app : App) (x y : Nat) (symbol : List Nat) (style : Style)
    (h : x ≥ app.cols ∨ y ≥ app.lines ∨ x < app.clip_rect.x ∨
      x ≥ app.clip_rect.x + app.clip_rect.width ∨ y < app.clip_rect.y ∨
      y ≥ app.clip_rect.y + app.clip_rect.height) :
    set_cell app x y symbol style = app := by
  unfold set_cell
  by_cases hb : x ≥ app.cols ∨ y ≥ app.lines
  · rw [if_pos hb]
  · rw [if_neg hb, if_pos]
    have h1 : add32 app.clip_rect.x app.clip_rect.width ≤
        app.clip_rect.x + app.clip_rect.width := Nat.mod_le _ _
    have h2 : add32 app.clip_rect.y app.clip_rect.height ≤
        app.clip_rect.y + app.clip_rect.height := Nat.mod_le _ _
    omega

theorem set_cell_inside (app : App) (x y : Nat) (symbol : List Nat) (style : Style)
    (hsz : app.cols * app.lines < U32) (hx : x < app.cols) (hy : y < app.lines)
    (hcx : app.clip_rect.x ≤ x) (hcx2 : x < app.clip_rect.x + app.clip_rect.width)
    (hcy : app.clip_rect.y ≤ y) (hcy2 : y < app.clip_rect.y + app.clip_rect.height)
    (hwx : app.clip_rect.x + app.clip_rect.width < U32)
    (hwy : app.clip_rect.y + app.clip_rect.height < U32) :
    set_cell app x y symbol style =
      { app with
        term := app.term.set (y * app.cols + x)
          { app.term.getD (y * app.cols + x) blank_cell with
            symbol := symbol
            style := style } } ∧
      y * app.cols + x < app.cols * app.lines := by
  have hp : (y, x) ∈ grid app.lines app.cols := (mem_grid _ _ _).mpr ⟨hy, hx⟩
  obtain ⟨hidx, hlt⟩ := grid_index_exact app.lines app.cols hsz (y, x) hp
  simp only at hidx hlt
  have h1 : add32 app.clip_rect.x app.clip_rect.width =
      app.clip_rect.x + app.clip_rect.width := Nat.mod_eq_of_lt hwx
  have h2 : add32 app.clip_rect.y app.clip_rect.height =
      app.clip_rect.y + app.clip_rect.height := Nat.mod_eq_of_lt hwy
  unfold set_cell
  rw [if_neg (by omega), if_neg (by rw [h1, h2]; omega)]
  exact ⟨by rw [hidx], hlt⟩

end Cxx

theorem getElem?_set_cell {α : Type} (l : List α) (i : Nat) (a : α) (hi : i < l.length) :
    (l.set i a)[i]? = some a ∧ (∀ j, j ≠ i → (l.set i a)[j]? = l[j]?) ∧
      (l.set i a).length = l.length := by
  refine ⟨?_, ?_, List.length_set l i a⟩
  · rw [List.getElem?_set]; simp [hi]
  · intro j hj
    rw [List.getElem?_set]
    simp [Ne.symm hj]

/-! ## The last Flex child -/

theorem extents_sum_of_nonlast (cons : List Constraint) :
    ∀ (n i rem : Nat), i + cons.length = n → rem < U32 →
      cons.getLast?.map Constraint.type = some SizeType.SIZE_FLEX →
      (∀ c ∈ cons.dropLast, c.type = SizeType.SIZE_FLEX → c.value ≤ 100) →
      (extents cons n i rem).sum = fixed_total cons + rem ∧
        distribute_no_wrap cons n i rem := by
  induction cons with
  | nil => intro n i rem _ _ hlast; simp at hlast
  | cons c rest ih =>
    intro n i rem hlen hrem hlast hw
    cases rest with
    | nil =>
      simp at hlast
      simp at hlen
      have hi : i = n - 1 := by omega
      refine ⟨by simp [extents, fixed_total, child_extent, hlast, hi], ?_⟩
      simp only [distribute_no_wrap, and_true]
      intro _ hne
      exact absurd hi hne
    | cons c2 rest2 =>
      have hi : i ≠ n - 1 := by simp at hlen; omega
      have hlast2 : (c2 :: rest2).getLast?.map Constraint.type = some SizeType.SIZE_FLEX := by
        simpa [List.getLast?_cons_cons] using hlast
      have hw2 : ∀ c ∈ (c2 :: rest2).dropLast, c.type = SizeType.SIZE_FLEX → c.value ≤ 100 :=
        fun c hc => hw c (by rw [List.dropLast_cons₂]; exact List.mem_cons_of_mem _ hc)
      have hwc : c.type = SizeType.SIZE_FLEX → c.value ≤ 100 :=
        hw c (by rw [List.dropLast_cons₂]; exact List.mem_cons_self _ _)
      have hlen2 : (i + 1) + (c2 :: rest2).length = n := by simp at hlen ⊢; omega
      rw [extents, List.sum_cons, fixed_total]
      rcases hct : c.type with _ | _ | _
      · have hnr : next_remaining c i n rem = rem := by simp [next_remaining, hct]
        have hce : child_extent c i n rem = c.value := by simp [child_extent, hct]
        obtain ⟨h1, h2⟩ := ih n (i + 1) rem hlen2 hrem hlast2 hw2
        refine ⟨?_, ?_⟩
        · rw [hnr, hce, h1]
          simp
          omega
        · rw [distribute_no_wrap, hnr]
          exact ⟨fun hf => by rw [hct] at hf; exact absurd hf (by decide), h2⟩
      · have hle := flex_share_le rem c.value (hwc hct)
        have hnr : next_remaining c i n rem = rem - mul32 rem c.value / 100 := by
          simp only [next_remaining, hct, hi]
          simp
          unfold sub32 U32 at *
          omega
        have hce : child_extent c i n rem = mul32 rem c.value / 100 := by
          simp [child_extent, hct, hi]
        obtain ⟨h1, h2⟩ := ih n (i + 1) (rem - mul32 rem c.value / 100) hlen2 (by omega)
          hlast2 hw2
        refine ⟨?_, ?_⟩
        · rw [hnr, hce, h1]
          simp
          omega
        · rw [distribute_no_wrap, hnr]
          exact ⟨fun _ _ => hle, h2⟩
      · have hnr : next_remaining c i n rem = rem := by simp [next_remaining, hct]
        have hce : child_extent c i n rem = 0 := by simp [child_extent, hct]
        obtain ⟨h1, h2⟩ := ih n (i + 1) rem hlen2 hrem hlast2 hw2
        refine ⟨?_, ?_⟩
        · rw [hnr, hce, h1]
          simp
        · rw [distribute_no_wrap, hnr]
          exact ⟨fun hf => by rw [hct] at hf; exact absurd hf (by decide), h2⟩

theorem deduct_no_wrap_of_le (cons : List Constraint) :
    ∀ rem : Nat, rem < U32 → fixed_total cons ≤ rem → deduct_no_wrap cons rem := by
  induction cons with
  | nil => intro _ _ _; trivial
  | cons c rest ih =>
    intro rem hrem hle
    simp only [fixed_total] at hle
    simp only [deduct_no_wrap]
    split
    · rename_i hfix
      rw [if_pos hfix] at hle
      have hs : sub32 rem c.value = rem - c.value := by
        unfold sub32 U32 at *; omega
      rw [hs]
      exact ⟨by omega, ih _ (by omega) (by omega)⟩
    · rename_i hfix
      rw [if_neg hfix] at hle
      exact ih rem hrem hle

theorem sum_eq_dropLast_add_last (l : List Nat) (a : Nat) (h : l.getLast? = some a) :
    l.sum = l.dropLast.sum + a := by
  have := List.dropLast_append_getLast? a h
  conv_lhs => rw [← this]
  simp

theorem last_extent (cons : List Constraint) (extent rem0 : Nat) (he : extent < U32)
    (hrem : rem0 = extent - fixed_total cons) (hfix : fixed_total cons ≤ extent)
    (hlast : cons.getLast?.map Constraint.type = some SizeType.SIZE_FLEX)
    (hw : ∀ c ∈ cons.dropLast, c.type = SizeType.SIZE_FLEX → c.value ≤ 100) :
    ∃ e, (extents cons cons.length 0 rem0).getLast? = some e ∧
      (extents cons cons.length 0 rem0).dropLast.sum ≤ extent ∧
      e = extent - (extents cons cons.length 0 rem0).dropLast.sum ∧
      distribute_no_wrap cons cons.length 0 rem0 := by
  obtain ⟨hsum, hnw⟩ := extents_sum_of_nonlast cons cons.length 0 rem0 (by simp) (by omega)
    hlast hw
  have hne : extents cons cons.length 0 rem0 ≠ [] := by
    cases cons with
    | nil => simp at hlast
    | cons c rest => simp [extents]
  obtain ⟨e, he2⟩ : ∃ e, (extents cons cons.length 0 rem0).getLast? = some e := by
    rw [List.getLast?_eq_getLast _ hne]
    exact ⟨_, rfl⟩
  have hs := sum_eq_dropLast_add_last _ e he2
  refine ⟨e, he2, by omega, by omega, hnw⟩

/-! ## The output of `tui_render` along the changed cells -/

theorem grid_map_index (width : Nat) :
    ∀ height : Nat, (grid height width).map (fun p => p.1 * width + p.2)
      = List.range (width * height) := by
  intro height
  induction height with
  | zero => simp [grid]
  | succ h ih =>
    have hg : grid (h + 1) width = grid h width ++ (List.range width).map (fun x => (h, x)) := by
      unfold grid
      rw [List.range_succ, List.flatMap_append]
      simp
    rw [hg, List.map_append, ih, Nat.mul_succ, List.range_add, List.map_map]
    congr 1
    apply List.map_congr_left
    intro x _
    simp only [Function.comp]
    rw [Nat.mul_comm]

theorem to_int_inj (a b : Nat) (ha : a < U32) (hb : b < U32) :
    to_int a = to_int b ↔ a = b := by
  unfold to_int U32 at *
  constructor
  · intro h
    split at h <;> split at h <;> omega
  · intro h
    rw [h]

theorem cell_changed_iff (back front : List Cell) (i : Nat) :
    cell_changed back front i = true ↔ ¬ synced_at back front i := by
  unfold cell_changed synced_at
  rw [decide_eq_true_iff]
  constructor
  · rintro (h | h) ⟨h1, h2⟩
    · exact h h1
    · exact h h2
  · intro h
    by_contra hc
    simp only [not_or, not_not] at hc
    exact h hc

theorem cell_changed_set_ne (back front : List Cell) (i j : Nat) (c : Cell) (h : j ≠ i) :
    cell_changed back (front.set i c) j = cell_changed back front j := by
  unfold cell_changed
  rw [getD_set, if_neg (fun hh => h hh.1.symm)]

theorem cursor_test_iff (width height : Nat) (hsz : width * height < U32)
    (st : RenderState) (prev : Option Nat) (y x : Nat) (hy : y < height) (hx : x < width)
    (htr : cursor_tracks width height st prev) :
    (st.cursor_y ≠ to_int y ∨ st.cursor_x ≠ to_int x) ↔
      follows_prev width prev (y * width + x) = false := by
  have hw : 0 < width := by omega
  have hh : 0 < height := by omega
  have hwle : width ≤ width * height := Nat.le_mul_of_pos_right _ hh
  have hhle : height ≤ width * height := Nat.le_mul_of_pos_left _ hw
  have hdiv : (y * width + x) / width = y := by
    rw [Nat.add_comm, Nat.add_mul_div_right _ _ hw, Nat.div_eq_of_lt hx, Nat.zero_add]
  have hmod : (y * width + x) % width = x := by
    rw [Nat.add_comm, Nat.add_mul_mod_self_right, Nat.mod_eq_of_lt hx]
  cases prev with
  | none =>
    obtain ⟨h1, h2⟩ := htr
    simp only [follows_prev, iff_true]
    left
    rw [h1]
    exact to_int_ne_neg_one y (by omega)
  | some j =>
    obtain ⟨hj, h1, h2⟩ := htr
    have hjd : j / width < U32 := Nat.lt_of_le_of_lt (Nat.div_le_self _ _) (by omega)
    have hjm : j % width + 1 < U32 := by
      have := Nat.mod_lt j hw
      omega
    simp only [follows_prev, hdiv, hmod, decide_eq_false_iff_not, not_and_or]
    rw [h1, h2, Ne, Ne, to_int_inj _ _ hjd (by omega), to_int_inj _ _ hjm (by omega)]

theorem render_fold_out (width height : Nat) (back : List Cell)
    (hsz : width * height < U32) (ps : List (Nat × Nat)) :
    ∀ (st : RenderState) (prev : Option Nat),
      (∀ p ∈ ps, p ∈ grid height width) →
      (ps.map (fun p => p.1 * width + p.2)).Nodup →
      cursor_tracks width height st prev →
      (ps.foldl (fun s p => render_step width back s p.1 p.2) st).out =
        st.out ++ diff_writes width back prev st.current_style
          ((ps.map (fun p => p.1 * width + p.2)).filter (cell_changed back st.front)) := by
  induction ps with
  | nil => intro st prev _ _ _; simp [diff_writes]
  | cons p rest ih =>
    intro st prev hmem hnd htr
    have hp := hmem p (List.mem_cons_self _ _)
    obtain ⟨hy, hx⟩ := (mem_grid _ _ _).mp hp
    obtain ⟨hidx, hlt⟩ := grid_index_exact height width hsz p hp
    have hmem' : ∀ q ∈ rest, q ∈ grid height width :=
      fun q hq => hmem q (List.mem_cons_of_mem _ hq)
    rw [List.map_cons, List.nodup_cons] at hnd
    rw [List.foldl_cons, List.map_cons, List.filter_cons]
    by_cases hch : cell_changed back st.front (p.1 * width + p.2) = true
    · rw [if_pos hch]
      have hns := (cell_changed_iff _ _ _).mp hch
      have hcond : (back.getD (p.1 * width + p.2) blank_cell).symbol ≠
            (st.front.getD (p.1 * width + p.2) blank_cell).symbol ∨
          (back.getD (p.1 * width + p.2) blank_cell).style ≠
            (st.front.getD (p.1 * width + p.2) blank_cell).style := by
        unfold cell_changed at hch
        exact of_decide_eq_true hch
      have hw : 0 < width := by omega
      have hh : 0 < height := by omega
      have hwle : width ≤ width * height := Nat.le_mul_of_pos_right _ hh
      have hdiv : (p.1 * width + p.2) / width = p.1 := by
        rw [Nat.add_comm, Nat.add_mul_div_right _ _ hw, Nat.div_eq_of_lt hx, Nat.zero_add]
      have hmod : (p.1 * width + p.2) % width = p.2 := by
        rw [Nat.add_comm, Nat.add_mul_mod_self_right, Nat.mod_eq_of_lt hx]
      have ha1 : add32 p.1 1 = p.1 + 1 := Nat.mod_eq_of_lt (by
        have : height ≤ width * height := Nat.le_mul_of_pos_left _ hw
        omega)
      have ha2 : add32 p.2 1 = p.2 + 1 := Nat.mod_eq_of_lt (by omega)
      have hstep : render_step width back st p.1 p.2 =
          { front := st.front.set (p.1 * width + p.2) (back.getD (p.1 * width + p.2) blank_cell)
            current_style := (back.getD (p.1 * width + p.2) blank_cell).style
            cursor_y := to_int p.1
            cursor_x := to_int (p.2 + 1)
            out := st.out ++
              ((if follows_prev width prev (p.1 * width + p.2) then []
                else [Write.cursor ((p.1 * width + p.2) / width + 1)
                  ((p.1 * width + p.2) % width + 1)]) ++
              (if (back.getD (p.1 * width + p.2) blank_cell).style ≠ st.current_style then
                [Write.sgr (style_code (back.getD (p.1 * width + p.2) blank_cell).style)]
                else []) ++
              [Write.glyph (back.getD (p.1 * width + p.2) blank_cell).symbol]) } := by
        unfold render_step
        simp only [hidx]
        rw [if_pos hcond, ha1, ha2, hdiv, hmod]
        have hct := cursor_test_iff width height hsz st prev p.1 p.2 hy hx htr
        by_cases hf : follows_prev width prev (p.1 * width + p.2) = true
        · have hneg : ¬ (st.cursor_y ≠ to_int p.1 ∨ st.cursor_x ≠ to_int p.2) := by
            rw [hct, hf]; exact Bool.noConfusion
          rw [if_neg hneg, if_pos hf]
          by_cases hs : (back.getD (p.1 * width + p.2) blank_cell).style ≠ st.current_style
          · rw [if_pos hs, if_pos hs]; simp
          · rw [if_neg hs, if_neg hs]; simp
        · have hpos : st.cursor_y ≠ to_int p.1 ∨ st.cursor_x ≠ to_int p.2 := by
            rw [hct]; exact Bool.eq_false_iff.mpr hf
          rw [if_pos hpos, if_neg hf]
          by_cases hs : (back.getD (p.1 * width + p.2) blank_cell).style ≠ st.current_style
          · rw [if_pos hs, if_pos hs]; simp
          · rw [if_neg hs, if_neg hs]; simp
      rw [hstep]
      have htr' : cursor_tracks width height
          { front := st.front.set (p.1 * width + p.2) (back.getD (p.1 * width + p.2) blank_cell)
            current_style := (back.getD (p.1 * width + p.2) blank_cell).style
            cursor_y := to_int p.1
            cursor_x := to_int (p.2 + 1)
            out := st.out ++
              ((if follows_prev width prev (p.1 * width + p.2) then []
                else [Write.cursor ((p.1 * width + p.2) / width + 1)
                  ((p.1 * width + p.2) % width + 1)]) ++
              (if (back.getD (p.1 * width + p.2) blank_cell).style ≠ st.current_style then
                [Write.sgr (style_code (back.getD (p.1 * width + p.2) blank_cell).style)]
                else []) ++
              [Write.glyph (back.getD (p.1 * width + p.2) blank_cell).symbol]) }
          (some (p.1 * width + p.2)) := by
        simp only [cursor_tracks, hdiv, hmod]
        exact ⟨hlt, trivial, trivial⟩
      rw [ih _ (some (p.1 * width + p.2)) hmem' hnd.2 htr']
      simp only []
      have hfilt : (rest.map (fun p => p.1 * width + p.2)).filter
            (cell_changed back (st.front.set (p.1 * width + p.2)
              (back.getD (p.1 * width + p.2) blank_cell))) =
          (rest.map (fun p => p.1 * width + p.2)).filter (cell_changed back st.front) := by
        apply List.filter_congr
        intro j hj
        exact cell_changed_set_ne back st.front _ j _ (fun h => hnd.1 (h ▸ hj))
      rw [hfilt, diff_writes]
      simp only [List.append_assoc]
    · rw [if_neg hch]
      have hs : synced_at back st.front (add32 (mul32 p.1 width) p.2) := by
        rw [hidx]
        by_contra hns
        exact hch ((cell_changed_iff _ _ _).mpr hns)
      rw [render_step_noop width back st p.1 p.2 hs]
      exact ih st prev hmem' hnd.2 htr

theorem tui_render_out (tui : Tui) (hsz : tui.width * tui.height < U32) :
    (tui_render tui).2 =
      diff_writes tui.width tui.terminal none Style.REGULAR (changed_cells tui) := by
  unfold tui_render
  simp only []
  rw [render_loop_eq_grid,
    render_fold_out tui.width tui.height tui.terminal hsz (grid tui.height tui.width)
      (render_init tui.front_buffer) none (fun _ h => h)
      (by rw [grid_map_index]; exact List.nodup_range _) ⟨rfl, rfl⟩,
    grid_map_index]
  rfl

/-! ## Reading glyphs, cursor moves and style codes off an output -/

theorem glyphs_append {σ : Type} (a b : List (Write σ)) :
    glyphs (a ++ b) = glyphs a ++ glyphs b := by
  induction a with
  | nil => rfl
  | cons w rest ih => cases w <;> simp [glyphs, ih]

theorem cursor_moves_append {σ : Type} (a b : List (Write σ)) :
    cursor_moves (a ++ b) = cursor_moves a ++ cursor_moves b := by
  induction a with
  | nil => rfl
  | cons w rest ih => cases w <;> simp [cursor_moves, ih]

theorem count_glyph_eq {σ : Type} (a : List (Write σ)) : count_glyph a = (glyphs a).length := by
  induction a with
  | nil => rfl
  | cons w rest ih => cases w <;> simp [count_glyph, glyphs, ih]

theorem count_cursor_eq {σ : Type} (a : List (Write σ)) :
    count_cursor a = (cursor_moves a).length := by
  induction a with
  | nil => rfl
  | cons w rest ih => cases w <;> simp [count_cursor, cursor_moves, ih]

theorem glyphs_diff_writes (width : Nat) (back : List Cell) (l : List Nat) :
    ∀ (prev : Option Nat) (last : Style),
      glyphs (diff_writes width back prev last l) =
        l.map (fun i => (back.getD i blank_cell).symbol) := by
  induction l with
  | nil => intro _ _; rfl
  | cons i rest ih =>
    intro prev last
    rw [diff_writes, glyphs_append, glyphs_append, glyphs_append, ih]
    split <;> split <;> simp [glyphs]

theorem cursor_moves_diff_writes (width : Nat) (back : List Cell) (l : List Nat) :
    ∀ (prev : Option Nat) (last : Style),
      cursor_moves (diff_writes width back prev last l) = cursor_rule width prev l := by
  induction l with
  | nil => intro _ _; rfl
  | cons i rest ih =>
    intro prev last
    rw [diff_writes, cursor_moves_append, cursor_moves_append, cursor_moves_append, ih,
      cursor_rule]
    split <;> split <;> simp [cursor_moves]

theorem cursor_rule_sublist (width : Nat) (l : List Nat) :
    ∀ prev : Option Nat, ∃ sub : List Nat, sub.Sublist l ∧
      cursor_rule width prev l = sub.map (fun i => (i / width + 1, i % width + 1)) := by
  induction l with
  | nil => intro _; exact ⟨[], List.Sublist.slnil, rfl⟩
  | cons i rest ih =>
    intro prev
    obtain ⟨sub, hsub, heq⟩ := ih (some i)
    rw [cursor_rule, heq]
    split
    · exact ⟨sub, List.Sublist.cons _ hsub, rfl⟩
    · exact ⟨i :: sub, List.Sublist.cons₂ _ hsub, rfl⟩

theorem follows_prev_iff (width : Nat) (hw : 0 < width) (j i : Nat) :
    follows_prev width (some j) i = true ↔ j + 1 = i ∧ i % width ≠ 0 := by
  simp only [follows_prev, decide_eq_true_iff]
  constructor
  · rintro ⟨h1, h2⟩
    have hj := Nat.div_add_mod j width
    have hi := Nat.div_add_mod i width
    rw [h1] at hj
    constructor <;> omega
  · rintro ⟨h1, h2⟩
    subst h1
    have hpos : 0 < (j + 1) % width := Nat.pos_of_ne_zero h2
    have hlt : (j + 1) % width < width := Nat.mod_lt _ hw
    have hi := Nat.div_add_mod (j + 1) width
    have hu := (Nat.div_mod_unique (a := j) (c := (j + 1) % width - 1)
      (d := (j + 1) / width) hw).mpr ⟨by omega, by omega⟩
    rw [hu.1, hu.2]
    exact ⟨rfl, by omega⟩

/-- Along the indices `a, a + 1, ...` filtered by `p`, the cursor rule keeps
exactly the run starts, provided `prev` is the last index below `a` satisfying
`p`, if any. -/
theorem cursor_rule_run_starts (width : Nat) (hw : 0 < width) (p : Nat → Bool) (n : Nat) :
    ∀ (a : Nat) (prev : Option Nat),
      (∀ j, prev = some j → j + 1 ≤ a ∧ p j = true) →
      (0 < a → p (a - 1) = true → prev = some (a - 1)) →
      cursor_rule width prev ((List.range' a n).filter p) =
        (((List.range' a n).filter p).filter
          (fun i => decide (i % width = 0) || !p (i - 1))).map
          (fun i => (i / width + 1, i % width + 1)) := by
  induction n with
  | zero => intro _ _ _ _; rfl
  | succ n ih =>
    intro a prev h1 h2
    rw [List.range'_succ, List.filter_cons]
    by_cases hpa : p a = true
    · rw [if_pos hpa, cursor_rule, List.filter_cons]
      have hih := ih (a + 1) (some a)
        (fun j hj => by
          have : j = a := (Option.some.inj hj).symm
          subst this
          exact ⟨Nat.le_refl _, hpa⟩)
        (fun _ _ => rfl)
      rw [hih]
      have hkey : follows_prev width prev a = !(decide (a % width = 0) || !p (a - 1)) := by
        cases hprev : prev with
        | none =>
          simp only [follows_prev]
          by_cases ha0 : a % width = 0
          · simp [ha0]
          · have hapos : 0 < a := by
              rcases Nat.eq_zero_or_pos a with h | h
              · rw [h] at ha0; simp at ha0
              · exact h
            by_cases hpm : p (a - 1) = true
            · have := h2 hapos hpm
              rw [hprev] at this
              exact Option.noConfusion this
            · simp [ha0, hpm]
        | some j =>
          obtain ⟨hj1, hj2⟩ := h1 j hprev
          by_cases hf : follows_prev width (some j) a = true
          · obtain ⟨hja, ham⟩ := (follows_prev_iff width hw j a).mp hf
            have : a - 1 = j := by omega
            rw [hf, this, hj2]
            simp [ham]
          · have hf' : follows_prev width (some j) a = false := Bool.eq_false_iff.mpr hf
            rw [hf']
            by_cases ha0 : a % width = 0
            · simp [ha0]
            · by_cases hpm : p (a - 1) = true
              · exfalso
                have hapos : 0 < a := by
                  rcases Nat.eq_zero_or_pos a with h | h
                  · rw [h] at ha0; simp at ha0
                  · exact h
                have := h2 hapos hpm
                rw [hprev] at this
                have hja : j = a - 1 := Option.some.inj this
                exact hf ((follows_prev_iff width hw j a).mpr ⟨by omega, ha0⟩)
              · simp [ha0, hpm]
      rw [hkey]
      by_cases hrs : (decide (a % width = 0) || !p (a - 1)) = true
      · rw [hrs]; simp
      · have hrs' : (decide (a % width = 0) || !p (a - 1)) = false := Bool.eq_false_iff.mpr hrs
        rw [hrs']; simp
    · rw [if_neg hpa]
      apply ih (a + 1) prev
      · intro j hj
        obtain ⟨hj1, hj2⟩ := h1 j hj
        exact ⟨by omega, hj2⟩
      · intro _ hpm
        simp only [Nat.add_sub_cancel] at hpm
        exact absurd hpm hpa

/-! ## The output of the diff loop of `tui.cpp` along the changed cells -/

namespace Cxx

theorem cell_ne_iff (app : App) (i : Nat) :
    app.term.getD i blank_cell ≠ app.prev_term.getD i blank_cell ↔
      cell_changed app i = true := by
  unfold cell_changed
  rw [decide_eq_true_iff]
  rcases app.term.getD i blank_cell with ⟨s1, f1, g1, t1⟩
  rcases app.prev_term.getD i blank_cell with ⟨s2, f2, g2, t2⟩
  constructor
  · intro h
    by_contra hc
    simp only [not_or, not_not] at hc
    apply h
    rw [hc.1, hc.2, color_eq f1 f2, color_eq g1 g2]
  · rintro (h | h) heq
    · exact h (congrArg Cell.symbol heq)
    · exact h (congrArg Cell.style heq)

theorem draw_fold_out (app : App) (l : List Nat) :
    ∀ st : List (Write (List Nat)) × Bool,
      (l.foldl (draw_step app) st).1 =
        st.1 ++ (l.filter (cell_changed app)).flatMap
          (fun i => render_cell app (i % app.cols % U32) (i / app.cols % U32)) := by
  induction l with
  | nil => intro st; simp
  | cons i rest ih =>
    intro st
    rw [List.foldl_cons, ih, List.filter_cons]
    by_cases hch : cell_changed app i = true
    · rw [if_pos hch, List.flatMap_cons]
      unfold draw_step
      rw [if_pos ((cell_ne_iff app i).mpr hch)]
      simp only [List.append_assoc]
    · rw [if_neg hch]
      unfold draw_step
      rw [if_neg (fun h => hch ((cell_ne_iff app i).mp h))]

/-- The writes of `App::render_cell` for the cell at index `i`. -/
theorem render_cell_at_index (app : App) (i : Nat) (hsz : app.cols * app.lines < U32)
    (hi : i < app.cols * app.lines) :
    render_cell app (i % app.cols % U32) (i / app.cols % U32) =
      [Write.cursor (i / app.cols + 1) (i % app.cols + 1)] ++
        (if (app.term.getD i blank_cell).style = Style.BOLD then [Write.sgr 1] else []) ++
        (if (app.term.getD i blank_cell).style = Style.UNDERLINE then [Write.sgr 4]
          else []) ++
        [Write.glyph (app.term.getD i blank_cell).symbol] ++ [Write.sgr 0] := by
  have hw : 0 < app.cols :=
    Nat.pos_of_ne_zero (fun h => by rw [h, Nat.zero_mul] at hi; exact Nat.not_lt_zero _ hi)
  have hx0 : i % app.cols < app.cols := Nat.mod_lt _ hw
  have hy0 : i / app.cols < app.lines := Nat.div_lt_of_lt_mul hi
  have hi32 : i < U32 := Nat.lt_trans hi hsz
  have hl : 0 < app.lines := Nat.lt_of_le_of_lt (Nat.zero_le _) hy0
  have hcle : app.cols ≤ app.cols * app.lines := Nat.le_mul_of_pos_right _ hl
  have hlle : app.lines ≤ app.cols * app.lines := Nat.le_mul_of_pos_left _ hw
  have hxm : i % app.cols % U32 = i % app.cols := Nat.mod_eq_of_lt (by omega)
  have hym : i / app.cols % U32 = i / app.cols := Nat.mod_eq_of_lt (by omega)
  have hsum : i / app.cols * app.cols + i % app.cols = i := Nat.div_add_mod' i app.cols
  have hmul : mul32 (i / app.cols) app.cols = i / app.cols * app.cols :=
    Nat.mod_eq_of_lt (by omega)
  have hidx : add32 (mul32 (i / app.cols) app.cols) (i % app.cols) = i := by
    rw [add32, hmul, hsum]
    exact Nat.mod_eq_of_lt hi32
  have ha1 : add32 (i / app.cols) 1 = i / app.cols + 1 := Nat.mod_eq_of_lt (by omega)
  have ha2 : add32 (i % app.cols) 1 = i % app.cols + 1 := Nat.mod_eq_of_lt (by omega)
  unfold render_cell
  simp only [hxm, hym, hidx, ha1, ha2]

theorem draw_diff_out (app : App) (hlen : app.term.length = app.cols * app.lines)
    (hsz : app.cols * app.lines < U32) :
    (draw_diff app).2 = (changed_cells app).flatMap (fun i =>
      [Write.cursor (i / app.cols + 1) (i % app.cols + 1)] ++
        (if (app.term.getD i blank_cell).style = Style.BOLD then [Write.sgr 1] else []) ++
        (if (app.term.getD i blank_cell).style = Style.UNDERLINE then [Write.sgr 4]
          else []) ++
        [Write.glyph (app.term.getD i blank_cell).symbol] ++ [Write.sgr 0]) := by
  unfold draw_diff draw_loop
  simp only []
  rw [draw_fold_out, List.nil_append]
  unfold changed_cells
  apply List.flatMap_congr
  intro i hi
  have hi2 := List.mem_range.mp (List.mem_filter.mp hi).1
  exact render_cell_at_index app i hsz (by omega)

theorem glyphs_flatMap_cells (app : App) (l : List Nat) :
    glyphs (l.flatMap (fun i =>
      [Write.cursor (i / app.cols + 1) (i % app.cols + 1)] ++
        (if (app.term.getD i blank_cell).style = Style.BOLD then [Write.sgr 1] else []) ++
        (if (app.term.getD i blank_cell).style = Style.UNDERLINE then [Write.sgr 4]
          else []) ++
        [Write.glyph (app.term.getD i blank_cell).symbol] ++ [Write.sgr 0])) =
      l.map (fun i => (app.term.getD i blank_cell).symbol) := by
  induction l with
  | nil => rfl
  | cons i rest ih =>
    rw [List.flatMap_cons, glyphs_append, ih, List.map_cons]
    rcases (app.term.getD i blank_cell).style <;> simp [glyphs]

theorem cursor_moves_flatMap_cells (app : App) (l : List Nat) :
    cursor_moves (l.flatMap (fun i =>
      [Write.cursor (i / app.cols + 1) (i % app.cols + 1)] ++
        (if (app.term.getD i blank_cell).style = Style.BOLD then [Write.sgr 1] else []) ++
        (if (app.term.getD i blank_cell).style = Style.UNDERLINE then [Write.sgr 4]
          else []) ++
        [Write.glyph (app.term.getD i blank_cell).symbol] ++ [Write.sgr 0])) =
      l.map (fun i => (i / app.cols + 1, i % app.cols + 1)) := by
  induction l with
  | nil => rfl
  | cons i rest ih =>
    rw [List.flatMap_cons, cursor_moves_append, ih, List.map_cons]
    rcases (app.term.getD i blank_cell).style <;> simp [cursor_moves]

end Cxx

/-! ## Painting as a sequence of cell writes -/

theorem apply_writes_append (tui : Tui) (a b : List CellWrite) :
    apply_writes tui (a ++ b) = apply_writes (apply_writes tui a) b := by
  unfold apply_writes
  rw [List.foldl_append]

theorem foldl_apply_writes {α : Type} (f : α → List CellWrite) (l : List α) :
    ∀ tui : Tui, l.foldl (fun t a => apply_writes t (f a)) tui =
      apply_writes tui (l.flatMap f) := by
  induction l with
  | nil => intro tui; rfl
  | cons a rest ih =>
    intro tui
    rw [List.foldl_cons, ih, List.flatMap_cons, apply_writes_append]

theorem draw_widget_border_eq (tui : Tui) (widget : Widget) :
    draw_widget_border tui widget = apply_writes tui (border_writes widget) := by
  unfold draw_widget_border border_writes
  split
  · rfl
  · simp only []
    rw [apply_writes_append, apply_writes_append, ← foldl_apply_writes, ← foldl_apply_writes]
    rfl

theorem blank_fill_eq (tui : Tui) (widget : Widget) :
    blank_fill tui widget = apply_writes tui (fill_writes widget) := by
  unfold blank_fill fill_writes
  rw [← foldl_apply_writes]
  congr 1
  funext t y
  unfold apply_writes
  rw [List.foldl_map]

mutual

theorem widget_render_eq : ∀ (wd : Widget) (tui : Tui),
    widget_render_to_buffer wd tui = apply_writes tui (widget_writes wd)
  | Widget.mk type wc hc b x y w h children, tui => by
    unfold widget_render_to_buffer widget_writes
    rw [render_children_eq children, apply_writes_append, apply_writes_append]
    congr 1
    by_cases ht : type = WidgetType.WIDGET_BOX
    · rw [if_pos ht, if_pos ht, draw_widget_border_eq]
      by_cases ha : wc.type = SizeType.SIZE_ABSOLUTE
      · rw [if_pos ha, if_pos ha, blank_fill_eq]
      · rw [if_neg ha, if_neg ha]; rfl
    · rw [if_neg ht, if_neg ht]
      by_cases ha : wc.type = SizeType.SIZE_ABSOLUTE
      · rw [if_pos ha, if_pos ha, blank_fill_eq]; rfl
      · rw [if_neg ha, if_neg ha]; rfl

theorem render_children_eq : ∀ (cs : List Widget) (tui : Tui),
    render_children cs tui = apply_writes tui (children_writes cs)
  | [], tui => rfl
  | child :: rest, tui => by
    unfold render_children children_writes
    rw [render_children_eq rest, widget_render_eq child, apply_writes_append]

end

theorem map_cell_at_frame (tui : Tui) (cell : Cell) (x y : Nat) :
    (map_cell_at tui cell x y).width = tui.width ∧
      (map_cell_at tui cell x y).height = tui.height ∧
      (map_cell_at tui cell x y).front_buffer = tui.front_buffer ∧
      (map_cell_at tui cell x y).terminal.length = tui.terminal.length ∧
      (map_cell_at tui cell x y).root = tui.root ∧
      (map_cell_at tui cell x y).terminal_len = tui.terminal_len := by
  unfold map_cell_at
  split
  · exact ⟨rfl, rfl, rfl, rfl, rfl, rfl⟩
  · exact ⟨rfl, rfl, rfl, List.length_set _ _ _, rfl, rfl⟩

theorem apply_writes_frame (ws : List CellWrite) :
    ∀ tui : Tui, (apply_writes tui ws).width = tui.width ∧
      (apply_writes tui ws).height = tui.height ∧
      (apply_writes tui ws).front_buffer = tui.front_buffer ∧
      (apply_writes tui ws).terminal.length = tui.terminal.length ∧
      (apply_writes tui ws).root = tui.root ∧
      (apply_writes tui ws).terminal_len = tui.terminal_len := by
  induction ws with
  | nil => intro tui; exact ⟨rfl, rfl, rfl, rfl, rfl, rfl⟩
  | cons w rest ih =>
    intro tui
    obtain ⟨h1, h2, h3, h4, h5, h6⟩ := ih (map_cell_at tui w.cell w.x w.y)
    obtain ⟨g1, g2, g3, g4, g5, g6⟩ := map_cell_at_frame tui w.cell w.x w.y
    unfold apply_writes at h1 h2 h3 h4 h5 h6 ⊢
    rw [List.foldl_cons]
    exact ⟨h1.trans g1, h2.trans g2, h3.trans g3, h4.trans g4, h5.trans g5, h6.trans g6⟩

theorem map_cell_at_getElem? (tui : Tui) (cell : Cell) (wx wy x y : Nat)
    (hlen : tui.terminal.length = tui.width * tui.height)
    (hsz : tui.width * tui.height < U32) (hx : x < tui.width) (hy : y < tui.height) :
    (map_cell_at tui cell wx wy).terminal[y * tui.width + x]? =
      if wx = x ∧ wy = y then some cell else tui.terminal[y * tui.width + x]? := by
  have hp : (y, x) ∈ grid tui.height tui.width := (mem_grid _ _ _).mpr ⟨hy, hx⟩
  have hlt := (grid_index_exact tui.height tui.width hsz (y, x) hp).2
  simp only at hlt
  by_cases hout : wx ≥ tui.width ∨ wy ≥ tui.height
  · rw [map_cell_at_outside tui cell wx wy hout, if_neg]
    rintro ⟨h1, h2⟩
    omega
  · have hwx : wx < tui.width := by omega
    have hwy : wy < tui.height := by omega
    obtain ⟨heq, hlt2, _⟩ := map_cell_at_inside tui cell wx wy hlen hsz hwx hwy
    rw [heq, List.getElem?_set]
    by_cases hsame : wx = x ∧ wy = y
    · rw [if_pos hsame, hsame.1, hsame.2, if_pos rfl, if_pos (by omega)]
    · rw [if_neg hsame, if_neg]
      intro hidx
      apply hsame
      have := grid_index_inj tui.width wy wx y x hwx hx hidx
      exact ⟨(Prod.mk.inj this).2, (Prod.mk.inj this).1⟩

theorem last_write_concat (ws : List CellWrite) (w : CellWrite) (x y : Nat) :
    last_write (ws ++ [w]) x y =
      if w.x = x ∧ w.y = y then some w.cell else last_write ws x y := by
  unfold last_write
  rw [List.filter_append]
  by_cases h : w.x = x ∧ w.y = y
  · rw [if_pos h]
    simp [List.filter_cons, h]
  · rw [if_neg h]
    simp [List.filter_cons, h]

/-- The last write wins: after a sequence of cell writes, a cell inside the
buffer holds the cell of the last write at its coordinates, or what it held
before if there is none. -/
theorem last_write_wins (tui : Tui) (x y : Nat)
    (hlen : tui.terminal.length = tui.width * tui.height)
    (hsz : tui.width * tui.height < U32) (hx : x < tui.width) (hy : y < tui.height)
    (ws : List CellWrite) :
    (apply_writes tui ws).terminal[y * tui.width + x]? =
      match last_write ws x y with
      | some c => some c
      | none => tui.terminal[y * tui.width + x]? := by
  induction ws using List.reverseRecOn with
  | nil => rfl
  | append_singleton ws w ih =>
    obtain ⟨f1, f2, _, f4, _, _⟩ := apply_writes_frame ws tui
    have hstep := map_cell_at_getElem? (apply_writes tui ws) w.cell w.x w.y x y
      (by rw [f4, f1, f2]; exact hlen) (by rw [f1, f2]; exact hsz)
      (by rw [f1]; exact hx) (by rw [f2]; exact hy)
    rw [f1] at hstep
    rw [apply_writes_append, last_write_concat]
    show (map_cell_at (apply_writes tui ws) w.cell w.x w.y).terminal[y * tui.width + x]? = _
    rw [hstep]
    by_cases h : w.x = x ∧ w.y = y
    · rw [if_pos h, if_pos h]
    · rw [if_neg h, if_neg h, ih]

theorem last_write_append (a b : List CellWrite) (x y : Nat) :
    last_write (a ++ b) x y =
      match last_write b x y with
      | some c => some c
      | none => last_write a x y := by
  induction b using List.reverseRecOn with
  | nil => simp [last_write]
  | append_singleton b w ih =>
    rw [← List.append_assoc, last_write_concat, last_write_concat]
    by_cases h : w.x = x ∧ w.y = y
    · rw [if_pos h, if_pos h]
    · rw [if_neg h, if_neg h, ih]

theorem last_write_eq_none (ws : List CellWrite) (x y : Nat) :
    last_write ws x y = none ↔ paints ws x y = false := by
  unfold last_write paints
  rw [Option.map_eq_none', List.getLast?_eq_none_iff, List.filter_eq_nil_iff]
  simp only [List.any_eq_false]

theorem paints_children_false (cs : List Widget) (x y : Nat)
    (h : ∀ c ∈ cs, paints (widget_writes c) x y = false) :
    paints (children_writes cs) x y = false := by
  induction cs with
  | nil => rfl
  | cons c rest ih =>
    have h1 := h c (List.mem_cons_self _ _)
    have h2 := ih (fun d hd => h d (List.mem_cons_of_mem _ hd))
    unfold children_writes
    unfold paints at h1 h2 ⊢
    rw [List.any_append, h1, h2]
    rfl

theorem children_writes_append (a b : List Widget) :
    children_writes (a ++ b) = children_writes a ++ children_writes b := by
  induction a with
  | nil => simp [children_writes]
  | cons c rest ih => simp [children_writes, ih]

/-- The widget's own writes followed by those of its children. -/
theorem widget_writes_children (wd : Widget) :
    ∃ own : List CellWrite, widget_writes wd = own ++ children_writes wd.children := by
  cases wd with
  | mk type wc hc b x y w h children =>
    unfold widget_writes
    exact ⟨_, rfl⟩

theorem later_child_wins (tui : Tui) (wd : Widget) (pre post : List Widget) (later : Widget)
    (x y : Nat) (hlen : tui.terminal.length = tui.width * tui.height)
    (hsz : tui.width * tui.height < U32) (hx : x < tui.width) (hy : y < tui.height)
    (hcs : wd.children = pre ++ later :: post)
    (hlater : paints (widget_writes later) x y = true)
    (hpost : ∀ c ∈ post, paints (widget_writes c) x y = false) :
    (widget_render_to_buffer wd tui).terminal[y * tui.width + x]? =
        last_write (widget_writes later) x y ∧
      last_write (widget_writes later) x y ≠ none := by
  have hne : last_write (widget_writes later) x y ≠ none := by
    intro h
    rw [(last_write_eq_none _ _ _).mp h] at hlater
    exact Bool.noConfusion hlater
  refine ⟨?_, hne⟩
  obtain ⟨own, hown⟩ := widget_writes_children wd
  have hpn : last_write (children_writes post) x y = none :=
    (last_write_eq_none _ _ _).mpr (paints_children_false post x y hpost)
  rw [widget_render_eq, last_write_wins tui x y hlen hsz hx hy, hown, hcs,
    children_writes_append, children_writes, last_write_append, last_write_append,
    last_write_append, hpn]
  simp only []
  rcases hl : last_write (widget_writes later) x y with _ | c
  · exact absurd hl hne
  · rfl

/-! ## The tick of `run` and `App::draw` -/

theorem foldl_set_length {α : Type} (a : α) (is : List Nat) :
    ∀ l : List α, (is.foldl (fun l i => l.set i a) l).length = l.length := by
  induction is with
  | nil => intro l; rfl
  | cons i rest ih => intro l; rw [List.foldl_cons, ih, List.length_set]

theorem paint_frame_frame (tui : Tui) :
    (paint_frame tui).width = tui.width ∧ (paint_frame tui).height = tui.height ∧
      (paint_frame tui).front_buffer = tui.front_buffer ∧
      (paint_frame tui).terminal.length = tui.terminal.length := by
  have hc : (clear_frame tui).width = tui.width ∧ (clear_frame tui).height = tui.height ∧
      (clear_frame tui).front_buffer = tui.front_buffer ∧
      (clear_frame tui).terminal.length = tui.terminal.length :=
    ⟨rfl, rfl, rfl, foldl_set_length _ _ _⟩
  unfold paint_frame
  split
  · exact hc
  · rw [widget_render_eq]
    obtain ⟨f1, f2, f3, f4, _, _⟩ := apply_writes_frame
      (widget_writes (widget_compute_layout _ 0 0 (clear_frame tui).width
        (clear_frame tui).height))
      { clear_frame tui with
        root := some (widget_compute_layout _ 0 0 (clear_frame tui).width
          (clear_frame tui).height) }
    exact ⟨f1.trans hc.1, f2.trans hc.2.1, f3.trans hc.2.2.1, f4.trans hc.2.2.2⟩

theorem tick_syncs (tui : Tui)
    (hlenT : tui.terminal.length = tui.width * tui.height)
    (hlenF : tui.front_buffer.length = tui.width * tui.height)
    (hsz : tui.width * tui.height < U32) (hd : (paint_frame tui).is_dirty ≠ 0) :
    (tick tui).1.front_buffer = (tick tui).1.terminal ∧
      (tick tui).1.terminal = (paint_frame tui).terminal := by
  obtain ⟨f1, f2, f3, f4⟩ := paint_frame_frame tui
  have hc := tui_render_commits (paint_frame tui) (by rw [f4, f1, f2]; exact hlenT)
    (by rw [f3, f1, f2]; exact hlenF) (by rw [f1, f2]; exact hsz)
  unfold tick
  rw [if_pos hd]
  exact ⟨hc, rfl⟩

theorem tick_skips (tui : Tui) (hd : (paint_frame tui).is_dirty = 0) :
    (tick tui).1.front_buffer = tui.front_buffer ∧ (tick tui).2 = [] ∧
      (tick tui).1.terminal = (paint_frame tui).terminal := by
  unfold tick
  rw [if_neg (fun h => h hd)]
  exact ⟨(paint_frame_frame tui).2.2.1, rfl, rfl⟩

namespace Cxx

theorem keeps_frame_refl (a : App) : keeps_frame a a := ⟨rfl, rfl, rfl, rfl⟩

theorem keeps_frame_trans {a b c : App} (h1 : keeps_frame a b) (h2 : keeps_frame b c) :
    keeps_frame a c :=
  ⟨h2.1.trans h1.1, h2.2.1.trans h1.2.1, h2.2.2.1.trans h1.2.2.1, h2.2.2.2.trans h1.2.2.2⟩

theorem keeps_frame_foldl {α : Type} (f : App → α → App)
    (hf : ∀ a x, keeps_frame a (f a x)) (l : List α) :
    ∀ a : App, keeps_frame a (l.foldl f a) := by
  induction l with
  | nil => intro a; exact keeps_frame_refl a
  | cons x rest ih =>
    intro a
    rw [List.foldl_cons]
    exact keeps_frame_trans (hf a x) (ih (f a x))

theorem set_cell_keeps (a : App) (x y : Nat) (symbol : List Nat) (style : Style) :
    keeps_frame a (set_cell a x y symbol style) := by
  unfold set_cell
  split
  · exact keeps_frame_refl a
  · split
    · exact keeps_frame_refl a
    · exact ⟨List.length_set _ _ _, rfl, rfl, rfl⟩

theorem set_clip_keeps (a : App) (r : Rect) : keeps_frame a (set_clip a r) :=
  ⟨rfl, rfl, rfl, rfl⟩

theorem render_text_keeps (a : App) (x y : Nat) (text : String) (style : Style) :
    keeps_frame a (render_text a x y text style) := by
  unfold render_text
  exact keeps_frame_foldl _ (fun b i => set_cell_keeps b _ _ _ _) _ a

theorem render_frame_keeps (a : App) (b : Rect) : keeps_frame a (render_frame a b) := by
  unfold render_frame
  simp only []
  refine keeps_frame_trans ?_ (set_cell_keeps _ _ _ _ _)
  refine keeps_frame_trans ?_ (set_cell_keeps _ _ _ _ _)
  refine keeps_frame_trans ?_ (set_cell_keeps _ _ _ _ _)
  refine keeps_frame_trans ?_ (set_cell_keeps _ _ _ _ _)
  refine keeps_frame_trans ?_ (keeps_frame_foldl _
    (fun c i => keeps_frame_trans (set_cell_keeps c _ _ _ _) (set_cell_keeps _ _ _ _ _)) _ _)
  refine keeps_frame_trans ?_ (keeps_frame_foldl _
    (fun c i => keeps_frame_trans (set_cell_keeps c _ _ _ _) (set_cell_keeps _ _ _ _ _)) _ _)
  exact set_clip_keeps a b

theorem render_keeps (w : Widget) (a : App) : keeps_frame a (w.render a) := by
  cases w with
  | Label b text => exact render_text_keeps a _ _ _ _
  | Box b title =>
    exact keeps_frame_trans (render_frame_keeps a b) (render_text_keeps _ _ _ _ _)
  | LoginWidget b username password typing_password =>
    unfold Widget.render
    simp only []
    exact keeps_frame_trans (keeps_frame_trans (keeps_frame_trans (keeps_frame_trans
      (keeps_frame_trans (keeps_frame_trans (render_frame_keeps a b)
        (render_text_keeps _ _ _ _ _)) (render_text_keeps _ _ _ _ _))
        (render_text_keeps _ _ _ _ _)) (render_text_keeps _ _ _ _ _))
        (render_text_keeps _ _ _ _ _)) (render_text_keeps _ _ _ _ _)

theorem paint_keeps (app : App) (widgets : List Widget) :
    keeps_frame app (paint app widgets) := by
  unfold paint
  refine keeps_frame_trans (b := { app with term := List.replicate app.term.length blank_cell })
    ⟨List.length_replicate _ _, rfl, rfl, rfl⟩ ?_
  exact keeps_frame_foldl _
    (fun a w => keeps_frame_trans (set_clip_keeps a w.bounds) (render_keeps w _)) _ _

theorem draw_syncs (app : App) (widgets : List Widget)
    (hlen : app.prev_term.length = app.term.length) :
    (draw app widgets).1.prev_term = (draw app widgets).1.term ∧
      (draw app widgets).1.term = (paint app widgets).term := by
  obtain ⟨k1, k2, _, _⟩ := paint_keeps app widgets
  have hc := draw_diff_commits (paint app widgets) (by rw [k1, k2]; exact hlen)
  have ht : (draw_diff (paint app widgets)).1.term = (paint app widgets).term := by
    unfold draw_diff
    simp only []
    split <;> rfl
  unfold draw
  exact ⟨by rw [hc, ht], ht⟩

end Cxx

theorem apply_writes_dirty (ws : List CellWrite) :
    ∀ tui : Tui, (apply_writes tui ws).is_dirty =
      if paints_inside tui ws = true then 1 else tui.is_dirty := by
  induction ws with
  | nil => intro tui; rfl
  | cons w rest ih =>
    intro tui
    have hstep : apply_writes tui (w :: rest) =
        apply_writes (map_cell_at tui w.cell w.x w.y) rest := rfl
    have hw : (map_cell_at tui w.cell w.x w.y).width = tui.width :=
      (map_cell_at_frame tui w.cell w.x w.y).1
    have hh : (map_cell_at tui w.cell w.x w.y).height = tui.height :=
      (map_cell_at_frame tui w.cell w.x w.y).2.1
    have hrest : paints_inside (map_cell_at tui w.cell w.x w.y) rest =
        paints_inside tui rest := by
      unfold paints_inside; rw [hw, hh]
    have hcons : paints_inside tui (w :: rest) =
        (decide (w.x < tui.width ∧ w.y < tui.height) || paints_inside tui rest) := by
      unfold paints_inside; rw [List.any_cons]
    rw [hstep, ih, hrest, hcons]
    by_cases hin : w.x < tui.width ∧ w.y < tui.height
    · have hd : (map_cell_at tui w.cell w.x w.y).is_dirty = 1 := by
        unfold map_cell_at
        rw [if_neg (by omega)]
      rw [hd, decide_eq_true hin, Bool.true_or]
      split <;> rfl
    · have hd : (map_cell_at tui w.cell w.x w.y).is_dirty = tui.is_dirty := by
        unfold map_cell_at
        rw [if_pos (by omega)]
      rw [hd, decide_eq_false hin, Bool.false_or]

theorem paint_frame_dirty (tui : Tui) :
    (paint_frame tui).is_dirty =
      if paints_inside tui (frame_writes tui) = true then 1 else tui.is_dirty := by
  unfold paint_frame frame_writes
  have hr : (clear_frame tui).root = tui.root := rfl
  rw [hr]
  cases hroot : tui.root with
  | none => 
    simp only []
    have : paints_inside tui [] = false := rfl
    rw [this]
    rfl
  | some root =>
    simp only []
    rw [widget_render_eq, apply_writes_dirty]
    rfl

/-! ## The `set_cell` calls of the widgets of `tui.hpp` -/

namespace Cxx

theorem apply_calls_append (app : App) (a b : List SetCall) :
    apply_calls app (a ++ b) = apply_calls (apply_calls app a) b := by
  unfold apply_calls
  rw [List.foldl_append]

theorem foldl_apply_calls {α : Type} (f : α → List SetCall) (l : List α) :
    ∀ app : App, l.foldl (fun a i => apply_calls a (f i)) app =
      apply_calls app (l.flatMap f) := by
  induction l with
  | nil => intro app; rfl
  | cons a rest ih =>
    intro app
    rw [List.foldl_cons, ih, List.flatMap_cons, apply_calls_append]

theorem render_text_eq (app : App) (x y : Nat) (text : String) (style : Style) :
    render_text app x y text style = apply_calls app (text_calls x y text style) := by
  unfold render_text apply_calls text_calls
  rw [List.foldl_map]

theorem render_frame_eq (app : App) (bounds : Rect) :
    render_frame app bounds = apply_calls (set_clip app bounds) (frame_calls bounds) := by
  unfold render_frame frame_calls
  simp only []
  rw [apply_calls_append, apply_calls_append, ← foldl_apply_calls, ← foldl_apply_calls]
  rfl

theorem render_eq (w : Widget) (app : App) :
    w.render (set_clip app w.bounds) = apply_calls (set_clip app w.bounds) w.calls := by
  cases w with
  | Label b text => exact render_text_eq _ _ _ _ _
  | Box b title =>
    show render_text (render_frame (set_clip app b) b) (add32 b.x 2) (add32 b.y 1) title
        Style.BOLD =
      apply_calls (set_clip app b)
        (frame_calls b ++ text_calls (add32 b.x 2) (add32 b.y 1) title Style.BOLD)
    rw [render_text_eq, render_frame_eq, apply_calls_append]
    rfl
  | LoginWidget b username password typing_password =>
    show render_text (render_text (render_text (render_text (render_text (render_text
        (render_frame (set_clip app b) b)
        (sub32 (add32 b.x (b.width / 2)) 3) (add32 b.y 1) " LOGIN " Style.BOLD)
        (add32 b.x 4) (add32 b.y 4) "Username:" Style.REGULAR)
        (add32 b.x 4) (add32 b.y 5) username
          (if typing_password then Style.REGULAR else Style.UNDERLINE))
        (add32 b.x 4) (add32 b.y 7) "Password:" Style.REGULAR)
        (add32 b.x 4) (add32 b.y 8) (String.mk (List.replicate (utf8 password).length '*'))
          (if typing_password then Style.UNDERLINE else Style.REGULAR))
        (sub32 (add32 b.x (b.width / 2)) 8) (add32 b.y 10) "[ Enter to Login ]"
          Style.REGULAR =
      apply_calls (set_clip app b)
        (frame_calls b ++
        text_calls (sub32 (add32 b.x (b.width / 2)) 3) (add32 b.y 1) " LOGIN " Style.BOLD ++
        text_calls (add32 b.x 4) (add32 b.y 4) "Username:" Style.REGULAR ++
        text_calls (add32 b.x 4) (add32 b.y 5) username
          (if typing_password then Style.REGULAR else Style.UNDERLINE) ++
        text_calls (add32 b.x 4) (add32 b.y 7) "Password:" Style.REGULAR ++
        text_calls (add32 b.x 4) (add32 b.y 8)
          (String.mk (List.replicate (utf8 password).length '*'))
          (if typing_password then Style.UNDERLINE else Style.REGULAR) ++
        text_calls (sub32 (add32 b.x (b.width / 2)) 8) (add32 b.y 10) "[ Enter to Login ]"
          Style.REGULAR)
    rw [render_text_eq, render_text_eq, render_text_eq, render_text_eq, render_text_eq,
      render_text_eq, render_frame_eq, apply_calls_append, apply_calls_append,
      apply_calls_append, apply_calls_append, apply_calls_append, apply_calls_append]
    rfl

end Cxx

/-! ## The last accepted `set_cell` call wins -/

namespace Cxx

theorem set_cell_eq_accepts (app : App) (x y : Nat) (symbol : List Nat) (style : Style) :
    set_cell app x y symbol style =
      if accepts app.cols app.lines app.clip_rect x y = true then
        { app with
          term := app.term.set (add32 (mul32 y app.cols) x)
            { app.term.getD (add32 (mul32 y app.cols) x) blank_cell with
              symbol := symbol
              style := style } }
      else app := by
  unfold set_cell accepts
  by_cases h1 : x ≥ app.cols ∨ y ≥ app.lines
  · rw [if_pos h1, if_neg]
    rw [decide_eq_true_eq]
    exact fun h => h.1 h1
  · rw [if_neg h1]
    by_cases h2 : x < app.clip_rect.x ∨ x ≥ add32 app.clip_rect.x app.clip_rect.width ∨
        y < app.clip_rect.y ∨ y ≥ add32 app.clip_rect.y app.clip_rect.height
    · rw [if_pos h2, if_neg]
      rw [decide_eq_true_eq]
      exact fun h => h.2 h2
    · rw [if_neg h2, if_pos]
      rw [decide_eq_true_eq]
      exact ⟨h1, h2⟩

theorem set_cell_frame (app : App) (x y : Nat) (symbol : List Nat) (style : Style) :
    (set_cell app x y symbol style).cols = app.cols ∧
      (set_cell app x y symbol style).lines = app.lines ∧
      (set_cell app x y symbol style).clip_rect = app.clip_rect ∧
      (set_cell app x y symbol style).term.length = app.term.length := by
  rw [set_cell_eq_accepts]
  split
  · exact ⟨rfl, rfl, rfl, List.length_set _ _ _⟩
  · exact ⟨rfl, rfl, rfl, rfl⟩

theorem apply_calls_frame (cs : List SetCall) :
    ∀ app : App, (apply_calls app cs).cols = app.cols ∧
      (apply_calls app cs).lines = app.lines ∧
      (apply_calls app cs).clip_rect = app.clip_rect ∧
      (apply_calls app cs).term.length = app.term.length := by
  induction cs with
  | nil => intro app; exact ⟨rfl, rfl, rfl, rfl⟩
  | cons c rest ih =>
    intro app
    obtain ⟨h1, h2, h3, h4⟩ := ih (set_cell app c.x c.y c.symbol c.style)
    obtain ⟨g1, g2, g3, g4⟩ := set_cell_frame app c.x c.y c.symbol c.style
    unfold apply_calls at h1 h2 h3 h4 ⊢
    rw [List.foldl_cons]
    exact ⟨h1.trans g1, h2.trans g2, h3.trans g3, h4.trans g4⟩

theorem set_cell_glyph (app : App) (cx cy x y : Nat) (symbol : List Nat) (style : Style)
    (hlen : app.term.length = app.cols * app.lines) (hsz : app.cols * app.lines < U32)
    (hx : x < app.cols) (_hy : y < app.lines) :
    ((set_cell app cx cy symbol style).term[y * app.cols + x]?).map Cell.glyph =
      if (accepts app.cols app.lines app.clip_rect cx cy && decide (cx = x ∧ cy = y)) = true
      then some (symbol, style)
      else (app.term[y * app.cols + x]?).map Cell.glyph := by
  rw [set_cell_eq_accepts]
  by_cases hacc : accepts app.cols app.lines app.clip_rect cx cy = true
  · rw [if_pos hacc, hacc, Bool.true_and]
    have hin : ¬ (cx ≥ app.cols ∨ cy ≥ app.lines) := by
      unfold accepts at hacc
      rw [decide_eq_true_eq] at hacc
      exact hacc.1
    have hcx : cx < app.cols := by omega
    have hcy : cy < app.lines := by omega
    have hp : (cy, cx) ∈ grid app.lines app.cols := (mem_grid _ _ _).mpr ⟨hcy, hcx⟩
    obtain ⟨hidx, hlt⟩ := grid_index_exact app.lines app.cols hsz (cy, cx) hp
    simp only at hidx hlt
    rw [hidx]
    show ((app.term.set (cy * app.cols + cx) _)[y * app.cols + x]?).map Cell.glyph = _
    rw [List.getElem?_set]
    by_cases hsame : cx = x ∧ cy = y
    · rw [if_pos (decide_eq_true hsame), hsame.1, hsame.2, if_pos rfl,
        if_pos (by rw [hlen]; rw [hsame.1, hsame.2] at hlt; exact hlt)]
      rfl
    · have hd : ¬ decide (cx = x ∧ cy = y) = true := by
        rw [decide_eq_true_eq]; exact hsame
      rw [if_neg hd, if_neg]
      intro hi
      apply hsame
      have := grid_index_inj app.cols cy cx y x hcx hx hi
      exact ⟨(Prod.mk.inj this).2, (Prod.mk.inj this).1⟩
  · rw [if_neg hacc, if_neg]
    rw [Bool.and_eq_true]
    exact fun h => hacc h.1

theorem getLast?_filter_concat {α : Type} (p : α → Bool) (l : List α) (a : α) :
    ((l ++ [a]).filter p).getLast? = if p a = true then some a else (l.filter p).getLast? := by
  rw [List.filter_append]
  by_cases h : p a = true
  · rw [if_pos h, List.filter_cons_of_pos h, List.filter_nil, List.getLast?_concat]
  · rw [if_neg h, List.filter_cons_of_neg h, List.filter_nil, List.append_nil]

theorem last_call_concat (cols lines : Nat) (clip : Rect) (cs : List SetCall) (c : SetCall)
    (x y : Nat) :
    last_call cols lines clip (cs ++ [c]) x y =
      if (accepts cols lines clip c.x c.y && decide (c.x = x ∧ c.y = y)) = true
      then some (c.symbol, c.style)
      else last_call cols lines clip cs x y := by
  unfold last_call
  rw [getLast?_filter_concat]
  split <;> rfl

/-- The last accepted call wins: after a sequence of `set_cell` calls under
one clip rectangle, a cell inside the buffer holds the symbol and style of
the last call at its coordinates that passed the two tests, or what it held
before if there is none. -/
theorem last_call_wins (app : App) (x y : Nat)
    (hlen : app.term.length = app.cols * app.lines) (hsz : app.cols * app.lines < U32)
    (hx : x < app.cols) (hy : y < app.lines) (cs : List SetCall) :
    ((apply_calls app cs).term[y * app.cols + x]?).map Cell.glyph =
      match last_call app.cols app.lines app.clip_rect cs x y with
      | some p => some p
      | none => (app.term[y * app.cols + x]?).map Cell.glyph := by
  induction cs using List.reverseRecOn with
  | nil => rfl
  | append_singleton cs c ih =>
    obtain ⟨f1, f2, f3, f4⟩ := apply_calls_frame cs app
    have hstep := set_cell_glyph (apply_calls app cs) c.x c.y x y c.symbol c.style
      (by rw [f4, f1, f2]; exact hlen) (by rw [f1, f2]; exact hsz)
      (by rw [f1]; exact hx) (by rw [f2]; exact hy)
    rw [f1, f2, f3] at hstep
    rw [apply_calls_append, last_call_concat]
    show ((set_cell (apply_calls app cs) c.x c.y c.symbol c.style).term[
      y * app.cols + x]?).map Cell.glyph = _
    rw [hstep]
    by_cases h : (accepts app.cols app.lines app.clip_rect c.x c.y &&
        decide (c.x = x ∧ c.y = y)) = true
    · rw [if_pos h, if_pos h]
    · rw [if_neg h, if_neg h, ih]

theorem last_call_eq_none (cols lines : Nat) (w : Widget) (x y : Nat) :
    last_call cols lines w.bounds w.calls x y = none ↔ paints_at cols lines w x y = false := by
  unfold last_call paints_at
  rw [Option.map_eq_none', List.getLast?_eq_none_iff, List.filter_eq_nil_iff]
  simp only [List.any_eq_false]

/-- One widget of `App::draw`: the clip is set to its bounds and it is
rendered; a cell inside the buffer then holds what the widget stored there
last, or what it held before. -/
theorem widget_step_glyph (app : App) (w : Widget) (x y : Nat)
    (hlen : app.term.length = app.cols * app.lines) (hsz : app.cols * app.lines < U32)
    (hx : x < app.cols) (hy : y < app.lines) :
    ((w.render (set_clip app w.bounds)).term[y * app.cols + x]?).map Cell.glyph =
      match last_call app.cols app.lines w.bounds w.calls x y with
      | some p => some p
      | none => (app.term[y * app.cols + x]?).map Cell.glyph := by
  rw [render_eq]
  exact last_call_wins (set_clip app w.bounds) x y hlen hsz hx hy w.calls

theorem widget_step_keeps (app : App) (w : Widget) :
    keeps_frame app (w.render (set_clip app w.bounds)) :=
  keeps_frame_trans (set_clip_keeps app w.bounds) (render_keeps w _)

theorem widgets_unpainted (x y : Nat) (ws : List Widget) :
    ∀ app : App, app.term.length = app.cols * app.lines → app.cols * app.lines < U32 →
      x < app.cols → y < app.lines →
      (∀ w ∈ ws, paints_at app.cols app.lines w x y = false) →
      ((ws.foldl (fun a w => w.render (set_clip a w.bounds)) app).term[
        y * app.cols + x]?).map Cell.glyph = (app.term[y * app.cols + x]?).map Cell.glyph := by
  induction ws with
  | nil => intro app _ _ _ _ _; rfl
  | cons w rest ih =>
    intro app hlen hsz hx hy hnone
    obtain ⟨k1, _, k3, k4⟩ := widget_step_keeps app w
    have hrest := ih (w.render (set_clip app w.bounds)) (by rw [k1, k3, k4]; exact hlen)
      (by rw [k3, k4]; exact hsz) (by rw [k3]; exact hx) (by rw [k4]; exact hy)
      (by rw [k3, k4]; exact fun c hc => hnone c (List.mem_cons_of_mem _ hc))
    rw [k3] at hrest
    rw [List.foldl_cons, hrest, widget_step_glyph app w x y hlen hsz hx hy,
      (last_call_eq_none _ _ w x y).mpr (hnone w (List.mem_cons_self _ _))]

/-- Of the widgets of `App::draw` that store a symbol at a coordinate, the
one added last wins. -/
theorem later_widget_wins (app : App) (pre post : List Widget) (later : Widget) (x y : Nat)
    (hlen : app.term.length = app.cols * app.lines) (hsz : app.cols * app.lines < U32)
    (hx : x < app.cols) (hy : y < app.lines)
    (hlater : paints_at app.cols app.lines later x y = true)
    (hpost : ∀ w ∈ post, paints_at app.cols app.lines w x y = false) :
    ((paint app (pre ++ later :: post)).term[y * app.cols + x]?).map Cell.glyph =
        last_call app.cols app.lines later.bounds later.calls x y ∧
      last_call app.cols app.lines later.bounds later.calls x y ≠ none := by
  have hne : last_call app.cols app.lines later.bounds later.calls x y ≠ none := by
    intro h
    rw [(last_call_eq_none _ _ _ _ _).mp h] at hlater
    exact Bool.noConfusion hlater
  refine ⟨?_, hne⟩
  unfold paint
  rw [List.foldl_append, List.foldl_cons]
  obtain ⟨p1, _, p3, p4⟩ := keeps_frame_trans
    (b := { app with term := List.replicate app.term.length blank_cell })
    ⟨List.length_replicate _ _, rfl, rfl, rfl⟩
    (keeps_frame_foldl (fun a w => w.render (set_clip a w.bounds))
      (fun a w => widget_step_keeps a w) pre
      { app with term := List.replicate app.term.length blank_cell })
  obtain ⟨k1, _, k3, k4⟩ := widget_step_keeps
    (pre.foldl (fun a w => w.render (set_clip a w.bounds))
      { app with term := List.replicate app.term.length blank_cell }) later
  have hpostF := widgets_unpainted x y post
    (later.render (set_clip (pre.foldl (fun a w => w.render (set_clip a w.bounds))
      { app with term := List.replicate app.term.length blank_cell }) later.bounds))
    (by rw [k1, k3, k4, p1, p3, p4]; exact hlen) (by rw [k3, k4, p3, p4]; exact hsz)
    (by rw [k3, p3]; exact hx) (by rw [k4, p4]; exact hy)
    (by rw [k3, k4, p3, p4]; exact hpost)
  rw [k3, p3] at hpostF
  have hlaterF := widget_step_glyph
    (pre.foldl (fun a w => w.render (set_clip a w.bounds))
      { app with term := List.replicate app.term.length blank_cell }) later x y
    (by rw [p1, p3, p4]; exact hlen) (by rw [p3, p4]; exact hsz)
    (by rw [p3]; exact hx) (by rw [p4]; exact hy)
  rw [p3, p4] at hlaterF
  rw [hpostF, hlaterF]
  rcases hl : last_call app.cols app.lines later.bounds later.calls x y with _ | p
  · exact absurd hl hne
  · rfl

end Cxx

/-! ## The buffers `tui_init` leaves -/

theorem foldl_set_getElem? {α : Type} (a : α) :
    ∀ (n : Nat) (l : List α) (j : Nat),
      ((List.range n).foldl (fun l i => l.set i a) l)[j]? =
        if j < n ∧ j < l.length then some a else l[j]? := by
  intro n
  induction n with
  | zero =>
    intro l j
    rw [List.range_zero, List.foldl_nil, if_neg (fun h => Nat.not_lt_zero _ h.1)]
  | succ n ih =>
    intro l j
    rw [List.range_succ, List.foldl_append, List.foldl_cons, List.foldl_nil,
      List.getElem?_set, ih, foldl_set_length]
    by_cases hj : n = j
    · subst hj
      by_cases hl : n < l.length
      · rw [if_pos rfl, if_pos hl, if_pos ⟨Nat.lt_succ_self _, hl⟩]
      · rw [if_pos rfl, if_neg hl, if_neg (fun h => hl h.2)]
        exact (List.getElem?_eq_none (Nat.le_of_not_lt hl)).symm
    · rw [if_neg hj]
      by_cases h : j < n ∧ j < l.length
      · rw [if_pos h, if_pos ⟨Nat.lt_succ_of_lt h.1, h.2⟩]
      · rw [if_neg h, if_neg]
        intro h2
        exact h ⟨by omega, h2.2⟩

theorem foldl_set_replicate {α : Type} (a b : α) (n : Nat) :
    (List.range n).foldl (fun l i => l.set i a) (List.replicate n b) = List.replicate n a := by
  apply List.ext_getElem?
  intro j
  rw [foldl_set_getElem?, List.length_replicate]
  by_cases hj : j < n
  · rw [if_pos ⟨hj, hj⟩, List.getElem?_replicate, if_pos hj]
  · rw [if_neg (fun h => hj h.1), List.getElem?_replicate, List.getElem?_replicate,
      if_neg hj, if_neg hj]

theorem mul32_of_ushort (a b : Nat) (ha : a < 65536) (hb : b < 65536) :
    mul32 a b = a * b ∧ a * b < U32 := by
  have h : a * b ≤ 65535 * 65535 := Nat.mul_le_mul (by omega) (by omega)
  have hlt : a * b < U32 := by unfold U32; omega
  exact ⟨Nat.mod_eq_of_lt hlt, hlt⟩

theorem tui_init_buffers (ws_col ws_row : Nat) (hc : ws_col < 65536) (hr : ws_row < 65536) :
    (tui_init ws_col ws_row).terminal = List.replicate (ws_col * ws_row) blank_cell ∧
      (tui_init ws_col ws_row).front_buffer = List.replicate (ws_col * ws_row) nul_cell := by
  unfold tui_init
  simp only []
  rw [(mul32_of_ushort ws_col ws_row hc hr).1, foldl_set_replicate, foldl_set_replicate]
  exact ⟨rfl, rfl⟩

theorem changed_cells_all (tui : Tui)
    (h : ∀ i, i < tui.width * tui.height →
      cell_changed tui.terminal tui.front_buffer i = true) :
    changed_cells tui = List.range (tui.width * tui.height) := by
  unfold changed_cells
  rw [List.filter_eq_self]
  intro i hi
  exact h i (List.mem_range.mp hi)

/-- A full repaint: when every cell of the back buffer differs from the front
buffer, `tui_render` writes the glyph of each cell, in row-major order, and
leaves the front buffer equal to the back buffer. -/
theorem tui_render_full (tui : Tui)
    (hlenT : tui.terminal.length = tui.width * tui.height)
    (hlenF : tui.front_buffer.length = tui.width * tui.height)
    (hsz : tui.width * tui.height < U32)
    (h : ∀ i, i < tui.width * tui.height →
      cell_changed tui.terminal tui.front_buffer i = true) :
    glyphs (tui_render tui).2 = tui.terminal.map Cell.symbol ∧
      count_glyph (tui_render tui).2 = tui.width * tui.height ∧
      (tui_render tui).1.front_buffer = (tui_render tui).1.terminal := by
  have hg : glyphs (tui_render tui).2 = tui.terminal.map Cell.symbol := by
    rw [tui_render_out tui hsz, glyphs_diff_writes, changed_cells_all tui h]
    apply List.ext_getElem?
    intro j
    rw [List.getElem?_map, List.getElem?_map]
    by_cases hj : j < tui.width * tui.height
    · rw [List.getElem?_range hj, List.getElem?_eq_getElem (by rw [hlenT]; exact hj)]
      show some (tui.terminal.getD j blank_cell).symbol = _
      rw [List.getD_eq_getElem?_getD, List.getElem?_eq_getElem (by rw [hlenT]; exact hj)]
      rfl
    · rw [List.getElem?_eq_none (by rw [List.length_range]; omega),
        List.getElem?_eq_none (by rw [hlenT]; omega)]
      rfl
  refine ⟨hg, ?_, tui_render_commits tui hlenT hlenF hsz⟩
  rw [count_glyph_eq, hg, List.length_map, hlenT]

/-! ## `Layout::vertical` and `Layout::horizontal` -/

namespace Cxx

theorem vertical_loop_eq (area : Rect) (hs : List Int) :
    ∀ cur, Layout.vertical_loop area hs cur =
      (fill_sizes area.height area.y hs cur).map
        (fun p => (⟨area.x, p.1, area.width, p.2⟩ : Rect)) := by
  induction hs with
  | nil => intro cur; rfl
  | cons h rest ih =>
    intro cur
    simp only [Layout.vertical_loop, fill_sizes, List.map_cons]
    rw [ih]

theorem horizontal_loop_eq (area : Rect) (ws : List Int) :
    ∀ cur, Layout.horizontal_loop area ws cur =
      (fill_sizes area.width area.x ws cur).map
        (fun p => (⟨p.1, area.y, p.2, area.height⟩ : Rect)) := by
  induction ws with
  | nil => intro cur; rfl
  | cons w rest ih =>
    intro cur
    simp only [Layout.horizontal_loop, fill_sizes, List.map_cons]
    rw [ih]

theorem fill_sizes_length (extent origin : Nat) (hs : List Int) :
    ∀ cur, (fill_sizes extent origin hs cur).length = hs.length := by
  induction hs with
  | nil => intro cur; rfl
  | cons h rest ih => intro cur; simp only [fill_sizes, List.length_cons, ih]

theorem fill_sizes_head (extent origin : Nat) (hs : List Int) (cur : Nat) (p : Nat × Nat)
    (h : (fill_sizes extent origin hs cur)[0]? = some p) : p.1 = cur := by
  cases hs with
  | nil => exact Option.noConfusion h
  | cons a rest =>
    simp only [fill_sizes, List.getElem?_cons_zero, Option.some.injEq] at h
    rw [← h]

theorem fill_sizes_succ (extent origin : Nat) (hs : List Int) :
    ∀ (cur k : Nat) (p q : Nat × Nat), (fill_sizes extent origin hs cur)[k]? = some p →
      (fill_sizes extent origin hs cur)[k + 1]? = some q → q.1 = add32 p.1 p.2 := by
  induction hs with
  | nil => intro cur k p q hp _; exact Option.noConfusion hp
  | cons a rest ih =>
    intro cur k p q hp hq
    cases k with
    | zero =>
      simp only [fill_sizes, List.getElem?_cons_zero, Option.some.injEq] at hp
      simp only [fill_sizes, List.getElem?_cons_succ] at hq
      rw [fill_sizes_head extent origin rest _ q hq, ← hp]
    | succ k =>
      simp only [fill_sizes, List.getElem?_cons_succ] at hp hq
      exact ih _ k p q hp hq

theorem fill_sizes_nonzero (extent origin : Nat) (hs : List Int) :
    ∀ (cur k : Nat) (h : Int) (p : Nat × Nat), hs[k]? = some h →
      (fill_sizes extent origin hs cur)[k]? = some p → h ≠ 0 → p.2 = to_u32 h := by
  induction hs with
  | nil => intro cur k h p hh _ _; exact Option.noConfusion hh
  | cons a rest ih =>
    intro cur k h p hh hp hne
    cases k with
    | zero =>
      simp only [List.getElem?_cons_zero, Option.some.injEq] at hh
      simp only [fill_sizes, List.getElem?_cons_zero, Option.some.injEq] at hp
      rw [← hp, hh]
      exact if_neg hne
    | succ k =>
      simp only [List.getElem?_cons_succ] at hh
      simp only [fill_sizes, List.getElem?_cons_succ] at hp
      exact ih _ k h p hh hp hne

theorem sub32_sub32_origin (extent origin cur consumed : Nat)
    (hcur : cur = (origin + consumed) % U32) :
    sub32 extent (sub32 cur origin) = sub32 extent consumed := by
  unfold sub32 U32 at *
  omega

theorem fill_sizes_zero (extent origin : Nat) (hs : List Int) :
    ∀ (cur consumed : Nat), cur = (origin + consumed) % U32 →
      ∀ (k : Nat) (p : Nat × Nat), hs[k]? = some 0 →
        (fill_sizes extent origin hs cur)[k]? = some p →
        p.2 = sub32 extent
          (consumed + consumed_before k (fill_sizes extent origin hs cur)) := by
  induction hs with
  | nil => intro cur consumed _ k p hh _; exact Option.noConfusion hh
  | cons a rest ih =>
    intro cur consumed hcur k p hh hp
    cases k with
    | zero =>
      simp only [List.getElem?_cons_zero, Option.some.injEq] at hh
      simp only [fill_sizes, List.getElem?_cons_zero, Option.some.injEq] at hp
      rw [← hp, hh]
      show (if (0 : Int) = 0 then sub32 extent (sub32 cur origin) else to_u32 0) = _
      rw [if_pos rfl, sub32_sub32_origin extent origin cur consumed hcur]
      rfl
    | succ k =>
      simp only [List.getElem?_cons_succ] at hh
      simp only [fill_sizes, List.getElem?_cons_succ] at hp
      have hcur2 : add32 cur
            (if a = 0 then sub32 extent (sub32 cur origin) else to_u32 a) =
          (origin + (consumed +
            (if a = 0 then sub32 extent (sub32 cur origin) else to_u32 a))) % U32 := by
        generalize (if a = 0 then sub32 extent (sub32 cur origin) else to_u32 a) = sz
        unfold add32 U32 at *
        omega
      have := ih _ _ hcur2 k p hh hp
      rw [this]
      unfold consumed_before
      simp only [fill_sizes, List.take_succ_cons, List.map_cons, List.sum_cons]
      rw [Nat.add_assoc]

theorem to_u32_of_pos (h : Int) (h0 : 0 < h) (hlt : h < (U32 : Int)) :
    ((to_u32 h : Nat) : Int) = h := by
  unfold to_u32
  rw [Int.emod_eq_of_lt (Int.le_of_lt h0) hlt]
  exact Int.toNat_of_nonneg (Int.le_of_lt h0)

theorem fill_sizes_positive_prefix (extent origin : Nat) (pre : List Int) :
    ∀ (rest : List Int) (cur : Nat), (∀ h ∈ pre, 0 < h ∧ h < (U32 : Int)) →
      ((fill_sizes extent origin (pre ++ rest) cur).take pre.length).map Prod.snd =
        pre.map Int.toNat := by
  induction pre with
  | nil => intro rest cur _; rfl
  | cons a pre ih =>
    intro rest cur hpos
    have ha := hpos a (List.mem_cons_self _ _)
    have hne : a ≠ 0 := by omega
    show (if a = 0 then sub32 extent (sub32 cur origin) else to_u32 a) ::
        ((fill_sizes extent origin (pre ++ rest)
          (add32 cur (if a = 0 then sub32 extent (sub32 cur origin) else to_u32 a))).take
            pre.length).map Prod.snd = a.toNat :: pre.map Int.toNat
    rw [ih rest _ (fun h hh => hpos h (List.mem_cons_of_mem _ hh)), if_neg hne]
    congr 1
    have := to_u32_of_pos a ha.1 ha.2
    omega

theorem sum_map_toNat (l : List Int) (h : ∀ a ∈ l, 0 < a) :
    (((l.map Int.toNat).sum : Nat) : Int) = l.sum := by
  induction l with
  | nil => rfl
  | cons a rest ih =>
    have ha := h a (List.mem_cons_self _ _)
    have := ih (fun b hb => h b (List.mem_cons_of_mem _ hb))
    simp only [List.map_cons, List.sum_cons]
    omega

theorem le_sum_of_pos (l : List Int) (h : ∀ a ∈ l, 0 < a) : ∀ a ∈ l, a ≤ l.sum := by
  induction l with
  | nil => intro a ha; exact absurd ha (List.not_mem_nil a)
  | cons b rest ih =>
    intro a ha
    have hb := h b (List.mem_cons_self _ _)
    have hrest : 0 ≤ rest.sum := by
      have := sum_map_toNat rest (fun c hc => h c (List.mem_cons_of_mem _ hc))
      omega
    rw [List.sum_cons]
    rcases List.mem_cons.mp ha with rfl | ha
    · omega
    · have := ih (fun c hc => h c (List.mem_cons_of_mem _ hc)) a ha
      omega

end Cxx

namespace Cxx

theorem sum_snd_eq_consumed_add_last (ps : List (Nat × Nat)) (p : Nat × Nat)
    (hp : ps[ps.length - 1]? = some p) :
    (ps.map Prod.snd).sum = consumed_before (ps.length - 1) ps + p.2 := by
  obtain ⟨hsplit, _⟩ := split_at_index ps (ps.length - 1) p hp
  have hlt : ps.length - 1 < ps.length := (List.getElem?_eq_some.mp hp).1
  have hdrop : ps.drop (ps.length - 1 + 1) = [] := List.drop_eq_nil_of_le (by omega)
  unfold consumed_before
  conv_lhs => rw [hsplit, hdrop]
  simp only [List.map_append, List.map_cons, List.map_nil, List.sum_append, List.sum_cons,
    List.sum_nil, Nat.add_zero]

/-- The loop shared by `Layout::vertical` and `Layout::horizontal` follows the
rule `sequential_fill`. -/
theorem fill_sizes_spec (extent origin : Nat) (he : extent < U32) (ho : origin < U32)
    (sizes : List Int) :
    sequential_fill extent origin sizes (fill_sizes extent origin sizes origin) := by
  have hzero : ∀ (k : Nat) (p : Nat × Nat), sizes[k]? = some 0 →
      (fill_sizes extent origin sizes origin)[k]? = some p →
      p.2 = sub32 extent (consumed_before k (fill_sizes extent origin sizes origin)) ∧
      (consumed_before k (fill_sizes extent origin sizes origin) ≤ extent →
        p.2 = extent - consumed_before k (fill_sizes extent origin sizes origin)) := by
    intro k p hk hp
    have h := fill_sizes_zero extent origin sizes origin 0
      (by rw [Nat.add_zero, Nat.mod_eq_of_lt ho]) k p hk hp
    rw [Nat.zero_add] at h
    refine ⟨h, fun hle => ?_⟩
    rw [h]
    unfold sub32 U32 at *
    omega
  have hlast : sizes.getLast? = some 0 →
      consumed_before ((fill_sizes extent origin sizes origin).length - 1)
        (fill_sizes extent origin sizes origin) ≤ extent →
      ((fill_sizes extent origin sizes origin).map Prod.snd).sum = extent := by
    intro hl hle
    have hlen := fill_sizes_length extent origin sizes origin
    rw [List.getLast?_eq_getElem?] at hl
    have hlt : sizes.length - 1 < sizes.length := (List.getElem?_eq_some.mp hl).1
    obtain ⟨p, hp⟩ : ∃ p, (fill_sizes extent origin sizes origin)[sizes.length - 1]? = some p :=
      ⟨_, List.getElem?_eq_getElem (by rw [hlen]; exact hlt)⟩
    have hp2 := (hzero _ p hl hp).2 (by rw [← hlen]; exact hle)
    rw [sum_snd_eq_consumed_add_last _ p (by rw [hlen]; exact hp), hlen, hp2]
    rw [hlen] at hle
    omega
  refine ⟨fill_sizes_length extent origin sizes origin,
    fun p hp => fill_sizes_head extent origin sizes origin p hp, ?_, ?_, hzero, hlast, ?_⟩
  · intro k p q hp hq
    have key := fill_sizes_succ extent origin sizes origin k p q hp hq
    refine ⟨key, fun hlt => ?_⟩
    rw [key, add32, Nat.mod_eq_of_lt hlt]
  · intro k h p hk hp hne
    have key := fill_sizes_nonzero extent origin sizes origin k h p hk hp hne
    refine ⟨key, fun h0 hlt => ?_⟩
    rw [key]
    exact to_u32_of_pos h h0 hlt
  · intro hl hpos hsum
    apply hlast hl
    have hsplit := List.dropLast_append_getLast? 0 hl
    have hlen := fill_sizes_length extent origin sizes origin
    have hdl : sizes.dropLast.length = sizes.length - 1 := List.length_dropLast sizes
    have hbound : ∀ h ∈ sizes.dropLast, 0 < h ∧ h < (U32 : Int) := by
      intro h hh
      have h1 := le_sum_of_pos sizes.dropLast hpos h hh
      have h2 : ((extent : Nat) : Int) < (U32 : Int) := by exact_mod_cast he
      exact ⟨hpos h hh, by omega⟩
    have hpre := fill_sizes_positive_prefix extent origin sizes.dropLast [0] origin hbound
    rw [hsplit] at hpre
    unfold consumed_before
    rw [hlen, ← hdl, hpre]
    have hcast := sum_map_toNat sizes.dropLast hpos
    omega

end Cxx

/-! ## Containment of the children -/

theorem extents_inside (cons : List Constraint) :
    ∀ (n i rem cur : Nat), i + cons.length = n →
      (∀ c ∈ cons, c.type = SizeType.SIZE_FLEX → c.value ≤ 100) →
      cur + fixed_total cons + rem < U32 →
      ∀ (k a e : Nat), (origins (extents cons n i rem) cur)[k]? = some a →
        (extents cons n i rem)[k]? = some e →
        cur ≤ a ∧ a + e ≤ cur + fixed_total cons + rem := by
  induction cons with
  | nil => intro n i rem cur _ _ _ k a e _ he; exact Option.noConfusion he
  | cons c rest ih =>
    intro n i rem cur hn hflex hb k a e ha he
    have hlen : (c :: rest).length = rest.length + 1 := rfl
    have hshare : c.type = SizeType.SIZE_FLEX → mul32 rem c.value / 100 ≤ rem :=
      fun hc => flex_share_le rem c.value (hflex c (List.mem_cons_self _ _) hc)
    have hft : fixed_total (c :: rest) =
        if c.type = SizeType.SIZE_FIXED then c.value + fixed_total rest
        else fixed_total rest := rfl
    -- the extent of the head and what it leaves
    have hhead : child_extent c i n rem ≤
        (if c.type = SizeType.SIZE_FIXED then c.value else 0) + rem ∧
        (rest ≠ [] → (if c.type = SizeType.SIZE_FIXED then c.value else 0) + rem =
          child_extent c i n rem + next_remaining c i n rem ∨
          child_extent c i n rem = 0 ∧ next_remaining c i n rem = rem ∨
          (c.type = SizeType.SIZE_FIXED ∧ child_extent c i n rem = c.value ∧
            next_remaining c i n rem = rem)) := by
      unfold child_extent next_remaining
      by_cases h1 : c.type = SizeType.SIZE_FIXED
      · rw [if_pos h1, if_pos h1, if_pos h1]
        exact ⟨by omega, fun _ => Or.inr (Or.inr ⟨h1, rfl, rfl⟩)⟩
      · rw [if_neg h1, if_neg h1, if_neg h1]
        by_cases h2 : c.type = SizeType.SIZE_FLEX
        · rw [if_pos h2, if_pos h2]
          have hs := hshare h2
          by_cases h3 : i = n - 1
          · rw [if_pos h3, if_pos h3]
            refine ⟨by omega, fun hne => ?_⟩
            exfalso
            have : 0 < rest.length := List.length_pos.mpr hne
            omega
          · rw [if_neg h3, if_neg h3]
            refine ⟨by omega, fun _ => Or.inl ?_⟩
            have hrem : rem < U32 := by omega
            unfold sub32 U32 at *
            omega
        · rw [if_neg h2, if_neg h2]
          exact ⟨by omega, fun _ => Or.inr (Or.inl ⟨rfl, rfl⟩)⟩
    cases k with
    | zero =>
      simp only [extents, origins, List.getElem?_cons_zero, Option.some.injEq] at ha he
      subst ha
      subst he
      have := hhead.1
      rw [hft]
      split <;> rename_i hc <;> simp only [hc, if_true, if_false] at this <;> omega
    | succ k =>
      simp only [extents, origins, List.getElem?_cons_succ] at ha he
      have hne : rest ≠ [] := by
        intro hnil
        rw [hnil] at he
        exact Option.noConfusion he
      have hcur : add32 cur (child_extent c i n rem) = cur + child_extent c i n rem := by
        have := hhead.1
        unfold add32
        apply Nat.mod_eq_of_lt
        rw [hft] at hb
        split at hb <;> rename_i hc <;> simp only [hc, if_true, if_false] at this <;> omega
      rw [hcur] at ha
      have hb2 : cur + child_extent c i n rem + fixed_total rest +
          next_remaining c i n rem ≤ cur + fixed_total (c :: rest) + rem := by
        rw [hft]
        rcases hhead.2 hne with h | h | h
        · split <;> rename_i hc <;> simp only [hc, if_true, if_false] at h <;> omega
        · split <;> omega
        · rw [if_pos h.1]; omega
      have := ih n (i + 1) (next_remaining c i n rem) (cur + child_extent c i n rem)
        (by rw [hlen] at hn; omega) (fun d hd => hflex d (List.mem_cons_of_mem _ hd))
        (by omega) k a e ha he
      omega

theorem vrect_children_inside (cs : List Widget) (x y width height : Nat)
    (hy : y + height < U32)
    (hfix : fixed_total (cs.map Widget.height_constraint) ≤ height)
    (hflex : ∀ c ∈ cs, c.height_constraint.type = SizeType.SIZE_FLEX →
      c.height_constraint.value ≤ 100) :
    ∀ c ∈ vrect_loop cs cs.length 0 x width (deduct_fixed_heights cs height) y,
      c.inside x y width height := by
  intro c hc
  obtain ⟨hcx, hcw⟩ := vrect_loop_cross cs cs.length 0 x width _ y c hc
  obtain ⟨k, hk⟩ := List.getElem?_of_mem hc
  have hyk := congrArg (Option.map Widget.y) hk
  have hhk := congrArg (Option.map Widget.h) hk
  rw [← List.getElem?_map, vrect_loop_y] at hyk
  rw [← List.getElem?_map, vrect_loop_h] at hhk
  have hrem := deduct_fixed_heights_eq cs height (by omega) hfix
  rw [hrem] at hyk hhk
  have := extents_inside (cs.map Widget.height_constraint) cs.length 0
    (height - fixed_total (cs.map Widget.height_constraint)) y
    (by rw [List.length_map]; omega)
    (fun d hd hf => by
      obtain ⟨w, hw, rfl⟩ := List.mem_map.mp hd
      exact hflex w hw hf)
    (by omega) k c.y c.h hyk hhk
  unfold Widget.inside
  rw [hcx, hcw]
  omega

theorem hrect_children_inside (cs : List Widget) (x y width height : Nat)
    (hx : x + width < U32)
    (hfix : fixed_total (cs.map Widget.width_constraint) ≤ width)
    (hflex : ∀ c ∈ cs, c.width_constraint.type = SizeType.SIZE_FLEX →
      c.width_constraint.value ≤ 100) :
    ∀ c ∈ hrect_loop cs cs.length 0 y height (deduct_fixed_widths cs width) x,
      c.inside x y width height := by
  intro c hc
  obtain ⟨hcy, hch⟩ := hrect_loop_cross cs cs.length 0 y height _ x c hc
  obtain ⟨k, hk⟩ := List.getElem?_of_mem hc
  have hxk := congrArg (Option.map Widget.x) hk
  have hwk := congrArg (Option.map Widget.w) hk
  rw [← List.getElem?_map, hrect_loop_x] at hxk
  rw [← List.getElem?_map, hrect_loop_w] at hwk
  have hrem := deduct_fixed_widths_eq cs width (by omega) hfix
  rw [hrem] at hxk hwk
  have := extents_inside (cs.map Widget.width_constraint) cs.length 0
    (width - fixed_total (cs.map Widget.width_constraint)) x
    (by rw [List.length_map]; omega)
    (fun d hd hf => by
      obtain ⟨w, hw, rfl⟩ := List.mem_map.mp hd
      exact hflex w hw hf)
    (by omega) k c.x c.w hxk hwk
  unfold Widget.inside
  rw [hcy, hch]
  omega

theorem stack_children_inside (cs : List Widget) (x y width height : Nat)
    (hx : x + width < U32) (hy : y + height < U32)
    (habs : ∀ c ∈ cs, c.width_constraint.type = SizeType.SIZE_ABSOLUTE →
      c.height_constraint.type = SizeType.SIZE_ABSOLUTE →
      c.width_constraint.value ≤ width ∧ c.height_constraint.value ≤ height) :
    ∀ c ∈ stack_loop cs x y width height, c.inside x y width height := by
  intro c hc
  obtain ⟨k, hk⟩ := List.getElem?_of_mem hc
  have hklt : k < cs.length := by
    have := (List.getElem?_eq_some.mp hk).1
    rw [stack_loop_length] at this
    exact this
  have hsrc : cs[k]? = some cs[k] := List.getElem?_eq_getElem hklt
  rw [stack_loop_getElem? cs x y width height k cs[k] hsrc] at hk
  have hmem : cs[k] ∈ cs := List.getElem_mem hklt
  have hc2 := Option.some.inj hk
  unfold Widget.inside
  by_cases hab : cs[k].width_constraint.type = SizeType.SIZE_ABSOLUTE ∧
      cs[k].height_constraint.type = SizeType.SIZE_ABSOLUTE
  · rw [if_pos hab] at hc2
    obtain ⟨hw, hh⟩ := habs cs[k] hmem hab.1 hab.2
    rw [← hc2, layout_x, layout_y, layout_w, layout_h]
    generalize cs[k].width_constraint.value = cw at hw ⊢
    generalize cs[k].height_constraint.value = ch at hh ⊢
    unfold add32 sub32 U32 at *
    omega
  · rw [if_neg hab] at hc2
    rw [← hc2, layout_x, layout_y, layout_w, layout_h]
    omega

/-! ## A child whose primary constraint is Absolute -/

theorem child_extent_absolute (c : Constraint) (i n rem : Nat)
    (hc : c.type = SizeType.SIZE_ABSOLUTE) :
    child_extent c i n rem = 0 ∧ next_remaining c i n rem = rem := by
  unfold child_extent next_remaining
  rw [hc]
  exact ⟨rfl, rfl⟩

theorem child_extent_shift (c : Constraint) (i n rem : Nat) (hn : 1 ≤ n) :
    child_extent c (i + 1) (n + 1) rem = child_extent c i n rem ∧
      next_remaining c (i + 1) (n + 1) rem = next_remaining c i n rem := by
  have hiff : (i + 1 = n + 1 - 1) ↔ (i = n - 1) := by omega
  constructor
  · simp only [child_extent, hiff]
  · simp only [next_remaining, hiff]

theorem child_extent_not_last (c : Constraint) (i n m rem : Nat) (hn : i ≠ n - 1)
    (hm : i ≠ m - 1) :
    child_extent c i n rem = child_extent c i m rem ∧
      next_remaining c i n rem = next_remaining c i m rem := by
  constructor
  · simp only [child_extent, hn, hm, if_false]
  · simp only [next_remaining, hn, hm, if_false]

theorem vrect_loop_shift (cs : List Widget) :
    ∀ (n i x width rem cur : Nat), 1 ≤ n →
      vrect_loop cs (n + 1) (i + 1) x width rem cur = vrect_loop cs n i x width rem cur := by
  induction cs with
  | nil => intro n i x width rem cur _; rfl
  | cons c rest ih =>
    intro n i x width rem cur hn
    obtain ⟨h1, h2⟩ := child_extent_shift c.height_constraint i n rem hn
    simp only [vrect_loop]
    rw [h1, h2, ih n (i + 1) x width _ _ hn]

theorem hrect_loop_shift (cs : List Widget) :
    ∀ (n i y height rem cur : Nat), 1 ≤ n →
      hrect_loop cs (n + 1) (i + 1) y height rem cur = hrect_loop cs n i y height rem cur := by
  induction cs with
  | nil => intro n i y height rem cur _; rfl
  | cons c rest ih =>
    intro n i y height rem cur hn
    obtain ⟨h1, h2⟩ := child_extent_shift c.width_constraint i n rem hn
    simp only [hrect_loop]
    rw [h1, h2, ih n (i + 1) y height _ _ hn]

theorem add32_zero (cur : Nat) (h : cur < U32) : add32 cur 0 = cur := by
  unfold add32
  rw [Nat.add_zero, Nat.mod_eq_of_lt h]

theorem add32_lt (a b : Nat) : add32 a b < U32 :=
  Nat.mod_lt _ (by unfold U32; omega)

/-- The body of the second loop of the `WIDGET_VRECT` branch at a child whose
height constraint is Absolute: the child gets height 0, and the loop goes on
with the same `remaining_h` and the same `current_y`. -/
theorem vrect_loop_absolute (c : Widget) (rest : List Widget) (n i x width rem cur : Nat)
    (hc : c.height_constraint.type = SizeType.SIZE_ABSOLUTE) (hcur : cur < U32) :
    vrect_loop (c :: rest) n i x width rem cur =
      widget_compute_layout c x cur width 0 :: vrect_loop rest n (i + 1) x width rem cur := by
  obtain ⟨h1, h2⟩ := child_extent_absolute c.height_constraint i n rem hc
  simp only [vrect_loop]
  rw [h1, h2, add32_zero cur hcur]

/-- The body of the second loop of the `WIDGET_HRECT` branch at a child whose
width constraint is Absolute. -/
theorem hrect_loop_absolute (c : Widget) (rest : List Widget) (n i y height rem cur : Nat)
    (hc : c.width_constraint.type = SizeType.SIZE_ABSOLUTE) (hcur : cur < U32) :
    hrect_loop (c :: rest) n i y height rem cur =
      widget_compute_layout c cur y 0 height :: hrect_loop rest n (i + 1) y height rem cur := by
  obtain ⟨h1, h2⟩ := child_extent_absolute c.width_constraint i n rem hc
  simp only [hrect_loop]
  rw [h1, h2, add32_zero cur hcur]

theorem deduct_fixed_heights_skip (pre : List Widget) (c : Widget) (post : List Widget)
    (hc : c.height_constraint.type = SizeType.SIZE_ABSOLUTE) :
    ∀ rem, deduct_fixed_heights (pre ++ c :: post) rem =
      deduct_fixed_heights (pre ++ post) rem := by
  induction pre with
  | nil =>
    intro rem
    show deduct_fixed_heights (c :: post) rem = deduct_fixed_heights post rem
    simp only [deduct_fixed_heights, hc, reduceCtorEq, if_false]
  | cons p pre ih =>
    intro rem
    show deduct_fixed_heights (p :: (pre ++ c :: post)) rem =
      deduct_fixed_heights (p :: (pre ++ post)) rem
    simp only [deduct_fixed_heights, ih]

theorem deduct_fixed_widths_skip (pre : List Widget) (c : Widget) (post : List Widget)
    (hc : c.width_constraint.type = SizeType.SIZE_ABSOLUTE) :
    ∀ rem, deduct_fixed_widths (pre ++ c :: post) rem =
      deduct_fixed_widths (pre ++ post) rem := by
  induction pre with
  | nil =>
    intro rem
    show deduct_fixed_widths (c :: post) rem = deduct_fixed_widths post rem
    simp only [deduct_fixed_widths, hc, reduceCtorEq, if_false]
  | cons p pre ih =>
    intro rem
    show deduct_fixed_widths (p :: (pre ++ c :: post)) rem =
      deduct_fixed_widths (p :: (pre ++ post)) rem
    simp only [deduct_fixed_widths, ih]

theorem vrect_loop_erase_absolute (pre : List Widget) (c : Widget) (post : List Widget)
    (hc : c.height_constraint.type = SizeType.SIZE_ABSOLUTE) (hpost : post ≠ []) :
    ∀ (i x width rem cur : Nat), cur < U32 →
      (vrect_loop (pre ++ c :: post) (i + (pre ++ c :: post).length) i x width rem
          cur).eraseIdx pre.length =
        vrect_loop (pre ++ post) (i + (pre ++ post).length) i x width rem cur := by
  have hpl : 1 ≤ post.length := List.length_pos.mpr hpost
  induction pre with
  | nil =>
    intro i x width rem cur hcur
    show (vrect_loop (c :: post) (i + (post.length + 1)) i x width rem cur).eraseIdx 0 =
      vrect_loop post (i + post.length) i x width rem cur
    rw [vrect_loop_absolute c post _ i x width rem cur hc hcur, List.eraseIdx_cons_zero]
    exact vrect_loop_shift post (i + post.length) i x width rem cur (by omega)
  | cons p pre ih =>
    intro i x width rem cur _
    have hl1 : (p :: pre ++ c :: post).length = (pre ++ c :: post).length + 1 := rfl
    have hl2 : (p :: pre ++ post).length = (pre ++ post).length + 1 := rfl
    have hl3 : (pre ++ c :: post).length = pre.length + (post.length + 1) := by
      rw [List.length_append]; rfl
    have hl4 : (pre ++ post).length = pre.length + post.length := List.length_append _ _
    obtain ⟨h1, h2⟩ := child_extent_not_last p.height_constraint i
      (i + (p :: pre ++ c :: post).length) (i + (p :: pre ++ post).length) rem
      (by rw [hl1, hl3]; omega) (by rw [hl2, hl4]; omega)
    show (vrect_loop (p :: (pre ++ c :: post)) _ i x width rem cur).eraseIdx (pre.length + 1) =
      vrect_loop (p :: (pre ++ post)) _ i x width rem cur
    simp only [vrect_loop, List.eraseIdx_cons_succ]
    rw [h1, h2]
    have := ih (i + 1) x width
      (next_remaining p.height_constraint i (i + (p :: pre ++ post).length) rem)
      (add32 cur (child_extent p.height_constraint i (i + (p :: pre ++ post).length) rem))
      (add32_lt _ _)
    have e1 : i + (p :: pre ++ c :: post).length = i + 1 + (pre ++ c :: post).length := by
      rw [hl1]; omega
    have e2 : i + (p :: pre ++ post).length = i + 1 + (pre ++ post).length := by
      rw [hl2]; omega
    rw [e1]
    rw [e2] at this ⊢
    rw [this]

theorem hrect_loop_erase_absolute (pre : List Widget) (c : Widget) (post : List Widget)
    (hc : c.width_constraint.type = SizeType.SIZE_ABSOLUTE) (hpost : post ≠ []) :
    ∀ (i y height rem cur : Nat), cur < U32 →
      (hrect_loop (pre ++ c :: post) (i + (pre ++ c :: post).length) i y height rem
          cur).eraseIdx pre.length =
        hrect_loop (pre ++ post) (i + (pre ++ post).length) i y height rem cur := by
  have hpl : 1 ≤ post.length := List.length_pos.mpr hpost
  induction pre with
  | nil =>
    intro i y height rem cur hcur
    show (hrect_loop (c :: post) (i + (post.length + 1)) i y height rem cur).eraseIdx 0 =
      hrect_loop post (i + post.length) i y height rem cur
    rw [hrect_loop_absolute c post _ i y height rem cur hc hcur, List.eraseIdx_cons_zero]
    exact hrect_loop_shift post (i + post.length) i y height rem cur (by omega)
  | cons p pre ih =>
    intro i y height rem cur _
    have hl1 : (p :: pre ++ c :: post).length = (pre ++ c :: post).length + 1 := rfl
    have hl2 : (p :: pre ++ post).length = (pre ++ post).length + 1 := rfl
    have hl3 : (pre ++ c :: post).length = pre.length + (post.length + 1) := by
      rw [List.length_append]; rfl
    have hl4 : (pre ++ post).length = pre.length + post.length := List.length_append _ _
    obtain ⟨h1, h2⟩ := child_extent_not_last p.width_constraint i
      (i + (p :: pre ++ c :: post).length) (i + (p :: pre ++ post).length) rem
      (by rw [hl1, hl3]; omega) (by rw [hl2, hl4]; omega)
    show (hrect_loop (p :: (pre ++ c :: post)) _ i y height rem cur).eraseIdx (pre.length + 1) =
      hrect_loop (p :: (pre ++ post)) _ i y height rem cur
    simp only [hrect_loop, List.eraseIdx_cons_succ]
    rw [h1, h2]
    have := ih (i + 1) y height
      (next_remaining p.width_constraint i (i + (p :: pre ++ post).length) rem)
      (add32 cur (child_extent p.width_constraint i (i + (p :: pre ++ post).length) rem))
      (add32_lt _ _)
    have e1 : i + (p :: pre ++ c :: post).length = i + 1 + (pre ++ c :: post).length := by
      rw [hl1]; omega
    have e2 : i + (p :: pre ++ post).length = i + 1 + (pre ++ post).length := by
      rw [hl2]; omega
    rw [e1]
    rw [e2] at this ⊢
    rw [this]

theorem extents_absolute_at (cons : List Constraint) :
    ∀ (n i rem k : Nat) (c : Constraint), cons[k]? = some c →
      c.type = SizeType.SIZE_ABSOLUTE → (extents cons n i rem)[k]? = some 0 := by
  induction cons with
  | nil => intro n i rem k c hk _; exact Option.noConfusion hk
  | cons d rest ih =>
    intro n i rem k c hk hc
    cases k with
    | zero =>
      simp only [List.getElem?_cons_zero, Option.some.injEq] at hk
      simp only [extents, List.getElem?_cons_zero, Option.some.injEq]
      rw [hk]
      exact (child_extent_absolute c i n rem hc).1
    | succ k =>
      simp only [List.getElem?_cons_succ] at hk
      simp only [extents, List.getElem?_cons_succ]
      exact ih n (i + 1) _ k c hk hc

theorem origins_lt (es : List Nat) :
    ∀ (cur k a : Nat), cur < U32 → (origins es cur)[k]? = some a → a < U32 := by
  induction es with
  | nil => intro cur k a _ ha; exact Option.noConfusion ha
  | cons e rest ih =>
    intro cur k a hcur ha
    cases k with
    | zero =>
      simp only [origins, List.getElem?_cons_zero, Option.some.injEq] at ha
      omega
    | succ k =>
      simp only [origins, List.getElem?_cons_succ] at ha
      exact ih _ k a (add32_lt _ _) ha

theorem vrect_absolute_child (cs : List Widget) (n x y width rem k : Nat) (c : Widget)
    (hy : y < U32) (hk : cs[k]? = some c)
    (hc : c.height_constraint.type = SizeType.SIZE_ABSOLUTE) :
    ∃ r, (vrect_loop cs n 0 x width rem y)[k]? = some r ∧ r.h = 0 ∧
      ∀ q, (vrect_loop cs n 0 x width rem y)[k + 1]? = some q → q.y = r.y := by
  have hklt : k < cs.length := (List.getElem?_eq_some.mp hk).1
  have hlen := vrect_loop_length cs n 0 x width rem y
  obtain ⟨r, hr⟩ : ∃ r, (vrect_loop cs n 0 x width rem y)[k]? = some r :=
    ⟨_, List.getElem?_eq_getElem (by rw [hlen]; exact hklt)⟩
  have hrh := congrArg (Option.map Widget.h) hr
  have hry := congrArg (Option.map Widget.y) hr
  rw [← List.getElem?_map, vrect_loop_h] at hrh
  rw [← List.getElem?_map, vrect_loop_y] at hry
  have hzero := extents_absolute_at (cs.map Widget.height_constraint) n 0 rem k
    c.height_constraint (by rw [List.getElem?_map, hk]; rfl) hc
  have h0 : r.h = 0 := by
    rw [hzero] at hrh
    exact (Option.some.inj hrh).symm
  refine ⟨r, hr, h0, fun q hq => ?_⟩
  have hqy := congrArg (Option.map Widget.y) hq
  rw [← List.getElem?_map, vrect_loop_y] at hqy
  have key := origins_succ _ _ k _ _ _ hry hzero hqy
  have hlt := origins_lt _ _ k _ hy hry
  rw [key]
  exact add32_zero _ hlt

theorem hrect_absolute_child (cs : List Widget) (n x y height rem k : Nat) (c : Widget)
    (hx : x < U32) (hk : cs[k]? = some c)
    (hc : c.width_constraint.type = SizeType.SIZE_ABSOLUTE) :
    ∃ r, (hrect_loop cs n 0 y height rem x)[k]? = some r ∧ r.w = 0 ∧
      ∀ q, (hrect_loop cs n 0 y height rem x)[k + 1]? = some q → q.x = r.x := by
  have hklt : k < cs.length := (List.getElem?_eq_some.mp hk).1
  have hlen := hrect_loop_length cs n 0 y height rem x
  obtain ⟨r, hr⟩ : ∃ r, (hrect_loop cs n 0 y height rem x)[k]? = some r :=
    ⟨_, List.getElem?_eq_getElem (by rw [hlen]; exact hklt)⟩
  have hrw := congrArg (Option.map Widget.w) hr
  have hrx := congrArg (Option.map Widget.x) hr
  rw [← List.getElem?_map, hrect_loop_w] at hrw
  rw [← List.getElem?_map, hrect_loop_x] at hrx
  have hzero := extents_absolute_at (cs.map Widget.width_constraint) n 0 rem k
    c.width_constraint (by rw [List.getElem?_map, hk]; rfl) hc
  have h0 : r.w = 0 := by
    rw [hzero] at hrw
    exact (Option.some.inj hrw).symm
  refine ⟨r, hr, h0, fun q hq => ?_⟩
  have hqx := congrArg (Option.map Widget.x) hq
  rw [← List.getElem?_map, hrect_loop_x] at hqx
  have key := origins_succ _ _ k _ _ _ hrx hzero hqx
  have hlt := origins_lt _ _ k _ hx hrx
  rw [key]
  exact add32_zero _ hlt

/-! ## The text fields of the login form -/

namespace Cxx

theorem toNat_ofNat_printable (c : Nat) (h1 : 32 ≤ c) (h2 : c ≤ 126) :
    (Char.ofNat c).toNat = c := by
  have hv : c.isValidChar := Or.inl (by omega)
  rw [Char.ofNat, dif_pos hv]
  rfl

theorem pop_back_push (s : String) (ch : Char) : pop_back (s.push ch) = s := by
  unfold pop_back
  show (⟨(s.data ++ [ch]).dropLast⟩ : String) = s
  rw [List.dropLast_concat]

theorem field_ok_empty : field_ok "" :=
  ⟨Nat.zero_le _, fun ch hch => absurd hch (List.not_mem_nil ch)⟩

theorem edit_target_ok (s : String) (c : Nat) (h : field_ok s) : field_ok (edit_target s c) := by
  obtain ⟨hlen, hchars⟩ := h
  unfold edit_target
  by_cases h127 : c = 127
  · rw [if_pos h127]
    by_cases hne : s.length ≠ 0
    · rw [if_pos hne]
      refine ⟨?_, fun ch hch => hchars ch (List.mem_of_mem_dropLast hch)⟩
      show s.data.dropLast.length ≤ 24
      rw [List.length_dropLast]
      exact Nat.le_trans (Nat.sub_le _ _) hlen
    · rw [if_neg hne]
      exact ⟨hlen, hchars⟩
  · rw [if_neg h127]
    by_cases hp : s.length < 24 ∧ c ≥ 32 ∧ c ≤ 126
    · rw [if_pos hp]
      refine ⟨?_, fun ch hch => ?_⟩
      · rw [String.length_push]
        exact hp.1
      · have hmem : ch ∈ s.data ++ [Char.ofNat c] := hch
        rcases List.mem_append.mp hmem with hold | hnew
        · exact hchars ch hold
        · rw [List.mem_singleton.mp hnew, toNat_ofNat_printable c hp.2.1 hp.2.2]
          exact ⟨hp.2.1, hp.2.2⟩
    · rw [if_neg hp]
      exact ⟨hlen, hchars⟩

theorem handle_key_login (b : Rect) (u p : String) (tp : Bool) (c : Nat) :
    (Widget.LoginWidget b u p tp).handle_key c =
      if c = 13 ∨ c = 10 then Widget.LoginWidget b u p (!tp)
      else if tp then Widget.LoginWidget b u (edit_target p c) tp
      else Widget.LoginWidget b (edit_target u c) p tp := rfl

theorem handle_key_ok (w : Widget) (c : Nat)
    (h : field_ok w.username ∧ field_ok w.password) :
    field_ok (w.handle_key c).username ∧ field_ok (w.handle_key c).password := by
  cases w with
  | Label b text => exact h
  | Box b title => exact h
  | LoginWidget b username password typing_password =>
    rw [handle_key_login]
    by_cases hnl : c = 13 ∨ c = 10
    · rw [if_pos hnl]
      exact h
    · rw [if_neg hnl]
      cases typing_password with
      | true => exact ⟨h.1, edit_target_ok password c h.2⟩
      | false => exact ⟨edit_target_ok username c h.1, h.2⟩

theorem handle_keys_ok (keys : List Nat) :
    ∀ w : Widget, field_ok w.username ∧ field_ok w.password →
      field_ok (handle_keys w keys).username ∧ field_ok (handle_keys w keys).password := by
  induction keys with
  | nil => intro w h; exact h
  | cons c rest ih =>
    intro w h
    exact ih (w.handle_key c) (handle_key_ok w c h)

end Cxx

/-! ## The cells `draw_widget_border` writes -/

theorem exists_last_true {α : Type} (p : α → Bool) :
    ∀ l : List α, (∃ a ∈ l, p a = true) →
      ∃ before winner after, l = before ++ winner :: after ∧ p winner = true ∧
        ∀ c ∈ after, p c = false := by
  intro l
  induction l with
  | nil => rintro ⟨a, ha, _⟩; exact absurd ha (List.not_mem_nil a)
  | cons a rest ih =>
    intro h
    by_cases hrest : ∃ b ∈ rest, p b = true
    · obtain ⟨before, winner, after, hsplit, hw, hafter⟩ := ih hrest
      exact ⟨a :: before, winner, after, by rw [hsplit]; rfl, hw, hafter⟩
    · have hnone : ∀ c ∈ rest, p c = false := by
        intro c hc
        cases hpc : p c with
        | false => rfl
        | true => exact absurd ⟨c, hc, hpc⟩ hrest
      obtain ⟨b, hb, hpb⟩ := h
      rcases List.mem_cons.mp hb with rfl | hb
      · exact ⟨[], b, rest, rfl, hpb, hnone⟩
      · rw [hnone b hb] at hpb
        exact Bool.noConfusion hpb

/-! # Claims -/

/-! ## C1: primary-axis conservation -/

/-- C1, as stated, fails.  A vertical stack of height 10 whose children are
`FLEX(50)`, `FLEX(50)`, `FIXED(2)` (weights summing to 100) gets heights
4, 2, 2, which sum to 8: a trailing Fixed child absorbs nothing.  And a
vertical stack of height 10 with children `FIXED(20)`, `FLEX(100)` gets heights
20 and 4294967286: the Fixed size exceeds the parent and `remaining_h` wraps. -/
theorem primary_axis_conservation_counterexample :
    ((vstack [FLEX 50, FLEX 50, FIXED 2]).type = WidgetType.WIDGET_VRECT ∧
      (vstack [FLEX 50, FLEX 50, FIXED 2]).children.length = 3 ∧
      weight_total ((vstack [FLEX 50, FLEX 50, FIXED 2]).children.map
        Widget.height_constraint) ≤ 100 ∧
      (widget_compute_layout (vstack [FLEX 50, FLEX 50, FIXED 2]) 0 0 80 10).h = 10 ∧
      (widget_compute_layout (vstack [FLEX 50, FLEX 50, FIXED 2]) 0 0 80 10).children.map
        Widget.h = [4, 2, 2] ∧
      ((widget_compute_layout (vstack [FLEX 50, FLEX 50, FIXED 2]) 0 0 80 10).children.map
        Widget.h).sum ≠ 10) ∧
    ((widget_compute_layout (vstack [FIXED 20, FLEX 100]) 0 0 80 10).children.map
        Widget.h = [20, 4294967286] ∧
      ((widget_compute_layout (vstack [FIXED 20, FLEX 100]) 0 0 80 10).children.map
        Widget.h).sum ≠ 10) := by
  decide

/-- C1 (amended): in a vertical (resp. horizontal) stack whose last child is
Flex on the primary axis, whose Fixed heights (resp. widths) sum to at most the
parent's height (resp. width) and whose Flex weights are each at most 100, the
heights (resp. widths) assigned to the children by `widget_compute_layout` sum
to exactly the parent's height (resp. width). -/
theorem primary_axis_conservation (wd : Widget) (x y width height : Nat)
    (hw : width < U32) (hh : height < U32) :
    (wd.type = WidgetType.WIDGET_VRECT →
      wd.children.getLast?.map (fun c => c.height_constraint.type)
        = some SizeType.SIZE_FLEX →
      fixed_total (wd.children.map Widget.height_constraint) ≤ height →
      (∀ c ∈ wd.children, c.height_constraint.type = SizeType.SIZE_FLEX →
        c.height_constraint.value ≤ 100) →
      ((widget_compute_layout wd x y width height).children.map Widget.h).sum = height) ∧
    (wd.type = WidgetType.WIDGET_HRECT →
      wd.children.getLast?.map (fun c => c.width_constraint.type)
        = some SizeType.SIZE_FLEX →
      fixed_total (wd.children.map Widget.width_constraint) ≤ width →
      (∀ c ∈ wd.children, c.width_constraint.type = SizeType.SIZE_FLEX →
        c.width_constraint.value ≤ 100) →
      ((widget_compute_layout wd x y width height).children.map Widget.w).sum = width) := by
  constructor
  · intro ht hlast hfix hflex
    rw [layout_children_vrect wd x y width height ht]
    exact vrect_heights_sum wd.children x y width height hh hlast hfix hflex
  · intro ht hlast hfix hflex
    rw [layout_children_hrect wd x y width height ht]
    exact hrect_widths_sum wd.children x y width height hw hlast hfix hflex

/-- C1 (amended) at the trees of `main.c`: the base layout (header `FIXED(3)`,
body `FLEX(100)`) in 24 rows and the body (sidebar `FLEX(20)`, content
`FLEX(80)`) in 80 columns. -/
theorem primary_axis_conservation_witness :
    ((widget_compute_layout (vstack [FIXED 3, FLEX 100]) 0 0 80 24).children.map
        Widget.h).sum = 24 ∧
    ((widget_compute_layout (hstack [FLEX 20, FLEX 80]) 0 3 80 21).children.map
        Widget.w).sum = 80 :=
  ⟨(primary_axis_conservation (vstack [FIXED 3, FLEX 100]) 0 0 80 24
      (by decide) (by decide)).1 (by decide) (by decide) (by decide) (by decide),
    (primary_axis_conservation (hstack [FLEX 20, FLEX 80]) 0 3 80 21
      (by decide) (by decide)).2 (by decide) (by decide) (by decide) (by decide)⟩

/-! ## C2: flex distribution rule -/

/-- C2, as stated, fails.  In a vertical stack of height 10 with children
`FIXED(20)`, `FLEX(1)`, `FLEX(100)`, the parent's extent minus the Fixed sizes
minus the earlier Flex extents is 10 - 20 - 0 = -10 (0 with truncated
subtraction), whose product with the weight 1 is below `2 ^ 32`; the rule would
give the middle child -1 (or 0), and the code gives it 42949672, because
`remaining_h` wrapped to 4294967286. -/
theorem flex_distribution_rule_counterexample :
    (vstack [FIXED 20, FLEX 1, FLEX 100]).type = WidgetType.WIDGET_VRECT ∧
    (vstack [FIXED 20, FLEX 1, FLEX 100]).children.map Widget.height_constraint
      = [FIXED 20, FLEX 1, FLEX 100] ∧
    fixed_total ((vstack [FIXED 20, FLEX 1, FLEX 100]).children.map
      Widget.height_constraint) = 20 ∧
    flex_heights_before 1 (laid_out (vstack [FIXED 20, FLEX 1, FLEX 100]) 0 0 80 10) = 0 ∧
    ((10 : Int) - 20 - 0) * 1 < 4294967296 ∧
    (laid_out (vstack [FIXED 20, FLEX 1, FLEX 100]) 0 0 80 10).map Widget.h
      = [20, 42949672, 4252017614] ∧
    ((10 : Int) - 20 - 0) * 1 / 100 ≠ 42949672 ∧
    ((10 : Nat) - 20 - 0) * 1 / 100 ≠ 42949672 := by
  decide

/-- C2 (amended): in a vertical (resp. horizontal) stack, a Flex child of
weight `w` at index `k` that is not the last child is assigned
`remaining * w / 100` (truncating) on the primary axis whenever
`remaining * w < 2 ^ 32`, where `remaining` is the parent's extent minus the
sum of all Fixed sizes minus the extents already assigned to the earlier Flex
children, taken modulo `2 ^ 32`; that is the plain difference whenever the
Fixed sizes and the earlier Flex extents together do not exceed the parent's
extent.  A vertical stack of height 10 with Flex weights 33, 33, 34 gets the
heights 3, 2, 5. -/
theorem flex_distribution_rule :
    (∀ (wd : Widget) (x y width height k : Nat) (c : Widget),
      width < U32 → height < U32 →
      wd.children[k]? = some c → k + 1 < wd.children.length →
      (wd.type = WidgetType.WIDGET_VRECT →
        c.height_constraint.type = SizeType.SIZE_FLEX →
        remaining32 height (fixed_total (wd.children.map Widget.height_constraint))
          (flex_heights_before k (laid_out wd x y width height))
          * c.height_constraint.value < U32 →
        ((laid_out wd x y width height)[k]?).map Widget.h =
          some (remaining32 height (fixed_total (wd.children.map Widget.height_constraint))
            (flex_heights_before k (laid_out wd x y width height))
            * c.height_constraint.value / 100)) ∧
      (wd.type = WidgetType.WIDGET_HRECT →
        c.width_constraint.type = SizeType.SIZE_FLEX →
        remaining32 width (fixed_total (wd.children.map Widget.width_constraint))
          (flex_widths_before k (laid_out wd x y width height))
          * c.width_constraint.value < U32 →
        ((laid_out wd x y width height)[k]?).map Widget.w =
          some (remaining32 width (fixed_total (wd.children.map Widget.width_constraint))
            (flex_widths_before k (laid_out wd x y width height))
            * c.width_constraint.value / 100))) ∧
    (∀ extent fixed flex_before : Nat, extent < U32 → fixed + flex_before ≤ extent →
      remaining32 extent fixed flex_before = extent - fixed - flex_before) ∧
    (laid_out (vstack [FLEX 33, FLEX 33, FLEX 34]) 0 0 80 10).map Widget.h = [3, 2, 5] := by
  refine ⟨?_, remaining32_exact, by decide⟩
  intro wd x y width height k c hw hh hk hnl
  constructor
  · intro ht hc hmul
    unfold laid_out at hmul ⊢
    rw [layout_children_vrect wd x y width height ht] at hmul ⊢
    rw [vrect_flex_rule wd.children x y width height k c hh hk hnl hc]
    unfold mul32
    rw [Nat.mod_eq_of_lt hmul]
  · intro ht hc hmul
    unfold laid_out at hmul ⊢
    rw [layout_children_hrect wd x y width height ht] at hmul ⊢
    rw [hrect_flex_rule wd.children x y width height k c hw hk hnl hc]
    unfold mul32
    rw [Nat.mod_eq_of_lt hmul]

/-- C2 (amended) at the second child of the 33/33/34 stack of height 10 and at
the sidebar (`FLEX(20)`) of the body of `main.c` in 80 columns. -/
theorem flex_distribution_rule_witness :
    ((laid_out (vstack [FLEX 33, FLEX 33, FLEX 34]) 0 0 80 10)[1]?).map Widget.h = some 2 ∧
    ((laid_out (hstack [FLEX 20, FLEX 80]) 0 3 80 21)[0]?).map Widget.w = some 16 :=
  ⟨((flex_distribution_rule.1 (vstack [FLEX 33, FLEX 33, FLEX 34]) 0 0 80 10 1
      (leaf (FLEX 100) (FLEX 33)) (by decide) (by decide) rfl (by decide)).1
      (by decide) (by decide) (by decide)).trans (by decide),
    ((flex_distribution_rule.1 (hstack [FLEX 20, FLEX 80]) 0 3 80 21 0
      (leaf (FLEX 20) (FLEX 100)) (by decide) (by decide) rfl (by decide)).2
      (by decide) (by decide) (by decide)).trans (by decide)⟩

/-! ## C3: cross-axis fill -/

/-- C3: after `widget_compute_layout`, a vertical stack has as many children as
before and each of them has the parent's `x` and the parent's full width; a
horizontal stack has as many children as before and each of them has the
parent's `y` and the parent's full height.  Nothing is assumed about the
children's own constraints. -/
theorem cross_axis_fill (wd : Widget) (x y width height : Nat) :
    (wd.type = WidgetType.WIDGET_VRECT →
      (widget_compute_layout wd x y width height).children.length = wd.children.length ∧
      ∀ c ∈ (widget_compute_layout wd x y width height).children,
        c.x = (widget_compute_layout wd x y width height).x ∧
        c.w = (widget_compute_layout wd x y width height).w) ∧
    (wd.type = WidgetType.WIDGET_HRECT →
      (widget_compute_layout wd x y width height).children.length = wd.children.length ∧
      ∀ c ∈ (widget_compute_layout wd x y width height).children,
        c.y = (widget_compute_layout wd x y width height).y ∧
        c.h = (widget_compute_layout wd x y width height).h) := by
  constructor
  · intro ht
    rw [layout_children_vrect wd x y width height ht, layout_x, layout_w]
    exact ⟨vrect_loop_length _ _ _ _ _ _ _, vrect_loop_cross _ _ _ _ _ _ _⟩
  · intro ht
    rw [layout_children_hrect wd x y width height ht, layout_y, layout_h]
    exact ⟨hrect_loop_length _ _ _ _ _ _ _, hrect_loop_cross _ _ _ _ _ _ _⟩

/-- C3 at concrete stacks whose children carry Fixed, Flex and Absolute
cross-axis constraints. -/
theorem cross_axis_fill_witness :
    (∀ c ∈ (widget_compute_layout mixed_vstack 5 2 80 24).children,
      c.x = (widget_compute_layout mixed_vstack 5 2 80 24).x ∧
      c.w = (widget_compute_layout mixed_vstack 5 2 80 24).w) ∧
    (∀ c ∈ (widget_compute_layout mixed_hstack 5 2 80 24).children,
      c.y = (widget_compute_layout mixed_hstack 5 2 80 24).y ∧
      c.h = (widget_compute_layout mixed_hstack 5 2 80 24).h) :=
  ⟨((cross_axis_fill mixed_vstack 5 2 80 24).1 rfl).2,
    ((cross_axis_fill mixed_hstack 5 2 80 24).2 rfl).2⟩

/-! ## C4: sequential placement -/

/-- C4, as stated, fails.  In a vertical stack at `y = 0` with children
`FIXED(4294967295)`, `FIXED(2)`, `FIXED(0)` the children get `y` = 0,
4294967295, 1: the third child's `y` is not the second child's `y` plus its
height, because `current_y` wrapped. -/
theorem sequential_placement_counterexample :
    (laid_out (vstack [FIXED 4294967295, FIXED 2, FIXED 0]) 0 0 80 10).map Widget.y
      = [0, 4294967295, 1] ∧
    (laid_out (vstack [FIXED 4294967295, FIXED 2, FIXED 0]) 0 0 80 10).map Widget.h
      = [4294967295, 2, 0] ∧
    (1 : Nat) ≠ 4294967295 + 2 := by
  decide

/-- C4 (amended): in a vertical (resp. horizontal) stack the first child's `y`
(resp. `x`) is the parent's, and each later child's `y` (resp. `x`) is the
previous child's `y` plus its assigned height (resp. `x` plus width) in 32-bit
arithmetic, that is reduced modulo `2 ^ 32`; it is the plain sum, so that the
two children neither overlap nor leave a gap, whenever that sum is below
`2 ^ 32`. -/
theorem sequential_placement (wd : Widget) (x y width height : Nat) :
    (wd.type = WidgetType.WIDGET_VRECT →
      (∀ c, (laid_out wd x y width height)[0]? = some c →
        c.y = (widget_compute_layout wd x y width height).y) ∧
      (∀ k p c, (laid_out wd x y width height)[k]? = some p →
        (laid_out wd x y width height)[k + 1]? = some c →
        c.y = (p.y + p.h) % U32 ∧ (p.y + p.h < U32 → c.y = p.y + p.h))) ∧
    (wd.type = WidgetType.WIDGET_HRECT →
      (∀ c, (laid_out wd x y width height)[0]? = some c →
        c.x = (widget_compute_layout wd x y width height).x) ∧
      (∀ k p c, (laid_out wd x y width height)[k]? = some p →
        (laid_out wd x y width height)[k + 1]? = some c →
        c.x = (p.x + p.w) % U32 ∧ (p.x + p.w < U32 → c.x = p.x + p.w))) := by
  constructor
  · intro ht
    unfold laid_out
    rw [layout_children_vrect wd x y width height ht, layout_y]
    constructor
    · intro c hc
      have h0 := congrArg (Option.map Widget.y) hc
      rw [← List.getElem?_map, vrect_loop_y] at h0
      exact origins_head _ _ _ h0
    · intro k p c hp hc
      have hpy := congrArg (Option.map Widget.y) hp
      have hph := congrArg (Option.map Widget.h) hp
      have hcy := congrArg (Option.map Widget.y) hc
      rw [← List.getElem?_map, vrect_loop_y] at hpy hcy
      rw [← List.getElem?_map, vrect_loop_h] at hph
      have key : c.y = add32 p.y p.h := origins_succ _ _ k _ _ _ hpy hph hcy
      refine ⟨key, fun hlt => ?_⟩
      rw [key, add32, Nat.mod_eq_of_lt hlt]
  · intro ht
    unfold laid_out
    rw [layout_children_hrect wd x y width height ht, layout_x]
    constructor
    · intro c hc
      have h0 := congrArg (Option.map Widget.x) hc
      rw [← List.getElem?_map, hrect_loop_x] at h0
      exact origins_head _ _ _ h0
    · intro k p c hp hc
      have hpx := congrArg (Option.map Widget.x) hp
      have hpw := congrArg (Option.map Widget.w) hp
      have hcx := congrArg (Option.map Widget.x) hc
      rw [← List.getElem?_map, hrect_loop_x] at hpx hcx
      rw [← List.getElem?_map, hrect_loop_w] at hpw
      have key : c.x = add32 p.x p.w := origins_succ _ _ k _ _ _ hpx hpw hcx
      refine ⟨key, fun hlt => ?_⟩
      rw [key, add32, Nat.mod_eq_of_lt hlt]

/-- C4 (amended) at the trees of `main.c`: the body starts right below the
three-row header, and the content right after the 16-column sidebar. -/
theorem sequential_placement_witness :
    (laid_out (vstack [FIXED 3, FLEX 100]) 0 0 80 24).map Widget.y = [0, 3] ∧
    (laid_out (hstack [FLEX 20, FLEX 80]) 0 3 80 21).map Widget.x = [0, 16] ∧
    (∀ k p c, (laid_out (vstack [FIXED 3, FLEX 100]) 0 0 80 24)[k]? = some p →
      (laid_out (vstack [FIXED 3, FLEX 100]) 0 0 80 24)[k + 1]? = some c →
      c.y = (p.y + p.h) % U32 ∧ (p.y + p.h < U32 → c.y = p.y + p.h)) :=
  ⟨by decide, by decide,
    ((sequential_placement (vstack [FIXED 3, FLEX 100]) 0 0 80 24).1 rfl).2⟩

/-! ## C5: overlay centering -/

/-- C5, as stated, fails.  An overlay stack laid out in the rectangle
(4294967295, 0, 2, 2) gives its `ABSOLUTE(0)` x `ABSOLUTE(0)` child the
rectangle (0, 1, 0, 0), not (4294967295 + (2 - 0) / 2, 0 + (2 - 0) / 2, 0, 0):
`center_x` wrapped.  Such a rectangle arises from the terminal rectangle
(0, 0, 80, 24): below a leaf of height `FIXED(4294967295)` the overlay stack is
laid out in (0, 4294967295, 80, 25), and its child gets `y = 11`, not
4294967295 + (25 - 0) / 2. -/
theorem overlay_centering_counterexample :
    (overlay [leaf (ABSOLUTE 0) (ABSOLUTE 0)]).type = WidgetType.WIDGET_STACK ∧
    (laid_out (overlay [leaf (ABSOLUTE 0) (ABSOLUTE 0)]) 4294967295 0 2 2).map Widget.rect
      = [(0, 1, 0, 0)] ∧
    ((0, 1, 0, 0) : Nat × Nat × Nat × Nat)
      ≠ (4294967295 + (2 - 0) / 2, 0 + (2 - 0) / 2, 0, 0) ∧
    (laid_out tall_then_overlay 0 0 80 24).map Widget.rect
      = [(0, 0, 80, 4294967295), (0, 4294967295, 80, 25)] ∧
    (laid_out tall_then_overlay 0 0 80 24).map (fun c => c.children.map Widget.rect)
      = [[], [(40, 11, 0, 0)]] ∧
    ((40, 11, 0, 0) : Nat × Nat × Nat × Nat)
      ≠ (0 + (80 - 0) / 2, 4294967295 + (25 - 0) / 2, 0, 0) := by
  decide

/-- C5 (amended): an overlay stack laid out in the rectangle `(x, y, W, H)`
gives a child whose width and height constraints are both Absolute, with values
`cw ≤ W` and `ch ≤ H`, the rectangle
`((x + (W - cw) / 2) mod 2 ^ 32, (y + (H - ch) / 2) mod 2 ^ 32, cw, ch)`, the
division truncating; that is `(x + (W - cw) / 2, y + (H - ch) / 2, cw, ch)`
whenever both origins are below `2 ^ 32`.  The 40 x 15 modal of `main.c` in a
100 x 40 parent at (0, 0) gets (30, 12, 40, 15). -/
theorem overlay_centering :
    (∀ (wd : Widget) (x y W H k : Nat) (c : Widget), W < U32 → H < U32 →
      wd.type = WidgetType.WIDGET_STACK → wd.children[k]? = some c →
      c.width_constraint.type = SizeType.SIZE_ABSOLUTE →
      c.height_constraint.type = SizeType.SIZE_ABSOLUTE →
      c.width_constraint.value ≤ W → c.height_constraint.value ≤ H →
      ((laid_out wd x y W H)[k]?).map Widget.rect =
        some ((x + (W - c.width_constraint.value) / 2) % U32,
          (y + (H - c.height_constraint.value) / 2) % U32,
          c.width_constraint.value, c.height_constraint.value) ∧
      (x + (W - c.width_constraint.value) / 2 < U32 →
        y + (H - c.height_constraint.value) / 2 < U32 →
        ((laid_out wd x y W H)[k]?).map Widget.rect =
          some (x + (W - c.width_constraint.value) / 2,
            y + (H - c.height_constraint.value) / 2,
            c.width_constraint.value, c.height_constraint.value))) ∧
    ((laid_out main_tree 0 0 100 40)[1]?).map Widget.rect = some (30, 12, 40, 15) := by
  refine ⟨?_, by decide⟩
  intro wd x y W H k c hW hH ht hk hcw hch hwle hhle
  have hsw : sub32 W c.width_constraint.value = W - c.width_constraint.value := by
    unfold sub32 U32 at *; omega
  have hsh : sub32 H c.height_constraint.value = H - c.height_constraint.value := by
    unfold sub32 U32 at *; omega
  have key : ((laid_out wd x y W H)[k]?).map Widget.rect =
      some ((x + (W - c.width_constraint.value) / 2) % U32,
        (y + (H - c.height_constraint.value) / 2) % U32,
        c.width_constraint.value, c.height_constraint.value) := by
    unfold laid_out
    rw [layout_children_stack wd x y W H ht, stack_loop_getElem? _ _ _ _ _ k c hk,
      if_pos ⟨hcw, hch⟩, Option.map_some', layout_rect, hsw, hsh]
    rfl
  refine ⟨key, fun hx hy => ?_⟩
  rw [key, Nat.mod_eq_of_lt hx, Nat.mod_eq_of_lt hy]

/-- C5 (amended) at the modal of `main.c` on an 80 x 24 terminal. -/
theorem overlay_centering_witness :
    ((laid_out main_tree 0 0 80 24)[1]?).map Widget.rect = some (20, 4, 40, 15) :=
  ((overlay_centering.1 main_tree 0 0 80 24 1 (leaf (ABSOLUTE 40) (ABSOLUTE 15))
    (by decide) (by decide) rfl rfl rfl rfl (by decide) (by decide)).2
    (by decide) (by decide)).trans (by decide)

/-! ## C6: overlay oversize clamp -/

/-- C6 fails on the code: an overlay stack laid out in (0, 0, 10, 10) places its
`ABSOLUTE(20)` x `ABSOLUTE(5)` child, wider than the parent, at
`x = 2147483643` instead of the parent's `x = 0`, and its `ABSOLUTE(5)` x
`ABSOLUTE(20)` child, taller than the parent, at `y = 2147483643` instead of the
parent's `y = 0`; the unsigned `width - child_w` wraps.  The centring in
`main.cpp` guards the same subtraction and yields offset 0. -/
theorem overlay_oversize_not_clamped :
    (laid_out (overlay [leaf (ABSOLUTE 20) (ABSOLUTE 5)]) 0 0 10 10).map Widget.rect
      = [(2147483643, 2, 20, 5)] ∧
    (laid_out (overlay [leaf (ABSOLUTE 5) (ABSOLUTE 20)]) 0 0 10 10).map Widget.rect
      = [(2, 2147483643, 5, 20)] ∧
    (widget_compute_layout (overlay [leaf (ABSOLUTE 20) (ABSOLUTE 5)]) 0 0 10 10).rect
      = (0, 0, 10, 10) ∧
    Cxx.center_pad 10 20 = 0 := by
  decide

/-! ## C7: overlay layering geometry -/

/-- C7: an overlay stack laid out in the rectangle `R = (x, y, W, H)` gives
every child that does not have both its width and its height constraint
Absolute exactly the parent's rectangle `R`, at every position `k` and for
every constraint value. -/
theorem overlay_layering (wd : Widget) (x y W H k : Nat) (c : Widget)
    (ht : wd.type = WidgetType.WIDGET_STACK) (hk : wd.children[k]? = some c)
    (hc : ¬ (c.width_constraint.type = SizeType.SIZE_ABSOLUTE ∧
      c.height_constraint.type = SizeType.SIZE_ABSOLUTE)) :
    ((laid_out wd x y W H)[k]?).map Widget.rect = some (x, y, W, H) ∧
    (widget_compute_layout wd x y W H).rect = (x, y, W, H) := by
  refine ⟨?_, layout_rect wd x y W H⟩
  unfold laid_out
  rw [layout_children_stack wd x y W H ht, stack_loop_getElem? _ _ _ _ _ k c hk,
    if_neg hc, Option.map_some', layout_rect]

/-- C7 at an overlay stack whose third child has exactly one Absolute axis. -/
theorem overlay_layering_witness :
    ((laid_out (overlay [leaf (ABSOLUTE 40) (ABSOLUTE 15), leaf (FLEX 10) (FIXED 3),
        leaf (ABSOLUTE 40) (FLEX 100)]) 3 4 100 40)[2]?).map Widget.rect
      = some (3, 4, 100, 40) :=
  (overlay_layering (overlay [leaf (ABSOLUTE 40) (ABSOLUTE 15), leaf (FLEX 10) (FIXED 3),
    leaf (ABSOLUTE 40) (FLEX 100)]) 3 4 100 40 2 (leaf (ABSOLUTE 40) (FLEX 100))
    rfl rfl (by decide)).1

/-! ## C8: idempotent layout -/

/-- C8, as stated, fails in its second half.  Two `WIDGET_BOX` nodes with one
child each, equal in kinds, constraints and child order, whose children hold
the stored rectangles (0, 0, 0, 0) and (5, 5, 5, 5): after
`widget_compute_layout` in (0, 0, 80, 24) the two children still hold
(0, 0, 0, 0) and (5, 5, 5, 5), since the children of a `WIDGET_BOX` are not
visited. -/
theorem idempotent_layout_counterexample :
    clear_rects (box_with_child (leaf (FLEX 100) (FLEX 100))) =
      clear_rects (box_with_child
        (widget_compute_layout (leaf (FLEX 100) (FLEX 100)) 5 5 5 5)) ∧
    (laid_out (box_with_child (leaf (FLEX 100) (FLEX 100))) 0 0 80 24).map Widget.rect
      = [(0, 0, 0, 0)] ∧
    (laid_out (box_with_child (widget_compute_layout (leaf (FLEX 100) (FLEX 100)) 5 5 5 5))
      0 0 80 24).map Widget.rect = [(5, 5, 5, 5)] ∧
    widget_compute_layout (box_with_child (leaf (FLEX 100) (FLEX 100))) 0 0 80 24 ≠
      widget_compute_layout (box_with_child
        (widget_compute_layout (leaf (FLEX 100) (FLEX 100)) 5 5 5 5)) 0 0 80 24 := by
  refine ⟨rfl, by decide, by decide, ?_⟩
  intro h
  have h2 := congrArg (fun t => t.children.map Widget.rect) h
  revert h2
  decide

/-- C8 (amended): running `widget_compute_layout` a second time with the same
rectangle returns the tree the first run produced, for every tree and every
rectangle.  The result depends only on the kinds, constraints, borders and
child order, on the input rectangle, and on what is stored below a
`WIDGET_BOX` node, which the layout never visits: two trees with the same
`skeleton` are laid out identically, and so are two trees that differ only in
their stored rectangles when every `WIDGET_BOX` node is childless. -/
theorem idempotent_layout :
    (∀ (wd : Widget) (x y width height : Nat),
      widget_compute_layout (widget_compute_layout wd x y width height) x y width height =
        widget_compute_layout wd x y width height) ∧
    (∀ (t1 t2 : Widget) (x y width height : Nat), skeleton t1 = skeleton t2 →
      widget_compute_layout t1 x y width height =
        widget_compute_layout t2 x y width height) ∧
    (∀ (t1 t2 : Widget) (x y width height : Nat), boxes_childless t1 = true →
      clear_rects t1 = clear_rects t2 →
      widget_compute_layout t1 x y width height =
        widget_compute_layout t2 x y width height) :=
  ⟨layout_idempotent, layout_of_skeleton_eq, layout_of_clear_rects_eq⟩

/-- C8 (amended) at the tree of `main.c`: laid out in (0, 0, 80, 24) after a
first layout in (1, 2, 30, 40), it holds the rectangles a fresh tree gets. -/
theorem idempotent_layout_witness :
    widget_compute_layout (widget_compute_layout main_tree 1 2 30 40) 0 0 80 24 =
      widget_compute_layout main_tree 0 0 80 24 :=
  idempotent_layout.2.2 (widget_compute_layout main_tree 1 2 30 40) main_tree 0 0 80 24
    (by decide) rfl

/-! ## C9: diff minimality, unchanged frame -/

/-- C9: for every back buffer and front buffer of the same length, a
`tui_render` that directly follows a `tui_render` of the same back buffer
writes nothing; and for every `term` and `prev_term`, the diff of `App::draw`
run a second time on the same `term` writes nothing: no cursor-position
escape, no style escape, no glyph. -/
theorem diff_minimality_unchanged :
    (∀ tui : Tui, tui.front_buffer.length = tui.terminal.length →
      (tui_render (tui_render tui).1).2 = []) ∧
    (∀ app : Cxx.App, (Cxx.draw_diff (Cxx.draw_diff app).1).2 = []) :=
  ⟨tui_render_twice_silent, Cxx.draw_diff_twice_silent⟩

/-- C9 at a freshly initialised 2 x 1 terminal: the first render writes, the
second does not. -/
theorem diff_minimality_unchanged_witness :
    (tui_render tui_fresh_bold).2 ≠ [] ∧
    (tui_render (tui_render tui_fresh_bold).1).2 = [] ∧
    (Cxx.draw_diff (Cxx.draw_diff Cxx.app_one_change).1).2 = [] :=
  ⟨by decide, diff_minimality_unchanged.1 tui_fresh_bold rfl,
    diff_minimality_unchanged.2 Cxx.app_one_change⟩

/-! ## C10: diff minimality, single change -/

/-- C11: after `tui_render` the front buffer equals the back buffer cell for
cell, and after the diff of `App::draw` `prev_term` equals `term` (the buffers
having the length of the screen); when the two buffers are already equal the
render writes nothing and leaves the previous buffer as it was, so the
previous buffer is changed only if at least one cell differed. -/
theorem diff_commit :
    (∀ tui : Tui, tui.terminal.length = tui.width * tui.height →
      tui.front_buffer.length = tui.width * tui.height →
      tui.width * tui.height < U32 →
      (tui_render tui).1.front_buffer = tui.terminal) ∧
    (∀ tui : Tui, tui.terminal = tui.front_buffer →
      (tui_render tui).2 = [] ∧ (tui_render tui).1.front_buffer = tui.front_buffer) ∧
    (∀ app : Cxx.App, app.prev_term.length = app.term.length →
      (Cxx.draw_diff app).1.prev_term = app.term) ∧
    (∀ app : Cxx.App, app.term = app.prev_term →
      (Cxx.draw_diff app).2 = [] ∧ (Cxx.draw_diff app).1.prev_term = app.prev_term) := by
  refine ⟨tui_render_commits, ?_, Cxx.draw_diff_commits, ?_⟩
  · intro tui h
    obtain ⟨h1, h2⟩ := tui_render_unchanged tui h
    exact ⟨h1, by rw [h2]⟩
  · intro app h
    obtain ⟨h1, h2⟩ := Cxx.draw_diff_unchanged app h
    exact ⟨h1, by rw [h2]⟩

/-- C11 at a freshly initialised 2 x 1 terminal and at 2 x 2 buffers of
`App` that differ in one cell: the render commits the painted buffer, and a
render of equal buffers writes nothing. -/
theorem diff_commit_witness :
    (tui_render tui_fresh_bold).1.front_buffer = tui_fresh_bold.terminal ∧
    (tui_render tui_blank).2 = [] ∧
    (Cxx.draw_diff Cxx.app_one_change).1.prev_term = Cxx.app_one_change.term ∧
    (Cxx.draw_diff Cxx.app_small_clip).2 = [] :=
  ⟨diff_commit.1 tui_fresh_bold rfl rfl (by decide),
    (diff_commit.2.1 tui_blank rfl).1,
    diff_commit.2.2.1 Cxx.app_one_change rfl,
    (diff_commit.2.2.2 Cxx.app_small_clip rfl).1⟩

/-! ## C12: clip enforcement -/

/-- C12: a `set_cell(x, y, symbol, style)` with `x >= cols`, `y >= lines`, or
`(x, y)` outside the clip rectangle `[clip.x, clip.x + clip.width) x
[clip.y, clip.y + clip.height)` returns the `App` unchanged, whether or not
the two sums wrap in 32 bits; a `map_cell_at` with `x >= width` or
`y >= height` returns the `Tui` unchanged. -/
theorem clip_enforcement :
    (∀ (app : Cxx.App) (x y : Nat) (symbol : List Nat) (style : Style),
      (x ≥ app.cols ∨ y ≥ app.lines ∨ x < app.clip_rect.x ∨
        x ≥ app.clip_rect.x + app.clip_rect.width ∨ y < app.clip_rect.y ∨
        y ≥ app.clip_rect.y + app.clip_rect.height) →
      Cxx.set_cell app x y symbol style = app) ∧
    (∀ (tui : Tui) (cell : Cell) (x y : Nat), (x ≥ tui.width ∨ y ≥ tui.height) →
      map_cell_at tui cell x y = tui) :=
  ⟨Cxx.set_cell_outside, map_cell_at_outside⟩

/-- C12 at a write left of a clip rectangle whose right edge wraps, at a
write below a small clip rectangle, and at a write right of the buffer. -/
theorem clip_enforcement_witness :
    Cxx.set_cell Cxx.app_wrapped_clip 0 0 (Cxx.utf8 "A") Style.BOLD = Cxx.app_wrapped_clip ∧
    Cxx.set_cell Cxx.app_small_clip 3 1 (Cxx.utf8 "A") Style.BOLD = Cxx.app_small_clip ∧
    map_cell_at tui_blank ⟨65, Color.DEFAULT, Color.DEFAULT, Style.BOLD⟩ 3 0 = tui_blank :=
  ⟨clip_enforcement.1 Cxx.app_wrapped_clip 0 0 (Cxx.utf8 "A") Style.BOLD (by decide),
    clip_enforcement.1 Cxx.app_small_clip 3 1 (Cxx.utf8 "A") Style.BOLD (by decide),
    clip_enforcement.2 tui_blank _ 3 0 (by decide)⟩

/-! ## C20: cell write frame -/

/-- C20, as stated, fails.  On a 4 x 1 buffer with the clip rectangle
`{x: 1, y: 0, width: 4294967295, height: 1}`, the write `set_cell(2, 0, "A",
BOLD)` has `x < cols`, `y < lines` and `(2, 0)` inside the clip rectangle
(`1 <= 2 < 1 + 4294967295`), yet the buffer is unchanged and still holds a
blank at index 2: `clip.x + clip.width` wrapped to 0. -/
theorem cell_write_frame_counterexample :
    2 < Cxx.app_wrapped_clip.cols ∧ 0 < Cxx.app_wrapped_clip.lines ∧
    Cxx.app_wrapped_clip.clip_rect.x ≤ 2 ∧
    2 < Cxx.app_wrapped_clip.clip_rect.x + Cxx.app_wrapped_clip.clip_rect.width ∧
    Cxx.app_wrapped_clip.clip_rect.y ≤ 0 ∧
    0 < Cxx.app_wrapped_clip.clip_rect.y + Cxx.app_wrapped_clip.clip_rect.height ∧
    (Cxx.set_cell Cxx.app_wrapped_clip 2 0 (Cxx.utf8 "A") Style.BOLD).term[0 * 4 + 2]?
      = some Cxx.blank_cell ∧
    Cxx.blank_cell.symbol ≠ Cxx.utf8 "A" := by
  decide

/-- C20 (amended): on an `App` whose `term` has length `cols * lines < 2 ^ 32`,
a `set_cell(x, y, symbol, style)` with `x < cols`, `y < lines` and `(x, y)`
inside a clip rectangle whose `clip.x + clip.width` and `clip.y + clip.height`
do not wrap leaves in `term` the given symbol and style at index
`y * cols + x`, every other cell unchanged, and the length unchanged.  On a
`Tui` whose back buffer has length `width * height < 2 ^ 32`, a `map_cell_at`
with `x < width` and `y < height` leaves the given cell at index
`y * width + x`, every other cell unchanged, and the length unchanged. -/
theorem cell_write_frame :
    (∀ (app : Cxx.App) (x y : Nat) (symbol : List Nat) (style : Style),
      app.term.length = app.cols * app.lines → app.cols * app.lines < U32 →
      x < app.cols → y < app.lines →
      app.clip_rect.x ≤ x → x < app.clip_rect.x + app.clip_rect.width →
      app.clip_rect.y ≤ y → y < app.clip_rect.y + app.clip_rect.height →
      app.clip_rect.x + app.clip_rect.width < U32 →
      app.clip_rect.y + app.clip_rect.height < U32 →
      ((Cxx.set_cell app x y symbol style).term[y * app.cols + x]?).map
          (fun c => (c.symbol, c.style)) = some (symbol, style) ∧
        (∀ j, j ≠ y * app.cols + x →
          (Cxx.set_cell app x y symbol style).term[j]? = app.term[j]?) ∧
        (Cxx.set_cell app x y symbol style).term.length = app.cols * app.lines) ∧
    (∀ (tui : Tui) (cell : Cell) (x y : Nat),
      tui.terminal.length = tui.width * tui.height → tui.width * tui.height < U32 →
      x < tui.width → y < tui.height →
      (map_cell_at tui cell x y).terminal[y * tui.width + x]? = some cell ∧
        (∀ j, j ≠ y * tui.width + x →
          (map_cell_at tui cell x y).terminal[j]? = tui.terminal[j]?) ∧
        (map_cell_at tui cell x y).terminal.length = tui.width * tui.height) := by
  constructor
  · intro app x y symbol style hlen hsz hx hy hcx hcx2 hcy hcy2 hwx hwy
    obtain ⟨heq, hlt⟩ :=
      Cxx.set_cell_inside app x y symbol style hsz hx hy hcx hcx2 hcy hcy2 hwx hwy
    rw [heq]
    obtain ⟨h1, h2, h3⟩ := getElem?_set_cell app.term (y * app.cols + x)
      { app.term.getD (y * app.cols + x) Cxx.blank_cell with
        symbol := symbol
        style := style } (by omega)
    refine ⟨?_, h2, by rw [← hlen]; exact h3⟩
    simp only [h1, Option.map_some']
  · intro tui cell x y hlen hsz hx hy
    obtain ⟨heq, hlt, _⟩ := map_cell_at_inside tui cell x y hlen hsz hx hy
    rw [heq]
    obtain ⟨h1, h2, h3⟩ := getElem?_set_cell tui.terminal (y * tui.width + x) cell hlt
    exact ⟨h1, h2, by rw [← hlen]; exact h3⟩

/-- C20 (amended) at the write of a bold `A` at (2, 1) of a 4 x 2 `App`
clipped to columns 1 and 2, and at (2, 1) of a 3 x 2 `Tui`. -/
theorem cell_write_frame_witness :
    ((Cxx.set_cell Cxx.app_small_clip 2 1 (Cxx.utf8 "A") Style.BOLD).term[1 * 4 + 2]?).map
        (fun c => (c.symbol, c.style)) = some (Cxx.utf8 "A", Style.BOLD) ∧
    (map_cell_at tui_blank ⟨65, Color.DEFAULT, Color.DEFAULT, Style.BOLD⟩ 2 1).terminal[
        1 * 3 + 2]? = some ⟨65, Color.DEFAULT, Color.DEFAULT, Style.BOLD⟩ :=
  ⟨(cell_write_frame.1 Cxx.app_small_clip 2 1 (Cxx.utf8 "A") Style.BOLD rfl (by decide) (by decide)
      (by decide) (by decide) (by decide) (by decide) (by decide) (by decide)
      (by decide)).1,
    (cell_write_frame.2 tui_blank ⟨65, Color.DEFAULT, Color.DEFAULT, Style.BOLD⟩ 2 1 rfl
      (by decide) (by decide) (by decide)).1⟩

/-! ## C16: the last Flex child absorbs the remainder -/

/-- C16: in a vertical (resp. horizontal) stack whose last child is Flex,
whose Fixed heights (resp. widths) sum to at most the parent's height (resp.
width) and whose Flex children other than the last have weights at most 100,
the last child is assigned the parent's extent minus the sum of the extents
assigned to the earlier children, that sum being at most the parent's extent,
whatever the last child's weight; and no `remaining -= ...` of either loop
wraps. -/
theorem last_flex_absorbs (wd : Widget) (x y width height : Nat)
    (hw : width < U32) (hh : height < U32) :
    (wd.type = WidgetType.WIDGET_VRECT →
      wd.children.getLast?.map (fun c => c.height_constraint.type)
        = some SizeType.SIZE_FLEX →
      fixed_total (wd.children.map Widget.height_constraint) ≤ height →
      (∀ c ∈ wd.children.dropLast, c.height_constraint.type = SizeType.SIZE_FLEX →
        c.height_constraint.value ≤ 100) →
      ∃ last, (laid_out wd x y width height).getLast? = some last ∧
        ((laid_out wd x y width height).dropLast.map Widget.h).sum ≤ height ∧
        last.h = height - ((laid_out wd x y width height).dropLast.map Widget.h).sum ∧
        deduct_no_wrap (wd.children.map Widget.height_constraint) height ∧
        distribute_no_wrap (wd.children.map Widget.height_constraint)
          wd.children.length 0 (deduct_fixed_heights wd.children height)) ∧
    (wd.type = WidgetType.WIDGET_HRECT →
      wd.children.getLast?.map (fun c => c.width_constraint.type)
        = some SizeType.SIZE_FLEX →
      fixed_total (wd.children.map Widget.width_constraint) ≤ width →
      (∀ c ∈ wd.children.dropLast, c.width_constraint.type = SizeType.SIZE_FLEX →
        c.width_constraint.value ≤ 100) →
      ∃ last, (laid_out wd x y width height).getLast? = some last ∧
        ((laid_out wd x y width height).dropLast.map Widget.w).sum ≤ width ∧
        last.w = width - ((laid_out wd x y width height).dropLast.map Widget.w).sum ∧
        deduct_no_wrap (wd.children.map Widget.width_constraint) width ∧
        distribute_no_wrap (wd.children.map Widget.width_constraint)
          wd.children.length 0 (deduct_fixed_widths wd.children width)) := by
  constructor
  · intro ht hlast hfix hflex
    have hlast' : (wd.children.map Widget.height_constraint).getLast?.map Constraint.type
        = some SizeType.SIZE_FLEX := by
      rw [List.getLast?_map, Option.map_map]; exact hlast
    have hflex' : ∀ c ∈ (wd.children.map Widget.height_constraint).dropLast,
        c.type = SizeType.SIZE_FLEX → c.value ≤ 100 := by
      intro c hc
      rw [← List.map_dropLast] at hc
      obtain ⟨c0, hc0, rfl⟩ := List.mem_map.mp hc
      exact hflex c0 hc0
    obtain ⟨e, he1, he2, he3, he4⟩ :=
      last_extent (wd.children.map Widget.height_constraint) height
        (deduct_fixed_heights wd.children height) hh
        (deduct_fixed_heights_eq wd.children height hh hfix) hfix hlast' hflex'
    rw [List.length_map] at he1 he2 he3 he4
    unfold laid_out
    rw [layout_children_vrect wd x y width height ht, List.map_dropLast, vrect_loop_h]
    have hl := congrArg List.getLast? (vrect_loop_h wd.children wd.children.length 0 x width
      (deduct_fixed_heights wd.children height) y)
    rw [List.getLast?_map, he1] at hl
    obtain ⟨last, hlast1, hlast2⟩ := Option.map_eq_some'.mp hl
    exact ⟨last, hlast1, he2, by rw [hlast2]; exact he3,
      deduct_no_wrap_of_le _ height hh hfix, he4⟩
  · intro ht hlast hfix hflex
    have hlast' : (wd.children.map Widget.width_constraint).getLast?.map Constraint.type
        = some SizeType.SIZE_FLEX := by
      rw [List.getLast?_map, Option.map_map]; exact hlast
    have hflex' : ∀ c ∈ (wd.children.map Widget.width_constraint).dropLast,
        c.type = SizeType.SIZE_FLEX → c.value ≤ 100 := by
      intro c hc
      rw [← List.map_dropLast] at hc
      obtain ⟨c0, hc0, rfl⟩ := List.mem_map.mp hc
      exact hflex c0 hc0
    obtain ⟨e, he1, he2, he3, he4⟩ :=
      last_extent (wd.children.map Widget.width_constraint) width
        (deduct_fixed_widths wd.children width) hw
        (deduct_fixed_widths_eq wd.children width hw hfix) hfix hlast' hflex'
    rw [List.length_map] at he1 he2 he3 he4
    unfold laid_out
    rw [layout_children_hrect wd x y width height ht, List.map_dropLast, hrect_loop_w]
    have hl := congrArg List.getLast? (hrect_loop_w wd.children wd.children.length 0 y height
      (deduct_fixed_widths wd.children width) x)
    rw [List.getLast?_map, he1] at hl
    obtain ⟨last, hlast1, hlast2⟩ := Option.map_eq_some'.mp hl
    exact ⟨last, hlast1, he2, by rw [hlast2]; exact he3,
      deduct_no_wrap_of_le _ width hw hfix, he4⟩

/-- C16 at the trees of `main.c`: below the three-row header the body
(`FLEX(100)`) gets 21 of 24 rows, and beside the 16-column sidebar the content
(`FLEX(80)`) gets 64 of 80 columns; and at a last child of weight 0. -/
theorem last_flex_absorbs_witness :
    (laid_out (vstack [FIXED 3, FLEX 100]) 0 0 80 24).map Widget.h = [3, 21] ∧
    (laid_out (hstack [FLEX 20, FLEX 80]) 0 3 80 21).map Widget.w = [16, 64] ∧
    (laid_out (vstack [FIXED 3, FLEX 50, FLEX 0]) 0 0 80 24).map Widget.h = [3, 10, 11] ∧
    (∃ last, (laid_out (vstack [FIXED 3, FLEX 50, FLEX 0]) 0 0 80 24).getLast? = some last ∧
      ((laid_out (vstack [FIXED 3, FLEX 50, FLEX 0]) 0 0 80 24).dropLast.map Widget.h).sum
        ≤ 24 ∧
      last.h = 24 -
        ((laid_out (vstack [FIXED 3, FLEX 50, FLEX 0]) 0 0 80 24).dropLast.map Widget.h).sum ∧
      deduct_no_wrap ((vstack [FIXED 3, FLEX 50, FLEX 0]).children.map
        Widget.height_constraint) 24 ∧
      distribute_no_wrap ((vstack [FIXED 3, FLEX 50, FLEX 0]).children.map
        Widget.height_constraint) (vstack [FIXED 3, FLEX 50, FLEX 0]).children.length 0
        (deduct_fixed_heights (vstack [FIXED 3, FLEX 50, FLEX 0]).children 24)) :=
  ⟨by decide, by decide, by decide,
    (last_flex_absorbs (vstack [FIXED 3, FLEX 50, FLEX 0]) 0 0 80 24 (by decide)
      (by decide)).1 (by decide) (by decide) (by decide) (by decide)⟩

/-! ## C14: writes proportional to changes -/

/-- C14: `tui_render` (on a screen of fewer than `2 ^ 32` cells) and the diff
of `App::draw` (on a `term` of length `cols * lines < 2 ^ 32`) write, in
increasing index order, exactly one glyph for each index at which the current
cell differs from the previous cell in symbol or style, namely the current
buffer's symbol there, and no other glyph; the number of glyph writes is the
number of changed cells. -/
theorem writes_proportional :
    (∀ tui : Tui, tui.width * tui.height < U32 →
      glyphs (tui_render tui).2 =
          (changed_cells tui).map (fun i => (tui.terminal.getD i blank_cell).symbol) ∧
        count_glyph (tui_render tui).2 = (changed_cells tui).length) ∧
    (∀ app : Cxx.App, app.term.length = app.cols * app.lines →
      app.cols * app.lines < U32 →
      glyphs (Cxx.draw_diff app).2 =
          (Cxx.changed_cells app).map (fun i => (app.term.getD i Cxx.blank_cell).symbol) ∧
        count_glyph (Cxx.draw_diff app).2 = (Cxx.changed_cells app).length) := by
  constructor
  · intro tui hsz
    have h : glyphs (tui_render tui).2 =
        (changed_cells tui).map (fun i => (tui.terminal.getD i blank_cell).symbol) := by
      rw [tui_render_out tui hsz, glyphs_diff_writes]
    exact ⟨h, by rw [count_glyph_eq, h, List.length_map]⟩
  · intro app hlen hsz
    have h : glyphs (Cxx.draw_diff app).2 =
        (Cxx.changed_cells app).map (fun i => (app.term.getD i Cxx.blank_cell).symbol) := by
      rw [Cxx.draw_diff_out app hlen hsz, Cxx.glyphs_flatMap_cells]
    exact ⟨h, by rw [count_glyph_eq, h, List.length_map]⟩

/-- C14 at a 3 x 2 screen with five changed cells and at a 3 x 1 `App` with
two. -/
theorem writes_proportional_witness :
    changed_cells tui_runs = [0, 1, 2, 3, 5] ∧
    glyphs (tui_render tui_runs).2 = [65, 66, 67, 68, 69] ∧
    Cxx.changed_cells Cxx.app_two_bold = [0, 1] ∧
    glyphs (Cxx.draw_diff Cxx.app_two_bold).2 = [Cxx.utf8 "A", Cxx.utf8 "B"] :=
  ⟨by decide, ((writes_proportional.1 tui_runs (by decide)).1).trans (by decide),
    by decide, ((writes_proportional.2 Cxx.app_two_bold rfl (by decide)).1).trans (by decide)⟩

/-! ## C15: cursor addressing is 1-based -/

/-- C15: the cursor-position escapes `tui_render` writes are, in order, those
of a subsequence of the changed cells, and the escape for the cell at index
`i` is `ESC [ i / width + 1 ; i % width + 1 H`; the diff of `App::draw` writes
for every changed cell at index `i` the escape
`ESC [ i / cols + 1 ; i % cols + 1 H`; and for `i = y * width + x` with
`x < width` these are row `y + 1` and column `x + 1`. -/
theorem cursor_addressing :
    (∀ tui : Tui, tui.width * tui.height < U32 →
      ∃ sub : List Nat, sub.Sublist (changed_cells tui) ∧
        cursor_moves (tui_render tui).2 =
          sub.map (fun i => (i / tui.width + 1, i % tui.width + 1))) ∧
    (∀ app : Cxx.App, app.term.length = app.cols * app.lines →
      app.cols * app.lines < U32 →
      cursor_moves (Cxx.draw_diff app).2 =
        (Cxx.changed_cells app).map (fun i => (i / app.cols + 1, i % app.cols + 1))) ∧
    (∀ width y x : Nat, x < width →
      ((y * width + x) / width + 1, (y * width + x) % width + 1) = (y + 1, x + 1)) := by
  refine ⟨?_, ?_, ?_⟩
  · intro tui hsz
    rw [tui_render_out tui hsz, cursor_moves_diff_writes]
    exact cursor_rule_sublist tui.width (changed_cells tui) none
  · intro app hlen hsz
    rw [Cxx.draw_diff_out app hlen hsz, Cxx.cursor_moves_flatMap_cells]
  · intro width y x hx
    have hw : 0 < width := by omega
    have hdiv : (y * width + x) / width = y := by
      rw [Nat.add_comm, Nat.add_mul_div_right _ _ hw, Nat.div_eq_of_lt hx, Nat.zero_add]
    have hmod : (y * width + x) % width = x := by
      rw [Nat.add_comm, Nat.add_mul_mod_self_right, Nat.mod_eq_of_lt hx]
    rw [hdiv, hmod]

/-- C15 at a 3 x 2 screen and at a 3 x 1 `App`: the escapes written. -/
theorem cursor_addressing_witness :
    cursor_moves (tui_render tui_runs).2 = [(1, 1), (2, 1), (2, 3)] ∧
    cursor_moves (Cxx.draw_diff Cxx.app_two_bold).2 = [(1, 1), (1, 2)] :=
  ⟨by decide, (cursor_addressing.2.1 Cxx.app_two_bold rfl (by decide)).trans (by decide)⟩

/-! ## C17: cursor-move elision -/

/-- C17, as stated, fails for `App::draw`.  With `term` holding changed cells
at columns 0 and 1 of one row, the cell at column 1 follows the previously
written changed cell, yet `render_cell` writes a cursor-position escape for it
too: two escapes for one run. -/
theorem cursor_elision_counterexample :
    Cxx.changed_cells Cxx.app_two_bold = [0, 1] ∧
    follows_prev Cxx.app_two_bold.cols (some 0) 1 = true ∧
    cursor_rule Cxx.app_two_bold.cols none (Cxx.changed_cells Cxx.app_two_bold) = [(1, 1)] ∧
    cursor_moves (Cxx.draw_diff Cxx.app_two_bold).2 = [(1, 1), (1, 2)] ∧
    count_cursor (Cxx.draw_diff Cxx.app_two_bold).2 = 2 := by
  decide

/-- C17 (amended): `tui_render` writes a cursor-position escape for a changed
cell `(x, y)` if and only if the previously written changed cell of this
render is not `(x - 1, y)` (or there is none); so the escapes are those of the
changed cells that start a run (column 0, or left neighbour unchanged), one
per maximal run within a row.  The diff of `App::draw` elides nothing: it
writes one cursor-position escape for every changed cell. -/
theorem cursor_elision :
    (∀ tui : Tui, tui.width * tui.height < U32 →
      cursor_moves (tui_render tui).2 = cursor_rule tui.width none (changed_cells tui) ∧
        cursor_moves (tui_render tui).2 =
          (run_starts tui).map (fun i => (i / tui.width + 1, i % tui.width + 1)) ∧
        count_cursor (tui_render tui).2 = (run_starts tui).length) ∧
    (∀ app : Cxx.App, app.term.length = app.cols * app.lines →
      app.cols * app.lines < U32 →
      cursor_moves (Cxx.draw_diff app).2 =
          (Cxx.changed_cells app).map (fun i => (i / app.cols + 1, i % app.cols + 1)) ∧
        count_cursor (Cxx.draw_diff app).2 = (Cxx.changed_cells app).length) := by
  constructor
  · intro tui hsz
    have h1 : cursor_moves (tui_render tui).2 =
        cursor_rule tui.width none (changed_cells tui) := by
      rw [tui_render_out tui hsz, cursor_moves_diff_writes]
    have h2 : cursor_rule tui.width none (changed_cells tui) =
        (run_starts tui).map (fun i => (i / tui.width + 1, i % tui.width + 1)) := by
      rcases Nat.eq_zero_or_pos tui.width with hw | hw
      · unfold run_starts changed_cells
        rw [hw, Nat.zero_mul]
        rfl
      · unfold run_starts changed_cells
        rw [List.range_eq_range']
        exact cursor_rule_run_starts tui.width hw _ _ 0 none
          (fun j hj => Option.noConfusion hj) (fun h => absurd h (Nat.lt_irrefl 0))
    exact ⟨h1, h1.trans h2, by rw [count_cursor_eq, h1, h2, List.length_map]⟩
  · intro app hlen hsz
    have h : cursor_moves (Cxx.draw_diff app).2 =
        (Cxx.changed_cells app).map (fun i => (i / app.cols + 1, i % app.cols + 1)) := by
      rw [Cxx.draw_diff_out app hlen hsz, Cxx.cursor_moves_flatMap_cells]
    exact ⟨h, by rw [count_cursor_eq, h, List.length_map]⟩

/-- C17 (amended) at a 3 x 2 screen whose changed cells 0, 1, 2, 3, 5 form
the runs starting at 0, 3 and 5. -/
theorem cursor_elision_witness :
    run_starts tui_runs = [0, 3, 5] ∧
    cursor_moves (tui_render tui_runs).2 = [(1, 1), (2, 1), (2, 3)] ∧
    count_cursor (tui_render tui_runs).2 = 3 :=
  ⟨by decide, ((cursor_elision.1 tui_runs (by decide)).2.1).trans (by decide),
    ((cursor_elision.1 tui_runs (by decide)).2.2).trans (by decide)⟩

/-! ## C18: style-change elision -/

/-- C13: when a widget's children are painted by `widget_render_to_buffer`
into a buffer of `width * height < 2 ^ 32` cells, for every two children added
in order (earlier, later) and every coordinate inside the buffer that both of
them paint, the later-added child wins over the earlier one: the cell
afterwards holds what `later` wrote there last, whenever no child added after
`later` paints the coordinate too, and in every case it holds what the last
child that paints the coordinate wrote, a child that is `later` or was added
after it.  Likewise for the widgets that `App::draw` paints in order, each
clipped to its bounds, with the symbol and style that `set_cell` stores. -/
theorem overlay_paint_order :
    (∀ (tui : Tui) (wd : Widget) (pre mid post : List Widget) (earlier later : Widget)
        (x y : Nat),
      tui.terminal.length = tui.width * tui.height → tui.width * tui.height < U32 →
      x < tui.width → y < tui.height →
      wd.children = pre ++ earlier :: (mid ++ later :: post) →
      paints (widget_writes earlier) x y = true →
      paints (widget_writes later) x y = true →
      ((∀ c ∈ post, paints (widget_writes c) x y = false) →
        (widget_render_to_buffer wd tui).terminal[y * tui.width + x]? =
            last_write (widget_writes later) x y ∧
          last_write (widget_writes later) x y ≠ none) ∧
      (∃ before winner after, later :: post = before ++ winner :: after ∧
        paints (widget_writes winner) x y = true ∧
        (∀ c ∈ after, paints (widget_writes c) x y = false) ∧
        (widget_render_to_buffer wd tui).terminal[y * tui.width + x]? =
          last_write (widget_writes winner) x y ∧
        last_write (widget_writes winner) x y ≠ none)) ∧
    (∀ (app : Cxx.App) (pre mid post : List Cxx.Widget) (earlier later : Cxx.Widget)
        (x y : Nat),
      app.term.length = app.cols * app.lines → app.cols * app.lines < U32 →
      x < app.cols → y < app.lines →
      Cxx.paints_at app.cols app.lines earlier x y = true →
      Cxx.paints_at app.cols app.lines later x y = true →
      ((∀ w ∈ post, Cxx.paints_at app.cols app.lines w x y = false) →
        ((Cxx.paint app (pre ++ earlier :: (mid ++ later :: post))).term[
            y * app.cols + x]?).map Cxx.Cell.glyph =
            Cxx.last_call app.cols app.lines later.bounds later.calls x y ∧
          Cxx.last_call app.cols app.lines later.bounds later.calls x y ≠ none) ∧
      (∃ before winner after, later :: post = before ++ winner :: after ∧
        Cxx.paints_at app.cols app.lines winner x y = true ∧
        (∀ w ∈ after, Cxx.paints_at app.cols app.lines w x y = false) ∧
        ((Cxx.paint app (pre ++ earlier :: (mid ++ later :: post))).term[
            y * app.cols + x]?).map Cxx.Cell.glyph =
          Cxx.last_call app.cols app.lines winner.bounds winner.calls x y ∧
        Cxx.last_call app.cols app.lines winner.bounds winner.calls x y ≠ none)) := by
  constructor
  · intro tui wd pre mid post earlier later x y hlen hsz hx hy hcs _ hlater
    constructor
    · intro hpost
      exact later_child_wins tui wd (pre ++ earlier :: mid) post later x y hlen hsz hx hy
        (by rw [hcs]; simp only [List.append_assoc, List.cons_append]) hlater hpost
    · obtain ⟨before, winner, after, hsplit, hw, hafter⟩ :=
        exists_last_true (fun c => paints (widget_writes c) x y) (later :: post)
          ⟨later, List.mem_cons_self _ _, hlater⟩
      obtain ⟨h1, h2⟩ := later_child_wins tui wd (pre ++ earlier :: (mid ++ before)) after
        winner x y hlen hsz hx hy
        (by rw [hcs, hsplit]; simp only [List.append_assoc, List.cons_append]) hw hafter
      exact ⟨before, winner, after, hsplit, hw, hafter, h1, h2⟩
  · intro app pre mid post earlier later x y hlen hsz hx hy _ hlater
    constructor
    · intro hpost
      have h := Cxx.later_widget_wins app (pre ++ earlier :: mid) post later x y hlen hsz
        hx hy hlater hpost
      have e : pre ++ earlier :: mid ++ later :: post =
          pre ++ earlier :: (mid ++ later :: post) := by
        simp only [List.append_assoc, List.cons_append]
      rw [e] at h
      exact h
    · obtain ⟨before, winner, after, hsplit, hw, hafter⟩ :=
        exists_last_true (fun w => Cxx.paints_at app.cols app.lines w x y) (later :: post)
          ⟨later, List.mem_cons_self _ _, hlater⟩
      have h := Cxx.later_widget_wins app (pre ++ earlier :: (mid ++ before)) after winner
        x y hlen hsz hx hy hw hafter
      have e : pre ++ earlier :: (mid ++ before) ++ winner :: after =
          pre ++ earlier :: (mid ++ later :: post) := by
        rw [hsplit]
        simp only [List.append_assoc, List.cons_append]
      rw [e] at h
      exact ⟨before, winner, after, hsplit, hw, hafter, h.1, h.2⟩

set_option maxRecDepth 8000 in
/-- C13 at an overlay stack of two boxes laid out in (0, 0, 4, 4), where at
(0, 1), which both children paint, the cell holds the corner the second child
wrote; at an overlay stack of three boxes, where all three paint (0, 1) and
the cell holds the corner the third wrote, not the side the second wrote; and
at a box titled `ab` followed by a label `é` at (2, 1) on a 12 x 4 `App`,
where the cell (3, 1) holds the second byte of the label and not the bold `b`
of the title. -/
theorem overlay_paint_order_witness :
    (widget_render_to_buffer (widget_compute_layout two_layers 0 0 4 4)
      tui_4x4).terminal[1 * 4 + 0]? = some (border_cell 0x2554) ∧
    (laid_out three_layers 0 0 4 4).map (fun c => last_write (widget_writes c) 0 1)
      = [some (border_cell 0x2551), some (border_cell 0x2551), some (border_cell 0x2554)] ∧
    (widget_render_to_buffer (widget_compute_layout three_layers 0 0 4 4)
      tui_4x4).terminal[1 * 4 + 0]? = some (border_cell 0x2554) ∧
    Cxx.mk_label 2 1 "é" = Cxx.Widget.Label ⟨2, 1, 2, 1⟩ "é" ∧
    ((Cxx.paint Cxx.app_blank_12x4
      [Cxx.Widget.Box ⟨0, 0, 12, 4⟩ "ab", Cxx.mk_label 2 1 "é"]).term[1 * 12 + 3]?).map
        Cxx.Cell.glyph = some ([169], Style.REGULAR) :=
  ⟨(((overlay_paint_order.1 tui_4x4 (widget_compute_layout two_layers 0 0 4 4) [] [] []
      (widget_compute_layout (leaf (FLEX 100) (FLEX 100)) 0 0 4 4)
      (widget_compute_layout (leaf (ABSOLUTE 4) (ABSOLUTE 2)) 0 1 4 2) 0 1
      rfl (by decide) (by decide) (by decide) rfl (by decide) (by decide)).1
      (fun c hc => absurd hc (List.not_mem_nil c))).1).trans (by decide),
    by decide,
    (((overlay_paint_order.1 tui_4x4 (widget_compute_layout three_layers 0 0 4 4)
      [widget_compute_layout (leaf (FLEX 100) (FLEX 100)) 0 0 4 4] [] []
      (widget_compute_layout (leaf (FLEX 100) (FLEX 100)) 0 0 4 4)
      (widget_compute_layout (leaf (ABSOLUTE 4) (ABSOLUTE 2)) 0 1 4 2) 0 1
      rfl (by decide) (by decide) (by decide) rfl (by decide) (by decide)).1
      (fun c hc => absurd hc (List.not_mem_nil c))).1).trans (by decide),
    by decide,
    (((overlay_paint_order.2 Cxx.app_blank_12x4 [] [] []
      (Cxx.Widget.Box ⟨0, 0, 12, 4⟩ "ab") (Cxx.mk_label 2 1 "é") 3 1
      (by decide) (by decide) (by decide) (by decide) (by decide) (by decide)).1
      (fun c hc => absurd hc (List.not_mem_nil c))).1).trans (by decide)⟩

/-! ## C19: the front buffer after a tick -/

/-- C19 fails as stated for `run` of tui.h: on the 2 x 1 `Tui` that
`tui_init` leaves (blank back buffer, `'\0'` front buffer, `is_dirty` clear)
with a childless overlay stack as root, the tree paints no cell, `is_dirty`
stays clear, `tui_render` is skipped, nothing is written and the front buffer
still holds its `'\0'` cells while the freshly painted buffer holds blanks. -/
theorem frame_sync_counterexample :
    (tick tui_fresh_empty_stack).1.terminal = [blank_cell, blank_cell] ∧
      (tick tui_fresh_empty_stack).1.front_buffer =
        [⟨0, Color.DEFAULT, Color.DEFAULT, Style.REGULAR⟩,
          ⟨0, Color.DEFAULT, Color.DEFAULT, Style.REGULAR⟩] ∧
      (tick tui_fresh_empty_stack).1.front_buffer ≠ (tick tui_fresh_empty_stack).1.terminal ∧
      (tick tui_fresh_empty_stack).2 = [] := by
  decide

/-- C19 (amended): one tick of `run` on a `Tui` whose two buffers hold
`width * height < 2^32` cells each, whatever the cells are. The back buffer
after the tick is the freshly painted one. If `is_dirty` is set after the
painting, the front buffer after the tick equals the freshly painted buffer;
`is_dirty` is set as soon as one cell write of the tree lies inside the
terminal, and otherwise keeps the value it had. If `is_dirty` is clear after
the painting, the front buffer is left as it was and nothing is written. For
`App::draw` on buffers of equal length, the previous buffer after the call
equals the freshly painted one for every list of widgets. -/
theorem frame_sync :
    (∀ tui : Tui, tui.terminal.length = tui.width * tui.height →
      tui.front_buffer.length = tui.width * tui.height →
      tui.width * tui.height < U32 →
      (tick tui).1.terminal = (paint_frame tui).terminal ∧
      ((paint_frame tui).is_dirty ≠ 0 →
        (tick tui).1.front_buffer = (paint_frame tui).terminal) ∧
      (paints_inside tui (frame_writes tui) = true → (paint_frame tui).is_dirty ≠ 0) ∧
      (paints_inside tui (frame_writes tui) = false →
        (paint_frame tui).is_dirty = tui.is_dirty) ∧
      ((paint_frame tui).is_dirty = 0 →
        (tick tui).1.front_buffer = tui.front_buffer ∧ (tick tui).2 = [])) ∧
    (∀ (app : Cxx.App) (widgets : List Cxx.Widget),
      app.prev_term.length = app.term.length →
      (Cxx.draw app widgets).1.term = (Cxx.paint app widgets).term ∧
      (Cxx.draw app widgets).1.prev_term = (Cxx.paint app widgets).term) := by
  refine ⟨fun tui hlenT hlenF hsz => ⟨?_, ?_, ?_, ?_, ?_⟩, fun app widgets hlen => ?_⟩
  · by_cases hd : (paint_frame tui).is_dirty = 0
    · exact (tick_skips tui hd).2.2
    · exact (tick_syncs tui hlenT hlenF hsz hd).2
  · intro hd
    obtain ⟨h1, h2⟩ := tick_syncs tui hlenT hlenF hsz hd
    rw [h1, h2]
  · intro hp
    rw [paint_frame_dirty, if_pos hp]
    decide
  · intro hp
    rw [paint_frame_dirty, if_neg (by rw [hp]; decide)]
  · intro hd
    exact ⟨(tick_skips tui hd).1, (tick_skips tui hd).2.1⟩
  · obtain ⟨h1, h2⟩ := Cxx.draw_syncs app widgets hlen
    exact ⟨h2, by rw [h1, h2]⟩

set_option maxRecDepth 8000 in
/-- C19 (amended) at the 4 x 4 `Tui` that `tui_init` leaves with one box as
root, whose border is painted inside the terminal, and at `App::draw` of a
label `hi` at (1, 1) on a 12 x 4 `App`: in both the previous buffer after the
tick equals the freshly painted one. -/
theorem frame_sync_witness :
    (tick tui_fresh_box).1.front_buffer = (paint_frame tui_fresh_box).terminal ∧
      (tick tui_fresh_box).1.terminal = (paint_frame tui_fresh_box).terminal ∧
      (Cxx.draw Cxx.app_12x4 [Cxx.mk_label 1 1 "hi"]).1.prev_term =
        (Cxx.paint Cxx.app_12x4 [Cxx.mk_label 1 1 "hi"]).term :=
  ⟨(frame_sync.1 tui_fresh_box (by decide) (by decide) (by decide)).2.1
      ((frame_sync.1 tui_fresh_box (by decide) (by decide) (by decide)).2.2.1 (by decide)),
    (frame_sync.1 tui_fresh_box (by decide) (by decide) (by decide)).1,
    (frame_sync.2 Cxx.app_12x4 [Cxx.mk_label 1 1 "hi"] (by decide)).2⟩

/-! ## C21: the initial full repaint -/

/-- C21: for every terminal size `get_terminal_size` can report (`ws_col` and
`ws_row` are `unsigned short`), the `Tui` that `tui_init` returns has two
buffers of `width * height` cells, the back buffer all blanks and the front
buffer all `'\0'` cells, so every cell of the front buffer differs from the
corresponding cell of the back buffer; `tui_render` on it writes one glyph per
cell, `width * height` glyphs in all, and leaves the front buffer equal to the
back buffer.  The same holds for `tui_render` on any `Tui` of that shape whose
back buffer, whatever was painted into it, differs from the front buffer at
every cell. -/
theorem initial_full_repaint :
    (∀ ws_col ws_row : Nat, ws_col < 65536 → ws_row < 65536 →
      (tui_init ws_col ws_row).width * (tui_init ws_col ws_row).height = ws_col * ws_row ∧
      (tui_init ws_col ws_row).terminal.length = ws_col * ws_row ∧
      (tui_init ws_col ws_row).front_buffer.length = ws_col * ws_row ∧
      (∀ i, i < ws_col * ws_row →
        (tui_init ws_col ws_row).terminal[i]? = some blank_cell ∧
        (tui_init ws_col ws_row).front_buffer[i]? = some nul_cell ∧
        (tui_init ws_col ws_row).front_buffer[i]? ≠ (tui_init ws_col ws_row).terminal[i]? ∧
        cell_changed (tui_init ws_col ws_row).terminal
          (tui_init ws_col ws_row).front_buffer i = true) ∧
      glyphs (tui_render (tui_init ws_col ws_row)).2 = List.replicate (ws_col * ws_row) 32 ∧
      count_glyph (tui_render (tui_init ws_col ws_row)).2 = ws_col * ws_row ∧
      (tui_render (tui_init ws_col ws_row)).1.front_buffer =
        (tui_render (tui_init ws_col ws_row)).1.terminal) ∧
    (∀ tui : Tui, tui.terminal.length = tui.width * tui.height →
      tui.front_buffer.length = tui.width * tui.height → tui.width * tui.height < U32 →
      (∀ i, i < tui.width * tui.height →
        cell_changed tui.terminal tui.front_buffer i = true) →
      glyphs (tui_render tui).2 = tui.terminal.map Cell.symbol ∧
      count_glyph (tui_render tui).2 = tui.width * tui.height ∧
      (tui_render tui).1.front_buffer = (tui_render tui).1.terminal) := by
  refine ⟨fun ws_col ws_row hc hr => ?_, fun tui hlenT hlenF hsz h =>
    tui_render_full tui hlenT hlenF hsz h⟩
  obtain ⟨hT, hF⟩ := tui_init_buffers ws_col ws_row hc hr
  have hsz := (mul32_of_ushort ws_col ws_row hc hr).2
  have hcells : ∀ i, i < ws_col * ws_row →
      (tui_init ws_col ws_row).terminal[i]? = some blank_cell ∧
      (tui_init ws_col ws_row).front_buffer[i]? = some nul_cell ∧
      (tui_init ws_col ws_row).front_buffer[i]? ≠ (tui_init ws_col ws_row).terminal[i]? ∧
      cell_changed (tui_init ws_col ws_row).terminal
        (tui_init ws_col ws_row).front_buffer i = true := by
    intro i hi
    have h1 : (tui_init ws_col ws_row).terminal[i]? = some blank_cell := by
      rw [hT, List.getElem?_replicate, if_pos hi]
    have h2 : (tui_init ws_col ws_row).front_buffer[i]? = some nul_cell := by
      rw [hF, List.getElem?_replicate, if_pos hi]
    refine ⟨h1, h2, ?_, ?_⟩
    · rw [h1, h2]
      decide
    · unfold cell_changed
      rw [List.getD_eq_getElem?_getD, List.getD_eq_getElem?_getD, h1, h2]
      decide
  have hfull := tui_render_full (tui_init ws_col ws_row)
    (by rw [hT, List.length_replicate]; rfl) (by rw [hF, List.length_replicate]; rfl)
    hsz (fun i hi => (hcells i hi).2.2.2)
  refine ⟨rfl, by rw [hT, List.length_replicate], by rw [hF, List.length_replicate],
    hcells, ?_, hfull.2.1, hfull.2.2⟩
  rw [hfull.1, hT, List.map_replicate]
  rfl

/-- C21 at a 3 x 2 terminal: six glyphs, all blanks, and equal buffers
afterwards; and at the 4 x 4 `Tui` of `tui_init` after one box has been
painted into its back buffer, where the first `tui_render` writes sixteen
glyphs. -/
theorem initial_full_repaint_witness :
    glyphs (tui_render (tui_init 3 2)).2 = [32, 32, 32, 32, 32, 32] ∧
      (tui_render (tui_init 3 2)).1.front_buffer = List.replicate 6 blank_cell ∧
      count_glyph (tui_render (paint_frame tui_fresh_box)).2 = 16 :=
  ⟨(initial_full_repaint.1 3 2 (by decide) (by decide)).2.2.2.2.1,
    ((initial_full_repaint.1 3 2 (by decide) (by decide)).2.2.2.2.2.2).trans (by decide),
    (initial_full_repaint.2 (paint_frame tui_fresh_box) (by decide) (by decide) (by decide)
      (by decide)).2.1⟩

/-! ## C22: `Layout::vertical` and `Layout::horizontal` -/

/-- C22, as stated, fails.  `Layout::vertical` on the area `{0, 0, 80, 10}`
with the sizes `{0, 5, 0}`: 0 is the last entry and the earlier entries sum to
5, at most the area's height 10, yet the first `0` already takes the whole
height, and the last `0` gets `10 - 15` wrapped to 4294967291, not the area's
extent minus the extents consumed before it; the heights sum to 4294967306,
not to 10.  `Layout::horizontal` likewise. -/
theorem layout_sequential_fill_counterexample :
    Cxx.Layout.vertical ⟨0, 0, 80, 10⟩ [0, 5, 0] =
      [⟨0, 0, 80, 10⟩, ⟨0, 10, 80, 5⟩, ⟨0, 15, 80, 4294967291⟩] ∧
    ((Cxx.Layout.vertical ⟨0, 0, 80, 10⟩ [0, 5, 0]).map Cxx.Rect.height).sum = 4294967306 ∧
    ([0, 5, 0] : List Int).getLast? = some 0 ∧ ([0, 5, 0] : List Int).dropLast.sum ≤ 10 ∧
    Cxx.Layout.horizontal ⟨0, 0, 10, 24⟩ [0, 5, 0] =
      [⟨0, 0, 10, 24⟩, ⟨10, 0, 5, 24⟩, ⟨15, 0, 4294967291, 24⟩] := by
  decide

/-- C22 (amended): `Layout::vertical` (and symmetrically `Layout::horizontal`)
returns one rectangle per entry of the size list, in order, each spanning the
area's full cross axis; along the primary axis the rectangles follow the rule
`sequential_fill`: the first starts at the area's origin and each next one
starts where the previous ends, modulo `2 ^ 32`; a nonzero entry receives its
value converted to `uint32_t`, its own value when positive; an entry of 0
receives the area's extent minus the extents handed out before it, modulo
`2 ^ 32`, the plain difference when those extents sum to at most the area's
extent; hence when 0 is the last entry and the extents handed out before it
sum to at most the area's extent, as they do when the earlier entries are all
positive and sum to at most the area's extent, the extents sum exactly to the
area's extent. -/
theorem layout_sequential_fill :
    (∀ (area : Cxx.Rect) (heights : List Int), area.y < U32 → area.height < U32 →
      (∀ r ∈ Cxx.Layout.vertical area heights, r.x = area.x ∧ r.width = area.width) ∧
      Cxx.sequential_fill area.height area.y heights
        ((Cxx.Layout.vertical area heights).map (fun r => (r.y, r.height)))) ∧
    (∀ (area : Cxx.Rect) (widths : List Int), area.x < U32 → area.width < U32 →
      (∀ r ∈ Cxx.Layout.horizontal area widths, r.y = area.y ∧ r.height = area.height) ∧
      Cxx.sequential_fill area.width area.x widths
        ((Cxx.Layout.horizontal area widths).map (fun r => (r.x, r.width)))) := by
  constructor
  · intro area heights hy hh
    unfold Cxx.Layout.vertical
    rw [Cxx.vertical_loop_eq]
    constructor
    · intro r hr
      obtain ⟨p, _, rfl⟩ := List.mem_map.mp hr
      exact ⟨rfl, rfl⟩
    · rw [List.map_map]
      have hid : ((fun r : Cxx.Rect => (r.y, r.height)) ∘
          (fun p : Nat × Nat => (⟨area.x, p.1, area.width, p.2⟩ : Cxx.Rect))) = id :=
        funext (fun p => rfl)
      rw [hid, List.map_id]
      exact Cxx.fill_sizes_spec area.height area.y hh hy heights
  · intro area widths hx hw
    unfold Cxx.Layout.horizontal
    rw [Cxx.horizontal_loop_eq]
    constructor
    · intro r hr
      obtain ⟨p, _, rfl⟩ := List.mem_map.mp hr
      exact ⟨rfl, rfl⟩
    · rw [List.map_map]
      have hid : ((fun r : Cxx.Rect => (r.x, r.width)) ∘
          (fun p : Nat × Nat => (⟨p.1, area.y, p.2, area.height⟩ : Cxx.Rect))) = id :=
        funext (fun p => rfl)
      rw [hid, List.map_id]
      exact Cxx.fill_sizes_spec area.width area.x hw hx widths

/-- C22 (amended) at a header of 3 rows above a filling body on an 80 x 24
area, and at a sidebar of 16 columns left of a filling content: the heights
sum to 24 and the widths to 80. -/
theorem layout_sequential_fill_witness :
    Cxx.Layout.vertical ⟨0, 0, 80, 24⟩ [3, 0] = [⟨0, 0, 80, 3⟩, ⟨0, 3, 80, 21⟩] ∧
    (((Cxx.Layout.vertical ⟨0, 0, 80, 24⟩ [3, 0]).map
      (fun r => (r.y, r.height))).map Prod.snd).sum = 24 ∧
    Cxx.Layout.horizontal ⟨0, 3, 80, 21⟩ [16, 0] = [⟨0, 3, 16, 21⟩, ⟨16, 3, 64, 21⟩] ∧
    (((Cxx.Layout.horizontal ⟨0, 3, 80, 21⟩ [16, 0]).map
      (fun r => (r.x, r.width))).map Prod.snd).sum = 80 :=
  ⟨by decide,
    (layout_sequential_fill.1 ⟨0, 0, 80, 24⟩ [3, 0] (by decide) (by decide)).2.2.2.2.2.2.2
      (by decide) (by decide) (by decide),
    by decide,
    (layout_sequential_fill.2 ⟨0, 3, 80, 21⟩ [16, 0] (by decide) (by decide)).2.2.2.2.2.2.2
      (by decide) (by decide) (by decide)⟩

/-! ## C23: containment -/

/-- C23, as stated, fails.  A vertical stack of two `FIXED(5)` children laid
out in `(0, 4294967295, 80, 10)`: the Fixed sizes sum to 10, the parent's
height, yet the second child is placed at `y = 4`, above the parent's
`y = 4294967295`, because `current_y` wrapped. -/
theorem containment_counterexample :
    fixed_total ((vstack [FIXED 5, FIXED 5]).children.map Widget.height_constraint) = 10 ∧
    (widget_compute_layout (vstack [FIXED 5, FIXED 5]) 0 4294967295 80 10).rect =
      (0, 4294967295, 80, 10) ∧
    (laid_out (vstack [FIXED 5, FIXED 5]) 0 4294967295 80 10).map Widget.rect =
      [(0, 4294967295, 80, 5), (0, 4, 80, 5)] ∧
    (4 : Nat) < 4294967295 := by
  decide

/-- C23 (amended): when the parent's rectangle does not wrap
(`x + width < 2 ^ 32` and `y + height < 2 ^ 32`), every child's assigned
rectangle lies inside the parent's rectangle, for every vertical (resp.
horizontal) stack whose Fixed heights (resp. widths) sum to at most the
parent's height (resp. width) and whose Flex weights are at most 100, whatever
the kind of the children's constraints, and for every overlay stack whose
both-Absolute children are no larger than the parent. -/
theorem containment (wd : Widget) (x y width height : Nat)
    (hx : x + width < U32) (hy : y + height < U32) :
    (widget_compute_layout wd x y width height).rect = (x, y, width, height) ∧
    (wd.type = WidgetType.WIDGET_VRECT →
      fixed_total (wd.children.map Widget.height_constraint) ≤ height →
      (∀ c ∈ wd.children, c.height_constraint.type = SizeType.SIZE_FLEX →
        c.height_constraint.value ≤ 100) →
      ∀ c ∈ laid_out wd x y width height, c.inside x y width height) ∧
    (wd.type = WidgetType.WIDGET_HRECT →
      fixed_total (wd.children.map Widget.width_constraint) ≤ width →
      (∀ c ∈ wd.children, c.width_constraint.type = SizeType.SIZE_FLEX →
        c.width_constraint.value ≤ 100) →
      ∀ c ∈ laid_out wd x y width height, c.inside x y width height) ∧
    (wd.type = WidgetType.WIDGET_STACK →
      (∀ c ∈ wd.children, c.width_constraint.type = SizeType.SIZE_ABSOLUTE →
        c.height_constraint.type = SizeType.SIZE_ABSOLUTE →
        c.width_constraint.value ≤ width ∧ c.height_constraint.value ≤ height) →
      ∀ c ∈ laid_out wd x y width height, c.inside x y width height) := by
  refine ⟨layout_rect wd x y width height, ?_, ?_, ?_⟩
  · intro ht hfix hflex
    unfold laid_out
    rw [layout_children_vrect wd x y width height ht]
    exact vrect_children_inside wd.children x y width height hy hfix hflex
  · intro ht hfix hflex
    unfold laid_out
    rw [layout_children_hrect wd x y width height ht]
    exact hrect_children_inside wd.children x y width height hx hfix hflex
  · intro ht habs
    unfold laid_out
    rw [layout_children_stack wd x y width height ht]
    exact stack_children_inside wd.children x y width height hx hy habs

/-- C23 (amended) at the trees of `main.c` on an 80 x 24 terminal: the base
layout and the 40 x 15 modal lie inside the root, the header and the body
inside the base layout, the sidebar and the content inside the body. -/
theorem containment_witness :
    (∀ c ∈ laid_out main_tree 0 0 80 24, c.inside 0 0 80 24) ∧
    (∀ c ∈ laid_out (vstack [FIXED 3, FLEX 100]) 0 0 80 24, c.inside 0 0 80 24) ∧
    (∀ c ∈ laid_out (hstack [FLEX 20, FLEX 80]) 0 3 80 21, c.inside 0 3 80 21) :=
  ⟨(containment main_tree 0 0 80 24 (by decide) (by decide)).2.2.2 rfl (by decide),
    (containment (vstack [FIXED 3, FLEX 100]) 0 0 80 24 (by decide) (by decide)).2.1 rfl
      (by decide) (by decide),
    (containment (hstack [FLEX 20, FLEX 80]) 0 3 80 21 (by decide) (by decide)).2.2.1 rfl
      (by decide) (by decide)⟩

/-! ## C24: a primary-axis constraint that is Absolute -/

/-- C24: `widget_compute_layout` returns for every tree and every rectangle:
the node holds the rectangle and the kinds, constraints and child order of the
tree are kept.  In the second loop of a vertical (resp. horizontal) stack the
body at a child whose height (resp. width) constraint is Absolute gives the
child extent 0 and goes on with the same `remaining` and the same `current`,
and the first loop deducts nothing for it.  So such a child gets height (resp.
width) 0 and the child after it, if any, starts at the same `y` (resp. `x`);
and when it is not the last child, its siblings are laid out exactly as
without it. -/
theorem absolute_on_primary_axis :
    (∀ (wd : Widget) (x y width height : Nat),
      (widget_compute_layout wd x y width height).rect = (x, y, width, height) ∧
      skeleton (widget_compute_layout wd x y width height) = skeleton wd) ∧
    (∀ (c : Widget) (rest : List Widget) (n i x width rem cur : Nat),
      c.height_constraint.type = SizeType.SIZE_ABSOLUTE → cur < U32 →
      vrect_loop (c :: rest) n i x width rem cur =
        widget_compute_layout c x cur width 0 ::
          vrect_loop rest n (i + 1) x width rem cur) ∧
    (∀ (c : Widget) (rest : List Widget) (n i y height rem cur : Nat),
      c.width_constraint.type = SizeType.SIZE_ABSOLUTE → cur < U32 →
      hrect_loop (c :: rest) n i y height rem cur =
        widget_compute_layout c cur y 0 height ::
          hrect_loop rest n (i + 1) y height rem cur) ∧
    (∀ (pre : List Widget) (c : Widget) (post : List Widget) (rem : Nat),
      (c.height_constraint.type = SizeType.SIZE_ABSOLUTE →
        deduct_fixed_heights (pre ++ c :: post) rem = deduct_fixed_heights (pre ++ post) rem) ∧
      (c.width_constraint.type = SizeType.SIZE_ABSOLUTE →
        deduct_fixed_widths (pre ++ c :: post) rem = deduct_fixed_widths (pre ++ post) rem)) ∧
    (∀ (wd : Widget) (x y width height k : Nat) (c : Widget),
      x < U32 → y < U32 → wd.children[k]? = some c →
      (wd.type = WidgetType.WIDGET_VRECT →
        c.height_constraint.type = SizeType.SIZE_ABSOLUTE →
        ∃ r, (laid_out wd x y width height)[k]? = some r ∧ r.h = 0 ∧
          ∀ q, (laid_out wd x y width height)[k + 1]? = some q → q.y = r.y) ∧
      (wd.type = WidgetType.WIDGET_HRECT →
        c.width_constraint.type = SizeType.SIZE_ABSOLUTE →
        ∃ r, (laid_out wd x y width height)[k]? = some r ∧ r.w = 0 ∧
          ∀ q, (laid_out wd x y width height)[k + 1]? = some q → q.x = r.x)) ∧
    (∀ (wc hc : Constraint) (b : BorderSet) (x0 y0 w0 h0 : Nat) (pre : List Widget)
        (c : Widget) (post : List Widget) (x y width height : Nat),
      x < U32 → y < U32 → post ≠ [] →
      (c.height_constraint.type = SizeType.SIZE_ABSOLUTE →
        (laid_out (Widget.mk WidgetType.WIDGET_VRECT wc hc b x0 y0 w0 h0 (pre ++ c :: post))
            x y width height).eraseIdx pre.length =
          laid_out (Widget.mk WidgetType.WIDGET_VRECT wc hc b x0 y0 w0 h0 (pre ++ post))
            x y width height) ∧
      (c.width_constraint.type = SizeType.SIZE_ABSOLUTE →
        (laid_out (Widget.mk WidgetType.WIDGET_HRECT wc hc b x0 y0 w0 h0 (pre ++ c :: post))
            x y width height).eraseIdx pre.length =
          laid_out (Widget.mk WidgetType.WIDGET_HRECT wc hc b x0 y0 w0 h0 (pre ++ post))
            x y width height)) := by
  refine ⟨fun wd x y width height =>
      ⟨layout_rect wd x y width height, skeleton_layout wd x y width height⟩,
    fun c rest n i x width rem cur hc hcur =>
      vrect_loop_absolute c rest n i x width rem cur hc hcur,
    fun c rest n i y height rem cur hc hcur =>
      hrect_loop_absolute c rest n i y height rem cur hc hcur,
    fun pre c post rem =>
      ⟨fun hc => deduct_fixed_heights_skip pre c post hc rem,
        fun hc => deduct_fixed_widths_skip pre c post hc rem⟩, ?_, ?_⟩
  · intro wd x y width height k c hx hy hk
    constructor
    · intro ht hc
      unfold laid_out
      rw [layout_children_vrect wd x y width height ht]
      exact vrect_absolute_child wd.children _ x y width _ k c hy hk hc
    · intro ht hc
      unfold laid_out
      rw [layout_children_hrect wd x y width height ht]
      exact hrect_absolute_child wd.children _ x y height _ k c hx hk hc
  · intro wc hc b x0 y0 w0 h0 pre c post x y width height hx hy hpost
    constructor
    · intro hab
      unfold laid_out
      rw [layout_children_vrect
          (Widget.mk WidgetType.WIDGET_VRECT wc hc b x0 y0 w0 h0 (pre ++ c :: post))
          x y width height rfl,
        layout_children_vrect
          (Widget.mk WidgetType.WIDGET_VRECT wc hc b x0 y0 w0 h0 (pre ++ post))
          x y width height rfl]
      show (vrect_loop (pre ++ c :: post) (pre ++ c :: post).length 0 x width
          (deduct_fixed_heights (pre ++ c :: post) height) y).eraseIdx pre.length =
        vrect_loop (pre ++ post) (pre ++ post).length 0 x width
          (deduct_fixed_heights (pre ++ post) height) y
      rw [deduct_fixed_heights_skip pre c post hab]
      have := vrect_loop_erase_absolute pre c post hab hpost 0 x width
        (deduct_fixed_heights (pre ++ post) height) y hy
      rw [Nat.zero_add, Nat.zero_add] at this
      exact this
    · intro hab
      unfold laid_out
      rw [layout_children_hrect
          (Widget.mk WidgetType.WIDGET_HRECT wc hc b x0 y0 w0 h0 (pre ++ c :: post))
          x y width height rfl,
        layout_children_hrect
          (Widget.mk WidgetType.WIDGET_HRECT wc hc b x0 y0 w0 h0 (pre ++ post))
          x y width height rfl]
      show (hrect_loop (pre ++ c :: post) (pre ++ c :: post).length 0 y height
          (deduct_fixed_widths (pre ++ c :: post) width) x).eraseIdx pre.length =
        hrect_loop (pre ++ post) (pre ++ post).length 0 y height
          (deduct_fixed_widths (pre ++ post) width) x
      rw [deduct_fixed_widths_skip pre c post hab]
      have := hrect_loop_erase_absolute pre c post hab hpost 0 y height
        (deduct_fixed_widths (pre ++ post) width) x hx
      rw [Nat.zero_add, Nat.zero_add] at this
      exact this

/-- C24 at a vertical stack of heights `FIXED(3)`, `ABSOLUTE(9)`, `FLEX(100)`
on an 80 x 24 terminal: the Absolute child gets height 0 at `y = 3`, the child
after it starts at `y = 3` too and takes the 21 rows that remain, as in the
stack without the Absolute child. -/
theorem absolute_on_primary_axis_witness :
    (laid_out (vstack [FIXED 3, ABSOLUTE 9, FLEX 100]) 0 0 80 24).map Widget.rect =
      [(0, 0, 80, 3), (0, 3, 80, 0), (0, 3, 80, 21)] ∧
    (laid_out (vstack [FIXED 3, FLEX 100]) 0 0 80 24).map Widget.rect =
      [(0, 0, 80, 3), (0, 3, 80, 21)] ∧
    (∃ r, (laid_out (vstack [FIXED 3, ABSOLUTE 9, FLEX 100]) 0 0 80 24)[1]? = some r ∧
      r.h = 0 ∧
      ∀ q, (laid_out (vstack [FIXED 3, ABSOLUTE 9, FLEX 100]) 0 0 80 24)[1 + 1]? = some q →
        q.y = r.y) :=
  ⟨by decide, by decide,
    (absolute_on_primary_axis.2.2.2.2.1 (vstack [FIXED 3, ABSOLUTE 9, FLEX 100]) 0 0 80 24 1
      (leaf (FLEX 100) (ABSOLUTE 9)) (by decide) (by decide) rfl).1 rfl rfl⟩

/-! ## C25: the fields of the login form -/

/-- C25: starting from a fresh `LoginWidget`, after every finite sequence of
bytes passed to `handle_key` the username and the password each hold at most
24 characters, all of them printable bytes from 32 to 126.  CR (13) and LF
(10) only toggle `typing_password` and change neither text.  Byte 127 removes
the last character of the field being typed, the username when
`typing_password` is clear and the password when it is set, or does nothing
when that field is empty, and leaves the other field and `typing_password` as
they were. -/
theorem login_field_invariant :
    (∀ (r : Cxx.Rect) (keys : List Nat),
      Cxx.field_ok (Cxx.handle_keys (Cxx.mk_login r) keys).username ∧
      Cxx.field_ok (Cxx.handle_keys (Cxx.mk_login r) keys).password) ∧
    (∀ (b : Cxx.Rect) (u p : String) (tp : Bool) (c : Nat), c = 13 ∨ c = 10 →
      (Cxx.Widget.LoginWidget b u p tp).handle_key c = Cxx.Widget.LoginWidget b u p (!tp)) ∧
    (∀ (b : Cxx.Rect) (u p : String) (ch : Char),
      (Cxx.Widget.LoginWidget b (u.push ch) p false).handle_key 127 =
        Cxx.Widget.LoginWidget b u p false ∧
      (Cxx.Widget.LoginWidget b u (p.push ch) true).handle_key 127 =
        Cxx.Widget.LoginWidget b u p true) ∧
    (∀ (b : Cxx.Rect) (u p : String),
      (u.length ≠ 0 → (Cxx.Widget.LoginWidget b u p false).handle_key 127 =
        Cxx.Widget.LoginWidget b ⟨u.data.dropLast⟩ p false) ∧
      (p.length ≠ 0 → (Cxx.Widget.LoginWidget b u p true).handle_key 127 =
        Cxx.Widget.LoginWidget b u ⟨p.data.dropLast⟩ true)) ∧
    (∀ (b : Cxx.Rect) (s : String),
      (Cxx.Widget.LoginWidget b "" s false).handle_key 127 =
        Cxx.Widget.LoginWidget b "" s false ∧
      (Cxx.Widget.LoginWidget b s "" true).handle_key 127 =
        Cxx.Widget.LoginWidget b s "" true) := by
  refine ⟨fun r keys => Cxx.handle_keys_ok keys (Cxx.mk_login r)
      ⟨Cxx.field_ok_empty, Cxx.field_ok_empty⟩, ?_, ?_, ?_, ?_⟩
  · intro b u p tp c hc
    rw [Cxx.handle_key_login, if_pos hc]
  · intro b u p ch
    have hu : (u.push ch).length ≠ 0 := by rw [String.length_push]; omega
    have hp : (p.push ch).length ≠ 0 := by rw [String.length_push]; omega
    constructor
    · show Cxx.Widget.LoginWidget b (Cxx.edit_target (u.push ch) 127) p false = _
      unfold Cxx.edit_target
      rw [if_pos rfl, if_pos hu, Cxx.pop_back_push]
    · show Cxx.Widget.LoginWidget b u (Cxx.edit_target (p.push ch) 127) true = _
      unfold Cxx.edit_target
      rw [if_pos rfl, if_pos hp, Cxx.pop_back_push]
  · intro b u p
    constructor
    · intro hu
      show Cxx.Widget.LoginWidget b (Cxx.edit_target u 127) p false = _
      unfold Cxx.edit_target
      rw [if_pos rfl, if_pos hu]
      rfl
    · intro hp
      show Cxx.Widget.LoginWidget b u (Cxx.edit_target p 127) true = _
      unfold Cxx.edit_target
      rw [if_pos rfl, if_pos hp]
      rfl
  · intro b s
    exact ⟨rfl, rfl⟩

/-- C25 at the bytes `a`, `b`, CR, `x`, 127, 127, LF, 127 typed into a fresh
`LoginWidget`: the username ends as `a`, the password empty, and both fields
are well formed. -/
theorem login_field_invariant_witness :
    Cxx.handle_keys (Cxx.mk_login ⟨20, 6, 40, 12⟩) [97, 98, 13, 120, 127, 127, 10, 127] =
      Cxx.Widget.LoginWidget ⟨20, 6, 40, 12⟩ "a" "" false ∧
    Cxx.field_ok
      (Cxx.handle_keys (Cxx.mk_login ⟨20, 6, 40, 12⟩)
        [97, 98, 13, 120, 127, 127, 10, 127]).username :=
  ⟨by decide,
    (login_field_invariant.1 ⟨20, 6, 40, 12⟩ [97, 98, 13, 120, 127, 127, 10, 127]).1⟩

/-! ## C26: the border stays inside the widget -/

end TuiCxx
